import Mathlib

/-! A last-hour event counter: embedding and verification.

Shallow embedding of `last_hour_counter.go` (package `counters`) together with the
time-source double `unixTimerMock` of `last_hour_counter_test.go`.

Conventions of the embedding.

* The program is embedded twice.  In the first embedding (`initialise`,
  `adjustStateToCurrentTime`, `Value`, `Increment`) Go `int64` and `int` values are
  unbounded integers: it is exact on the executions in which no operation of the
  program overflows.  The results about chronological runs that start at a time of
  at least 3600 are stated on it: on such a run `now - 3600`, its distance to the
  window start and the new window start lie between 0 and `now`.  In the second
  (`initialise64`,
  `adjustStateToCurrentTime64`, `Value64`, `Increment64`) every arithmetic operation
  wraps around at 64 bits (`wrap64`), as `int64`, and `int` on 64-bit platforms, do:
  it is exact for all values, `int` being taken as 64 bits wide, and the results
  about arbitrary states and readings are stated on it.  `initialise64_eq` and
  `adjustStateToCurrentTime64_eq` relate the two.
* Go's `/` and `%` truncate toward zero: they are `Int.tdiv` and `Int.tmod`.
* A slice is a `List Int`; an indexing operation outside `0 ≤ i < len` is the
  run-time panic `Panic.indexOutOfRange`.
* The receiver `c *LastHourCounter` is mutated in place and a panic leaves the
  fields as they were at the moment of the panic, so every operation returns an
  `Outcome`: either a normal return or a panic, both carrying the counter.
* A time source (`UnixTimer`) is represented by the sequence of values it returns,
  in the form of the test double `unixTimerMock`: a list of prepared values and
  the index of the next one.  Its state is kept in the counter's `Timer` field.
-/

namespace Counters

/-! ## Data model -/

/-- Ways in which an operation can panic: `panic(v)` called by the program with a
string value, or one of the run-time errors of the Go language. -/
inductive Panic where
  | value (v : String)
  | indexOutOfRange
  | integerDivideByZero
  | makesliceLenOutOfRange
  deriving DecidableEq

/-- The time-source double `unixTimerMock`: index of the next value and the
prepared values. -/
structure unixTimerMock where
  i : Nat
  timesToReturn : List Int
  deriving DecidableEq

/-- The struct `LastHourCounter`. -/
structure LastHourCounter where
  lastHourUnixTimestamp : Int
  countPerBucket : List Int
  minutesInBucket : Int
  Timer : unixTimerMock
  deriving DecidableEq

/-- Result of running an operation on a counter: a normal return with a value, or a
panic; both carry the counter as the operation left it. -/
inductive Outcome (α : Type) where
  | ret (v : α) (c : LastHourCounter)
  | panic (p : Panic) (c : LastHourCounter)
  deriving DecidableEq

/-- The value returned, when the operation returned normally. -/
def Outcome.value? {α : Type} : Outcome α → Option α
  | .ret v _ => some v
  | .panic _ _ => none

/-- The counter as the operation left it. -/
def Outcome.counter {α : Type} : Outcome α → LastHourCounter
  | .ret _ c => c
  | .panic _ c => c

/-- The panic raised, when the operation panicked. -/
def Outcome.panic? {α : Type} : Outcome α → Option Panic
  | .ret _ _ => none
  | .panic p _ => some p

/-- The two public operations of the counter. -/
inductive Call where
  | Increment
  | Value
  deriving DecidableEq

/-! ## The program -/

/-- The constant `defaultMinutesInBucket`. -/
def defaultMinutesInBucket : Int := 4

/-- The value `initialize` panics with. -/
def divisorPanicValue : String := "Minutes in bucket should be a divisor of 60"

/-- The value `unixTimerMock.CurrentUnixTime` panics with. -/
def timerPanicValue : String := "unexpected CurrentUnixTime call"

/-- Method `(*unixTimerMock).CurrentUnixTime`: `none` is the panic of an exhausted
mock (which leaves the mock unchanged), otherwise the value read and the advanced
mock. -/
def unixTimerMock.CurrentUnixTime (m : unixTimerMock) : Option (Int × unixTimerMock) :=
  if m.timesToReturn.length ≤ m.i then none
  else
    match m.timesToReturn[m.i]? with
    | none => none
    | some res => some (res, ⟨m.i + 1, m.timesToReturn⟩)

/-- Slice read `s[i]` with Go's bounds check. -/
def sliceGet (s : List Int) (i : Int) : Option Int :=
  if 0 ≤ i ∧ i < s.length then s[i.toNat]? else none

/-- Slice write `s[i] = v` with Go's bounds check. -/
def sliceSet (s : List Int) (i : Int) (v : Int) : Option (List Int) :=
  if 0 ≤ i ∧ i < s.length then some (s.set i.toNat v) else none

/-- Method `initialize` (spelt `initialise` here, the other spelling being a
reserved word of Lean), with arithmetic over the integers: it is the method exactly
when the subtraction `CurrentUnixTime() - 60*60` does not overflow, that is, for a
reading of at least `-2^63 + 3600` (`initialise64_eq`). The check `c.Timer == nil` has
no counterpart: a time source is always present in the embedding. -/
def initialise (c : LastHourCounter) : Outcome Unit :=
  let c1 : LastHourCounter :=
    if c.minutesInBucket = 0 then
      ⟨c.lastHourUnixTimestamp, c.countPerBucket, defaultMinutesInBucket, c.Timer⟩
    else c
  if Int.tmod 60 c1.minutesInBucket ≠ 0 then
    .panic (.value divisorPanicValue) c1
  else if Int.tdiv 60 c1.minutesInBucket < 0 then
    .panic .makesliceLenOutOfRange c1
  else
    let c2 : LastHourCounter :=
      ⟨c1.lastHourUnixTimestamp, List.replicate (Int.tdiv 60 c1.minutesInBucket).toNat 0,
        c1.minutesInBucket, c1.Timer⟩
    match c2.Timer.CurrentUnixTime with
    | none => .panic (.value timerPanicValue) c2
    | some (t, m) => .ret () ⟨t - 60 * 60, c2.countPerBucket, c2.minutesInBucket, m⟩

/-- First loop of `adjustStateToCurrentTime`,
`for ; i < len(c.countPerBucket)-bucketsToHourAgo; i++`, with body
`c.countPerBucket[i] = c.countPerBucket[i+bucketsToHourAgo]`.  The bound does not
change during the loop, so the loop is given by its remaining number of rounds;
the result is the slice after the loop, or the slice at the moment of an
out-of-range panic. -/
def shiftLoop (bucketsToHourAgo : Int) : Nat → Int → List Int → Except (List Int) (List Int)
  | 0, _, s => .ok s
  | rounds + 1, i, s =>
    match sliceGet s (i + bucketsToHourAgo) with
    | none => .error s
    | some v =>
      match sliceSet s i v with
      | none => .error s
      | some s1 => shiftLoop bucketsToHourAgo rounds (i + 1) s1

/-- Second loop of `adjustStateToCurrentTime`, `for ; i <= len(c.countPerBucket)-1; i++`,
with body `c.countPerBucket[i] = 0`, given by its remaining number of rounds. -/
def zeroLoop : Nat → Int → List Int → Except (List Int) (List Int)
  | 0, _, s => .ok s
  | rounds + 1, i, s =>
    match sliceSet s i 0 with
    | none => .error s
    | some s1 => zeroLoop rounds (i + 1) s1

/-- Method `adjustStateToCurrentTime`, with arithmetic over the integers: it is the
method exactly when no operation overflows (`adjustStateToCurrentTime64_eq`). The first
loop runs while `i < len - bucketsToHourAgo` from `i = 0`, that is
`max 0 (len - bucketsToHourAgo)` rounds; the second continues from the same `i` while
`i ≤ len - 1`. -/
def adjustStateToCurrentTime (c : LastHourCounter) (currUnixTimestamp : Int) : Outcome Unit :=
  let hourAgo := currUnixTimestamp - 60 * 60
  if hourAgo < c.lastHourUnixTimestamp then
    .ret () c
  else
    let minutesPassedToHourAgo := Int.tdiv (hourAgo - c.lastHourUnixTimestamp) 60
    if c.minutesInBucket = 0 then
      .panic .integerDivideByZero c
    else
      let bucketsToHourAgo := Int.tdiv minutesPassedToHourAgo c.minutesInBucket + 1
      let lastHour := c.lastHourUnixTimestamp + bucketsToHourAgo * c.minutesInBucket * 60
      let len : Int := c.countPerBucket.length
      let rounds1 := (len - bucketsToHourAgo).toNat
      match shiftLoop bucketsToHourAgo rounds1 0 c.countPerBucket with
      | .error s => .panic .indexOutOfRange ⟨lastHour, s, c.minutesInBucket, c.Timer⟩
      | .ok s1 =>
        let i : Int := rounds1
        match zeroLoop (len - i).toNat i s1 with
        | .error s => .panic .indexOutOfRange ⟨lastHour, s, c.minutesInBucket, c.Timer⟩
        | .ok s2 => .ret () ⟨lastHour, s2, c.minutesInBucket, c.Timer⟩

/-- Method `Value`, with arithmetic over the integers: lazy initialization when
`lastHourUnixTimestamp == 0`, one reading of the time source, the rotation to the time
read, and the loop `total += count` over the buckets, a left fold. -/
def Value (c : LastHourCounter) : Outcome Int :=
  match (if c.lastHourUnixTimestamp = 0 then initialise c else Outcome.ret () c) with
  | .panic p c1 => .panic p c1
  | .ret _ c1 =>
    match c1.Timer.CurrentUnixTime with
    | none => .panic (.value timerPanicValue) c1
    | some (currUnixTimestamp, m) =>
      match adjustStateToCurrentTime
          ⟨c1.lastHourUnixTimestamp, c1.countPerBucket, c1.minutesInBucket, m⟩
          currUnixTimestamp with
      | .panic p c2 => .panic p c2
      | .ret _ c2 =>
        .ret (c2.countPerBucket.foldl (fun total count => total + count) 0) c2

/-- Method `Increment`, with arithmetic over the integers: the same first three
statements as `Value`, then `c.countPerBucket[len-1] = c.countPerBucket[len-1] + 1`. -/
def Increment (c : LastHourCounter) : Outcome Unit :=
  match (if c.lastHourUnixTimestamp = 0 then initialise c else Outcome.ret () c) with
  | .panic p c1 => .panic p c1
  | .ret _ c1 =>
    match c1.Timer.CurrentUnixTime with
    | none => .panic (.value timerPanicValue) c1
    | some (currUnixTimestamp, m) =>
      match adjustStateToCurrentTime
          ⟨c1.lastHourUnixTimestamp, c1.countPerBucket, c1.minutesInBucket, m⟩
          currUnixTimestamp with
      | .panic p c2 => .panic p c2
      | .ret _ c2 =>
        let last : Int := (c2.countPerBucket.length : Int) - 1
        match sliceGet c2.countPerBucket last with
        | none => .panic .indexOutOfRange c2
        | some v =>
          match sliceSet c2.countPerBucket last (v + 1) with
          | none => .panic .indexOutOfRange c2
          | some s => .ret () ⟨c2.lastHourUnixTimestamp, s, c2.minutesInBucket, c2.Timer⟩

/-! ## Runs -/

/-- A counter as declared by `LastHourCounter{Timer: timerMock, minutesInBucket: w}`
with a mock prepared with `times`: all other fields have their zero value. -/
def fresh (w : Int) (times : List Int) : LastHourCounter :=
  ⟨0, [], w, ⟨0, times⟩⟩

/-- One public call; the value returned is `some v` for `Value`, `none` for
`Increment`. -/
def doCall (c : LastHourCounter) : Call → Outcome (Option Int)
  | .Increment =>
    match Increment c with
    | .ret _ c1 => .ret none c1
    | .panic p c1 => .panic p c1
  | .Value =>
    match Value c with
    | .ret v c1 => .ret (some v) c1
    | .panic p c1 => .panic p c1

/-- A sequence of public calls, one after the other; a panic ends the run. -/
def runCalls : List Call → LastHourCounter → Outcome Unit
  | [], c => .ret () c
  | call :: rest, c =>
    match doCall c call with
    | .ret _ c1 => runCalls rest c1
    | .panic p c1 => .panic p c1

/-- A sequence of public calls followed by a `Value` call, whose outcome is the
result. -/
def runThenValue (calls : List Call) (c : LastHourCounter) : Outcome Int :=
  match runCalls calls c with
  | .ret _ c1 => Value c1
  | .panic p c1 => .panic p c1

/-! ## The program with 64-bit arithmetic -/

/-- The 64-bit two's-complement integer that an `int64` operation yields when its
mathematical result is `x`: the representative of `x` modulo `2^64` in
`[-2^63, 2^63)`.  `int` is taken to be 64 bits wide as well (as on amd64 and arm64). -/
def wrap64 (x : Int) : Int :=
  (x + 2 ^ 63) % 2 ^ 64 - 2 ^ 63

/-- Method `initialize`, with 64-bit arithmetic: `60 % w` and `60 / w` cannot overflow,
the subtraction `c.Timer.CurrentUnixTime() - 60*60` wraps. -/
def initialise64 (c : LastHourCounter) : Outcome Unit :=
  let c1 : LastHourCounter :=
    if c.minutesInBucket = 0 then
      ⟨c.lastHourUnixTimestamp, c.countPerBucket, defaultMinutesInBucket, c.Timer⟩
    else c
  if Int.tmod 60 c1.minutesInBucket ≠ 0 then
    .panic (.value divisorPanicValue) c1
  else if Int.tdiv 60 c1.minutesInBucket < 0 then
    .panic .makesliceLenOutOfRange c1
  else
    let c2 : LastHourCounter :=
      ⟨c1.lastHourUnixTimestamp, List.replicate (Int.tdiv 60 c1.minutesInBucket).toNat 0,
        c1.minutesInBucket, c1.Timer⟩
    match c2.Timer.CurrentUnixTime with
    | none => .panic (.value timerPanicValue) c2
    | some (t, m) => .ret () ⟨wrap64 (t - 60 * 60), c2.countPerBucket, c2.minutesInBucket, m⟩

/-- Method `adjustStateToCurrentTime`, with 64-bit arithmetic: each subtraction,
division, addition and multiplication wraps.  The loops are those of
`adjustStateToCurrentTime`: a round of the first loop runs only when
`i < len - bucketsToHourAgo` holds without overflow, so that the index
`i + bucketsToHourAgo` is computed exactly. -/
def adjustStateToCurrentTime64 (c : LastHourCounter) (currUnixTimestamp : Int) :
    Outcome Unit :=
  let hourAgo := wrap64 (currUnixTimestamp - 60 * 60)
  if hourAgo < c.lastHourUnixTimestamp then
    .ret () c
  else
    let minutesPassedToHourAgo :=
      wrap64 (Int.tdiv (wrap64 (hourAgo - c.lastHourUnixTimestamp)) 60)
    if c.minutesInBucket = 0 then
      .panic .integerDivideByZero c
    else
      let bucketsToHourAgo :=
        wrap64 (wrap64 (Int.tdiv minutesPassedToHourAgo c.minutesInBucket) + 1)
      let lastHour := wrap64 (c.lastHourUnixTimestamp
        + wrap64 (wrap64 (bucketsToHourAgo * c.minutesInBucket) * 60))
      let len : Int := c.countPerBucket.length
      let rounds1 := (wrap64 (len - bucketsToHourAgo)).toNat
      match shiftLoop bucketsToHourAgo rounds1 0 c.countPerBucket with
      | .error s => .panic .indexOutOfRange ⟨lastHour, s, c.minutesInBucket, c.Timer⟩
      | .ok s1 =>
        let i : Int := rounds1
        match zeroLoop (len - i).toNat i s1 with
        | .error s => .panic .indexOutOfRange ⟨lastHour, s, c.minutesInBucket, c.Timer⟩
        | .ok s2 => .ret () ⟨lastHour, s2, c.minutesInBucket, c.Timer⟩

/-- Method `Value`, with 64-bit arithmetic: the sum `total += count` wraps. -/
def Value64 (c : LastHourCounter) : Outcome Int :=
  match (if c.lastHourUnixTimestamp = 0 then initialise64 c else Outcome.ret () c) with
  | .panic p c1 => .panic p c1
  | .ret _ c1 =>
    match c1.Timer.CurrentUnixTime with
    | none => .panic (.value timerPanicValue) c1
    | some (currUnixTimestamp, m) =>
      match adjustStateToCurrentTime64
          ⟨c1.lastHourUnixTimestamp, c1.countPerBucket, c1.minutesInBucket, m⟩
          currUnixTimestamp with
      | .panic p c2 => .panic p c2
      | .ret _ c2 =>
        .ret (c2.countPerBucket.foldl (fun total count => wrap64 (total + count)) 0) c2

/-- Method `Increment`, with 64-bit arithmetic: the addition of 1 to the newest bucket
wraps (`len - 1` cannot overflow). -/
def Increment64 (c : LastHourCounter) : Outcome Unit :=
  match (if c.lastHourUnixTimestamp = 0 then initialise64 c else Outcome.ret () c) with
  | .panic p c1 => .panic p c1
  | .ret _ c1 =>
    match c1.Timer.CurrentUnixTime with
    | none => .panic (.value timerPanicValue) c1
    | some (currUnixTimestamp, m) =>
      match adjustStateToCurrentTime64
          ⟨c1.lastHourUnixTimestamp, c1.countPerBucket, c1.minutesInBucket, m⟩
          currUnixTimestamp with
      | .panic p c2 => .panic p c2
      | .ret _ c2 =>
        let last : Int := (c2.countPerBucket.length : Int) - 1
        match sliceGet c2.countPerBucket last with
        | none => .panic .indexOutOfRange c2
        | some v =>
          match sliceSet c2.countPerBucket last (wrap64 (v + 1)) with
          | none => .panic .indexOutOfRange c2
          | some s => .ret () ⟨c2.lastHourUnixTimestamp, s, c2.minutesInBucket, c2.Timer⟩

/-- One public call, with 64-bit arithmetic. -/
def doCall64 (c : LastHourCounter) : Call → Outcome (Option Int)
  | .Increment =>
    match Increment64 c with
    | .ret _ c1 => .ret none c1
    | .panic p c1 => .panic p c1
  | .Value =>
    match Value64 c with
    | .ret v c1 => .ret (some v) c1
    | .panic p c1 => .panic p c1

/-- A sequence of public calls, with 64-bit arithmetic; a panic ends the run. -/
def runCalls64 : List Call → LastHourCounter → Outcome Unit
  | [], c => .ret () c
  | call :: rest, c =>
    match doCall64 c call with
    | .ret _ c1 => runCalls64 rest c1
    | .panic p c1 => .panic p c1

/-- A sequence of public calls followed by a `Value` call, with 64-bit arithmetic. -/
def runThenValue64 (calls : List Call) (c : LastHourCounter) : Outcome Int :=
  match runCalls64 calls c with
  | .ret _ c1 => Value64 c1
  | .panic p c1 => .panic p c1

/-! ## Notions used to state the properties -/

/-- The three statements that `Value` and `Increment` start with: lazy initialization
when `lastHourUnixTimestamp == 0`, one reading of the time source, and the rotation
to the time read. -/
def refresh (c : LastHourCounter) : Outcome Unit :=
  match (if c.lastHourUnixTimestamp = 0 then initialise c else Outcome.ret () c) with
  | .panic p c1 => .panic p c1
  | .ret _ c1 =>
    match c1.Timer.CurrentUnixTime with
    | none => .panic (.value timerPanicValue) c1
    | some (currUnixTimestamp, m) =>
      adjustStateToCurrentTime
        ⟨c1.lastHourUnixTimestamp, c1.countPerBucket, c1.minutesInBucket, m⟩ currUnixTimestamp

/-- Effect of the two loops of `adjustStateToCurrentTime` for a shift by `k`
buckets: the first `k` buckets are dropped and as many zero buckets are appended
(all buckets are zero when `k` is at least the number of buckets). -/
def rotated (k : Nat) (s : List Int) : List Int :=
  s.drop k ++ List.replicate (min k s.length) 0

/-- Number of buckets by which a rotation to time `now` shifts a window that starts
at `L`, for a bucket width of `w` minutes (floor divisions). -/
def bucketsToShift (w L now : Int) : Int :=
  (now - 3600 - L) / 60 / w + 1

/-- The counter after a rotation to time `now`: unchanged when `now - 3600` is
before the window start, otherwise the window start is advanced by
`bucketsToShift` buckets and the buckets are shifted by as many places. -/
def rotateTo (c : LastHourCounter) (now : Int) : LastHourCounter :=
  if now - 3600 < c.lastHourUnixTimestamp then c
  else
    ⟨c.lastHourUnixTimestamp +
        bucketsToShift c.minutesInBucket c.lastHourUnixTimestamp now * c.minutesInBucket * 60,
      rotated (bucketsToShift c.minutesInBucket c.lastHourUnixTimestamp now).toNat
        c.countPerBucket,
      c.minutesInBucket, c.Timer⟩

/-- Time `t` falls into the `i`-th slice of width `W` of a window that starts at `L`. -/
def inBucket (L W : Int) (i : Nat) (t : Int) : Bool :=
  decide (L + (i : Int) * W ≤ t ∧ t < L + ((i : Int) + 1) * W)

/-- For each of `n` slices of width `W` from `L` on, the number of the times `es`
that fall into it. -/
def bucketCounts (L W : Int) (n : Nat) (es : List Int) : List Int :=
  (List.range n).map (fun i => ((es.countP (inBucket L W i) : Nat) : Int))

/-- The counter `c`, configured with a width of `w` minutes and initialized at `T0`,
records the events `es`: its window start lies on the grid of step `w*60` through
`T0`, bucket `i` holds the number of events of the `i`-th slice of the window, and
no event lies beyond the window. -/
structure Tracks (w T0 : Int) (es : List Int) (c : LastHourCounter) : Prop where
  width : c.minutesInBucket = w
  grid : (w * 60) ∣ (c.lastHourUnixTimestamp - T0)
  buckets : c.countPerBucket = bucketCounts c.lastHourUnixTimestamp (w * 60) (60 / w).toNat es
  recent : ∀ e ∈ es, e < c.lastHourUnixTimestamp + 3600

/-- The window of `c` is the one of a rotation at time `t`: it starts after
`t - 3600`, by at most one bucket width. -/
def Settled (t : Int) (c : LastHourCounter) : Prop :=
  t - 3600 < c.lastHourUnixTimestamp ∧
    c.lastHourUnixTimestamp ≤ t - 3600 + c.minutesInBucket * 60

/-- Times read by the `Increment` calls of a sequence of calls, each call given with
the time it reads. -/
def eventTimes : List (Call × Int) → List Int
  | [] => []
  | (Call.Increment, t) :: ops => t :: eventTimes ops
  | (Call.Value, _) :: ops => eventTimes ops

/-- Time read by the last call of a sequence (`t` for the empty sequence). -/
def lastReading : Int → List (Call × Int) → Int
  | t, [] => t
  | _, (_, t) :: ops => lastReading t ops

/-- The calls that replay the event times `es`: one `Increment` per event, reading
the time of the event. -/
def increments (es : List Int) : List (Call × Int) :=
  es.map (fun t => (Call.Increment, t))

/-- A valid bucket width: a positive divisor of 60. -/
def ValidWidth (w : Int) : Prop :=
  0 < w ∧ 60 % w = 0

/-- The counter has a valid width and the `60 / w` buckets that `initialize`
allocates. -/
def Initialised (c : LastHourCounter) : Prop :=
  ValidWidth c.minutesInBucket ∧
    c.countPerBucket.length = (60 / c.minutesInBucket).toNat

/-- The states a counter with a valid configuration goes through: initialized, or
still marked as not initialized (window start 0) with a width that is valid or
unset. -/
def Safe (c : LastHourCounter) : Prop :=
  Initialised c ∨
    (c.lastHourUnixTimestamp = 0 ∧ (c.minutesInBucket = 0 ∨ ValidWidth c.minutesInBucket))

/-- Number of values that the time source can still return. -/
def remainingReadings (c : LastHourCounter) : Nat :=
  c.Timer.timesToReturn.length - c.Timer.i

/-- The counter is initialized and its window start is positive, so that no later call
finds the zero that stands for "not initialized". -/
def Started (c : LastHourCounter) : Prop :=
  Initialised c ∧ 0 < c.lastHourUnixTimestamp

/-- The structural invariant for a width `w`: the counter stores the width `w`, has
exactly `60 / w` buckets, and no bucket is negative. -/
def BucketsWellFormed (w : Int) (c : LastHourCounter) : Prop :=
  c.minutesInBucket = w ∧ (c.countPerBucket.length : Int) = 60 / w ∧
    ∀ x ∈ c.countPerBucket, 0 ≤ x

/-- The three statements that `Value64` and `Increment64` start with. -/
def refresh64 (c : LastHourCounter) : Outcome Unit :=
  match (if c.lastHourUnixTimestamp = 0 then initialise64 c else Outcome.ret () c) with
  | .panic p c1 => .panic p c1
  | .ret _ c1 =>
    match c1.Timer.CurrentUnixTime with
    | none => .panic (.value timerPanicValue) c1
    | some (currUnixTimestamp, m) =>
      adjustStateToCurrentTime64
        ⟨c1.lastHourUnixTimestamp, c1.countPerBucket, c1.minutesInBucket, m⟩ currUnixTimestamp

/-- Number of calls of a run with 64-bit arithmetic that execute `c.initialize()`, that
is, that find `lastHourUnixTimestamp == 0` when they start; the run ends at a panic. -/
def initializations64 : List Call → LastHourCounter → Nat
  | [], _ => 0
  | call :: rest, c =>
    (if c.lastHourUnixTimestamp = 0 then 1 else 0) +
      match doCall64 c call with
      | .ret _ c1 => initializations64 rest c1
      | .panic _ _ => 0

/-- The width that `initialize` stores: the default 4 for an unset width. -/
def effectiveWidth (w : Int) : Int :=
  if w = 0 then defaultMinutesInBucket else w

/-- No 64-bit operation of the rotation of `c` to the time `now` overflows:
`now - 3600`, the difference `now - 3600 - lastHourUnixTimestamp` and the first bucket
boundary after `now - 3600`, which is at most `now - 3600 + minutesInBucket*60`, are
64-bit integers, and so is the number of buckets (as for every slice). -/
@[reducible] def NoOverflow (c : LastHourCounter) (now : Int) : Prop :=
  -2 ^ 63 + 3600 ≤ now ∧
  now - 3600 - c.lastHourUnixTimestamp < 2 ^ 63 ∧
  now - 3600 + c.minutesInBucket * 60 < 2 ^ 63 ∧
  (c.countPerBucket.length : Int) < 2 ^ 63

/-- A time in the interval `[a, a + 2^63)`; the bound `a` is taken with
`-2^63 + 3600 ≤ a ≤ 0`, so that the interval can be that of all times from 0 to
`2^63 - 1`, or that of the times from `-2^62` to `2^62 - 1`.  The difference of two
times of one such interval is a 64-bit integer. -/
@[reducible] def TimeInRange (a t : Int) : Prop :=
  a ≤ t ∧ t < a + 2 ^ 63

/-- A window start that an initialization or a rotation at a time of the interval
`[a, a + 2^63)` can have left: at least `a - 3600`. -/
@[reducible] def WindowInRange (a L : Int) : Prop :=
  a - 3600 ≤ L

/-! ## The loops of the rotation -/

theorem sliceGet_natCast (s : List Int) (j : Nat) : sliceGet s (j : Int) = s[j]? := by
  unfold sliceGet
  by_cases h : j < s.length
  · simp [h]
  · simp [h]
    omega

theorem sliceSet_natCast (s : List Int) (j : Nat) (v : Int) (h : j < s.length) :
    sliceSet s (j : Int) v = some (s.set j v) := by
  unfold sliceSet
  simp [h]

theorem shiftLoop_spec (k : Nat) : ∀ (rounds i : Nat) (s : List Int),
    (0 < rounds → i + rounds + k ≤ s.length) →
    ∃ s1, shiftLoop (k : Int) rounds (i : Int) s = .ok s1 ∧ s1.length = s.length ∧
      ∀ j, s1[j]? = if i ≤ j ∧ j < i + rounds then s[j + k]? else s[j]? := by
  intro rounds
  induction rounds with
  | zero =>
    intro i s _
    refine ⟨s, rfl, rfl, ?_⟩
    intro j
    rw [if_neg (by omega)]
  | succ r ih =>
    intro i s h
    have h := h (Nat.succ_pos r)
    have hik : i + k < s.length := by omega
    have hi : i < s.length := by omega
    have e1 : ((i : Int) + (k : Int)) = ((i + k : Nat) : Int) := by push_cast; rfl
    have e2 : ((i : Int) + 1) = ((i + 1 : Nat) : Int) := by push_cast; rfl
    obtain ⟨s1, hs1, hlen, hget⟩ := ih (i + 1) (s.set i s[i + k]) (by
      intro _
      simp
      omega)
    refine ⟨s1, ?_, by simpa using hlen, ?_⟩
    · simp only [shiftLoop, e1, sliceGet_natCast, List.getElem?_eq_getElem hik,
        sliceSet_natCast _ _ _ hi, e2]
      exact hs1
    · intro j
      rw [hget j]
      by_cases hj : j = i
      · subst hj
        rw [if_neg (by omega), if_pos (by omega), List.getElem?_set_self hi,
          List.getElem?_eq_getElem hik]
      · by_cases hc : i + 1 ≤ j ∧ j < i + 1 + r
        · have hne : i ≠ j + k := by omega
          rw [if_pos hc, if_pos (by omega), List.getElem?_set_ne hne]
        · rw [if_neg hc, if_neg (by omega), List.getElem?_set_ne (Ne.symm hj)]

theorem zeroLoop_spec : ∀ (rounds i : Nat) (s : List Int),
    i + rounds ≤ s.length →
    ∃ s1, zeroLoop rounds (i : Int) s = .ok s1 ∧ s1.length = s.length ∧
      ∀ j, s1[j]? = if i ≤ j ∧ j < i + rounds then some 0 else s[j]? := by
  intro rounds
  induction rounds with
  | zero =>
    intro i s _
    refine ⟨s, rfl, rfl, ?_⟩
    intro j
    rw [if_neg (by omega)]
  | succ r ih =>
    intro i s h
    have hi : i < s.length := by omega
    have e2 : ((i : Int) + 1) = ((i + 1 : Nat) : Int) := by push_cast; rfl
    obtain ⟨s1, hs1, hlen, hget⟩ := ih (i + 1) (s.set i 0) (by simp; omega)
    refine ⟨s1, ?_, by simpa using hlen, ?_⟩
    · simp only [zeroLoop, sliceSet_natCast _ _ _ hi, e2]
      exact hs1
    · intro j
      rw [hget j]
      by_cases hj : j = i
      · subst hj
        rw [if_neg (by omega), if_pos (by omega), List.getElem?_set_self hi]
      · by_cases hc : i + 1 ≤ j ∧ j < i + 1 + r
        · rw [if_pos hc, if_pos (by omega)]
        · rw [if_neg hc, if_neg (by omega), List.getElem?_set_ne (Ne.symm hj)]

/-- The two loops together, for a shift by `k ≥ 0` buckets, produce `rotated k s`. -/
theorem loops_spec (k : Nat) (s : List Int) :
    ∃ s1, shiftLoop (k : Int) (((s.length : Int) - (k : Int)).toNat) 0 s = .ok s1 ∧
      zeroLoop (((s.length : Int) - ((((s.length : Int) - (k : Int)).toNat : Nat) : Int)).toNat)
        ((((s.length : Int) - (k : Int)).toNat : Nat) : Int) s1 = .ok (rotated k s) := by
  have hr : ((s.length : Int) - (k : Int)).toNat = s.length - k := by omega
  rw [hr]
  have hr2 : ((s.length : Int) - ((s.length - k : Nat) : Int)).toNat = s.length - (s.length - k) := by
    omega
  rw [hr2]
  obtain ⟨s1, h1, hlen1, hget1⟩ := shiftLoop_spec k (s.length - k) 0 s (by omega)
  obtain ⟨s2, h2, hlen2, hget2⟩ :=
    zeroLoop_spec (s.length - (s.length - k)) (s.length - k) s1 (by omega)
  refine ⟨s1, by simpa using h1, ?_⟩
  rw [h2]
  congr 1
  apply List.ext_getElem?
  intro j
  rw [hget2 j, hget1 j, rotated, List.getElem?_append, List.getElem?_drop,
    List.getElem?_replicate, List.length_drop]
  by_cases hj : j < s.length - k
  · rw [if_neg (by omega), if_pos (by omega), if_pos hj, Nat.add_comm]
  · by_cases hj2 : j < s.length
    · rw [if_pos (by omega), if_neg hj, if_pos (by omega)]
    · rw [if_neg (by omega), if_neg (by omega), if_neg hj, if_neg (by omega)]
      exact List.getElem?_eq_none (by omega)

/-! ## The rotation -/

theorem bucketsToShift_pos (w L now : Int) (hw : 0 < w) (h : L ≤ now - 3600) :
    1 ≤ bucketsToShift w L now := by
  unfold bucketsToShift
  have h1 : 0 ≤ (now - 3600 - L) / 60 := Int.ediv_nonneg (by omega) (by norm_num)
  have h2 : 0 ≤ (now - 3600 - L) / 60 / w := Int.ediv_nonneg h1 (le_of_lt hw)
  omega

/-- For a positive bucket width the rotation never panics and yields `rotateTo`. -/
theorem adjustStateToCurrentTime_eq (c : LastHourCounter) (now : Int)
    (hw : 0 < c.minutesInBucket) :
    adjustStateToCurrentTime c now = .ret () (rotateTo c now) := by
  unfold adjustStateToCurrentTime rotateTo
  have e3600 : now - 60 * 60 = now - 3600 := by norm_num
  simp only [e3600]
  by_cases hlt : now - 3600 < c.lastHourUnixTimestamp
  · rw [if_pos hlt, if_pos hlt]
  · rw [if_neg hlt, if_neg hlt, if_neg (ne_of_gt hw)]
    have hd : 0 ≤ now - 3600 - c.lastHourUnixTimestamp := by omega
    have hm : 0 ≤ (now - 3600 - c.lastHourUnixTimestamp) / 60 :=
      Int.ediv_nonneg hd (by norm_num)
    have ek : Int.tdiv (Int.tdiv (now - 3600 - c.lastHourUnixTimestamp) 60) c.minutesInBucket + 1
        = bucketsToShift c.minutesInBucket c.lastHourUnixTimestamp now := by
      unfold bucketsToShift
      rw [Int.tdiv_eq_ediv hd (by norm_num), Int.tdiv_eq_ediv hm (le_of_lt hw)]
    have hk := bucketsToShift_pos c.minutesInBucket c.lastHourUnixTimestamp now hw (by omega)
    rw [ek]
    obtain ⟨k, hkn⟩ : ∃ k : Nat,
        bucketsToShift c.minutesInBucket c.lastHourUnixTimestamp now = (k : Int) :=
      ⟨_, (Int.toNat_of_nonneg (by omega)).symm⟩
    rw [hkn, Int.toNat_ofNat]
    obtain ⟨s1, h1, h2⟩ := loops_spec k c.countPerBucket
    simp only [h1, h2]

theorem rotated_zero (s : List Int) : rotated 0 s = s := by
  simp [rotated]

theorem rotated_getElem? (k : Nat) (s : List Int) (j : Nat) :
    (rotated k s)[j]? =
      if j + k < s.length then s[j + k]? else if j < s.length then some 0 else none := by
  rw [rotated, List.getElem?_append, List.getElem?_drop, List.getElem?_replicate,
    List.length_drop]
  by_cases hj : j < s.length - k
  · rw [if_pos hj, if_pos (by omega), Nat.add_comm]
  · by_cases hj2 : j < s.length
    · rw [if_neg hj, if_pos (by omega), if_neg (by omega), if_pos hj2]
    · rw [if_neg hj, if_neg (by omega), if_neg (by omega), if_neg hj2]

/-- Shape of a rotation: the window start advances by a whole number `k ≥ 0` of
buckets and the buckets are shifted by `k` places. -/
theorem rotateTo_shape (c : LastHourCounter) (now : Int) (hw : 0 < c.minutesInBucket) :
    ∃ k : Nat, rotateTo c now =
      ⟨c.lastHourUnixTimestamp + (k : Int) * (c.minutesInBucket * 60),
        rotated k c.countPerBucket, c.minutesInBucket, c.Timer⟩ := by
  unfold rotateTo
  by_cases hlt : now - 3600 < c.lastHourUnixTimestamp
  · refine ⟨0, ?_⟩
    rw [if_pos hlt, rotated_zero]
    simp
  · rw [if_neg hlt]
    have hk := bucketsToShift_pos c.minutesInBucket c.lastHourUnixTimestamp now hw (by omega)
    refine ⟨(bucketsToShift c.minutesInBucket c.lastHourUnixTimestamp now).toNat, ?_⟩
    rw [Int.toNat_of_nonneg (by omega), mul_assoc]

/-- After a rotation to `now` the window starts after `now - 3600`. -/
theorem rotateTo_lastHour_gt (c : LastHourCounter) (now : Int) (hw : 0 < c.minutesInBucket) :
    now - 3600 < (rotateTo c now).lastHourUnixTimestamp := by
  unfold rotateTo
  by_cases hlt : now - 3600 < c.lastHourUnixTimestamp
  · rw [if_pos hlt]
    exact hlt
  · rw [if_neg hlt]
    show now - 3600 < c.lastHourUnixTimestamp +
      bucketsToShift c.minutesInBucket c.lastHourUnixTimestamp now * c.minutesInBucket * 60
    unfold bucketsToShift
    have h1 := Int.lt_ediv_add_one_mul_self ((now - 3600 - c.lastHourUnixTimestamp) / 60) hw
    have h2 : ((now - 3600 - c.lastHourUnixTimestamp) / 60 + 1) * 60
        ≤ ((now - 3600 - c.lastHourUnixTimestamp) / 60 / c.minutesInBucket + 1)
            * c.minutesInBucket * 60 := by
      have := Int.add_one_le_of_lt h1
      exact Int.mul_le_mul_of_nonneg_right this (by norm_num)
    omega

/-- After a rotation to `now` the window starts at most one bucket width after
`now - 3600`, provided it did not start later than that before. -/
theorem rotateTo_lastHour_le (c : LastHourCounter) (now : Int) (hw : 0 < c.minutesInBucket)
    (h : c.lastHourUnixTimestamp ≤ now - 3600 + c.minutesInBucket * 60) :
    (rotateTo c now).lastHourUnixTimestamp ≤ now - 3600 + c.minutesInBucket * 60 := by
  unfold rotateTo
  by_cases hlt : now - 3600 < c.lastHourUnixTimestamp
  · rw [if_pos hlt]
    exact h
  · rw [if_neg hlt]
    show c.lastHourUnixTimestamp +
      bucketsToShift c.minutesInBucket c.lastHourUnixTimestamp now * c.minutesInBucket * 60
        ≤ now - 3600 + c.minutesInBucket * 60
    unfold bucketsToShift
    have h1 := Int.ediv_mul_le ((now - 3600 - c.lastHourUnixTimestamp) / 60) (ne_of_gt hw)
    have h2 : (now - 3600 - c.lastHourUnixTimestamp) / 60 / c.minutesInBucket
        * c.minutesInBucket * 60 ≤ (now - 3600 - c.lastHourUnixTimestamp) / 60 * 60 :=
      Int.mul_le_mul_of_nonneg_right h1 (by norm_num)
    have h3 : ((now - 3600 - c.lastHourUnixTimestamp) / 60 / c.minutesInBucket + 1)
        * c.minutesInBucket * 60
        = (now - 3600 - c.lastHourUnixTimestamp) / 60 / c.minutesInBucket
            * c.minutesInBucket * 60 + c.minutesInBucket * 60 := by ring
    rw [h3]
    omega

theorem rotateTo_minutesInBucket (c : LastHourCounter) (now : Int) :
    (rotateTo c now).minutesInBucket = c.minutesInBucket := by
  unfold rotateTo
  split <;> rfl

theorem rotateTo_Timer (c : LastHourCounter) (now : Int) :
    (rotateTo c now).Timer = c.Timer := by
  unfold rotateTo
  split <;> rfl

theorem rotateTo_settled (c : LastHourCounter) (now : Int) (hw : 0 < c.minutesInBucket)
    (h : c.lastHourUnixTimestamp ≤ now - 3600 + c.minutesInBucket * 60) :
    Settled now (rotateTo c now) := by
  refine ⟨rotateTo_lastHour_gt c now hw, ?_⟩
  rw [rotateTo_minutesInBucket]
  exact rotateTo_lastHour_le c now hw h

/-! ## Buckets as counts of events -/

theorem bucketCount_mul (w : Int) (hw : 0 < w) (hdiv : 60 % w = 0) :
    (((60 / w).toNat : Nat) : Int) * (w * 60) = 3600 := by
  have h1 : 60 / w * w = 60 := Int.ediv_mul_cancel (Int.dvd_of_emod_eq_zero hdiv)
  have h2 : 0 ≤ 60 / w := Int.ediv_nonneg (by norm_num) (le_of_lt hw)
  rw [Int.toNat_of_nonneg h2, ← mul_assoc, h1]
  norm_num

theorem bucketCount_pos (w : Int) (hw : 0 < w) (hdiv : 60 % w = 0) :
    0 < (60 / w).toNat := by
  have h := bucketCount_mul w hw hdiv
  rcases Nat.eq_zero_or_pos (60 / w).toNat with h0 | h0
  · rw [h0] at h
    simp at h
  · exact h0

theorem width_le (w : Int) (hw : 0 < w) (hdiv : 60 % w = 0) : w * 60 ≤ 3600 := by
  have h := bucketCount_mul w hw hdiv
  have h0 := bucketCount_pos w hw hdiv
  have h1 : (1 : Int) ≤ (((60 / w).toNat : Nat) : Int) := by exact_mod_cast h0
  have h2 : 1 * (w * 60) ≤ (((60 / w).toNat : Nat) : Int) * (w * 60) :=
    Int.mul_le_mul_of_nonneg_right h1 (by omega)
  omega

theorem bucketCounts_length (L W : Int) (n : Nat) (es : List Int) :
    (bucketCounts L W n es).length = n := by
  simp [bucketCounts]

theorem bucketCounts_getElem? (L W : Int) (n : Nat) (es : List Int) (j : Nat) :
    (bucketCounts L W n es)[j]? =
      if j < n then some ((es.countP (inBucket L W j) : Nat) : Int) else none := by
  unfold bucketCounts
  rw [List.getElem?_map]
  by_cases hj : j < n
  · rw [if_pos hj, List.getElem?_range hj]
    rfl
  · rw [if_neg hj, List.getElem?_eq_none (by simpa using hj)]
    rfl

theorem bucketCounts_nil (L W : Int) (n : Nat) :
    bucketCounts L W n [] = List.replicate n 0 := by
  apply List.ext_getElem?
  intro j
  rw [bucketCounts_getElem?, List.getElem?_replicate]
  simp

theorem inBucket_shift (L W : Int) (k j : Nat) :
    inBucket (L + (k : Int) * W) W j = inBucket L W (j + k) := by
  funext t
  unfold inBucket
  have e1 : L + (k : Int) * W + (j : Int) * W = L + ((j + k : Nat) : Int) * W := by
    push_cast
    ring
  have e2 : L + (k : Int) * W + ((j : Int) + 1) * W = L + (((j + k : Nat) : Int) + 1) * W := by
    push_cast
    ring
  rw [e1, e2]

/-- Shifting the buckets by `k` places gives the buckets of the window moved by `k`
bucket widths, when no event lies beyond the old window. -/
theorem rotated_bucketCounts (L W : Int) (n k : Nat) (es : List Int) (hW : 0 ≤ W)
    (hrecent : ∀ e ∈ es, e < L + (n : Int) * W) :
    rotated k (bucketCounts L W n es) = bucketCounts (L + (k : Int) * W) W n es := by
  apply List.ext_getElem?
  intro j
  rw [rotated_getElem?, bucketCounts_getElem?, bucketCounts_getElem?, bucketCounts_length]
  by_cases hjk : j + k < n
  · rw [if_pos hjk, if_pos hjk, if_pos (by omega), inBucket_shift]
  · rw [if_neg hjk]
    by_cases hj : j < n
    · rw [if_pos hj, if_pos hj]
      have hz : es.countP (inBucket (L + (k : Int) * W) W j) = 0 := by
        rw [List.countP_eq_zero]
        intro e he
        have h1 := hrecent e he
        have h2 : (n : Int) * W ≤ ((j + k : Nat) : Int) * W :=
          Int.mul_le_mul_of_nonneg_right (by exact_mod_cast (by omega : n ≤ j + k)) hW
        rw [inBucket_shift]
        unfold inBucket
        simp only [decide_eq_true_eq, not_and, not_lt]
        intro h3
        omega
      rw [hz]
      rfl
    · rw [if_neg hj, if_neg hj]

theorem countP_add_pointwise {p q r : Int → Bool}
    (h : ∀ a, (if p a = true then 1 else 0) + (if q a = true then 1 else 0)
      = (if r a = true then 1 else 0 : Nat)) :
    ∀ l : List Int, l.countP p + l.countP q = l.countP r := by
  intro l
  induction l with
  | nil => rfl
  | cons a l ih =>
    have := h a
    simp only [List.countP_cons]
    omega

/-- Sum of the buckets: the number of events inside the window. -/
theorem bucketCounts_sum (L W : Int) (hW : 0 ≤ W) (es : List Int) : ∀ n : Nat,
    (bucketCounts L W n es).sum =
      ((es.countP (fun e => decide (L ≤ e ∧ e < L + (n : Int) * W)) : Nat) : Int) := by
  intro n
  induction n with
  | zero =>
    have hz : es.countP (fun e => decide (L ≤ e ∧ e < L + ((0 : Nat) : Int) * W)) = 0 := by
      rw [List.countP_eq_zero]
      intro e _
      simp only [decide_eq_true_eq, not_and, not_lt]
      intro h
      simp
      exact h
    rw [hz]
    simp [bucketCounts]
  | succ n ih =>
    have hsplit : bucketCounts L W (n + 1) es =
        bucketCounts L W n es ++ [((es.countP (inBucket L W n) : Nat) : Int)] := by
      simp [bucketCounts, List.range_succ]
    rw [hsplit, List.sum_append, ih]
    simp only [List.sum_cons, List.sum_nil, add_zero]
    have hpt : ∀ a : Int,
        (if decide (L ≤ a ∧ a < L + (n : Int) * W) = true then 1 else 0)
          + (if inBucket L W n a = true then 1 else 0)
          = (if decide (L ≤ a ∧ a < L + ((n + 1 : Nat) : Int) * W) = true then 1 else 0 : Nat) := by
      intro a
      have hnW : 0 ≤ (n : Int) * W := Int.mul_nonneg (by omega) hW
      have e1 : ((n + 1 : Nat) : Int) * W = (n : Int) * W + W := by
        push_cast
        ring
      have e2 : ((n : Int) + 1) * W = (n : Int) * W + W := by ring
      unfold inBucket
      simp only [decide_eq_true_eq]
      by_cases ha1 : L ≤ a ∧ a < L + (n : Int) * W
      · rw [if_pos ha1, if_neg (by omega), if_pos (by omega)]
      · by_cases ha2 : L + (n : Int) * W ≤ a ∧ a < L + ((n : Int) + 1) * W
        · rw [if_neg ha1, if_pos ha2, if_pos (by omega)]
        · rw [if_neg ha1, if_neg ha2, if_neg (by omega)]
    rw [← countP_add_pointwise hpt es]
    push_cast
    rfl

theorem foldl_add_eq_sum (s : List Int) :
    s.foldl (fun total count => total + count) 0 = s.sum := by
  rw [List.sum_eq_foldl]

/-! ## The invariant of the counter -/

/-- A rotation keeps the record of the events, for any time. -/
theorem Tracks.afterRotation {w T0 : Int} {es : List Int} {c : LastHourCounter}
    (h : Tracks w T0 es c) (hw : 0 < w) (hdiv : 60 % w = 0) (now : Int) :
    Tracks w T0 es (rotateTo c now) := by
  have hwc : 0 < c.minutesInBucket := by rw [h.width]; exact hw
  obtain ⟨k, hk⟩ := rotateTo_shape c now hwc
  have hn := bucketCount_mul w hw hdiv
  have hkW : 0 ≤ (k : Int) * (w * 60) := Int.mul_nonneg (by omega) (by omega)
  rw [hk, h.width]
  refine ⟨rfl, ?_, ?_, ?_⟩
  · show w * 60 ∣ c.lastHourUnixTimestamp + (k : Int) * (w * 60) - T0
    have e : c.lastHourUnixTimestamp + (k : Int) * (w * 60) - T0
        = (c.lastHourUnixTimestamp - T0) + (k : Int) * (w * 60) := by ring
    rw [e]
    exact dvd_add h.grid (Dvd.intro_left _ rfl)
  · show rotated k c.countPerBucket = _
    rw [h.buckets]
    exact rotated_bucketCounts _ _ _ _ _ (by omega) (by
      intro e he
      have := h.recent e he
      omega)
  · intro e he
    have := h.recent e he
    show e < c.lastHourUnixTimestamp + (k : Int) * (w * 60) + 3600
    omega

/-- The counter right after `initialize` read `T0` records no event. -/
theorem Tracks.init (w T0 : Int) (hw : 0 < w) (hdiv : 60 % w = 0) (m : unixTimerMock) :
    Tracks w T0 [] ⟨T0 - 3600, List.replicate (60 / w).toNat 0, w, m⟩ := by
  refine ⟨rfl, ?_, ?_, ?_⟩
  · show w * 60 ∣ T0 - 3600 - T0
    have e : T0 - 3600 - T0 = -((((60 / w).toNat : Nat) : Int) * (w * 60)) := by
      rw [bucketCount_mul w hw hdiv]
      ring
    rw [e]
    exact (Dvd.intro_left _ rfl).neg_right
  · exact (bucketCounts_nil _ _ _).symm
  · intro e he
    cases he

/-- The value summed by `Value`: the number of recorded events from the window
start on. -/
theorem Tracks.sum {w T0 : Int} {es : List Int} {c : LastHourCounter}
    (h : Tracks w T0 es c) (hw : 0 < w) (hdiv : 60 % w = 0) :
    c.countPerBucket.foldl (fun total count => total + count) 0 =
      ((es.countP (fun e => decide (c.lastHourUnixTimestamp ≤ e)) : Nat) : Int) := by
  rw [foldl_add_eq_sum, h.buckets, bucketCounts_sum _ _ (by omega), bucketCount_mul w hw hdiv]
  congr 1
  apply List.countP_congr
  intro e he
  have := h.recent e he
  simp only [decide_eq_true_eq]
  constructor
  · intro h1
    exact h1.1
  · intro h1
    exact ⟨h1, this⟩

/-- Adding one to the newest bucket records an event at a time `t` for which the
window is settled. -/
theorem Tracks.record {w T0 : Int} {es : List Int} {c : LastHourCounter}
    (h : Tracks w T0 es c) (hw : 0 < w) (hdiv : 60 % w = 0) (t : Int) (hs : Settled t c) :
    ∃ v, c.countPerBucket[(60 / w).toNat - 1]? = some v ∧
      Tracks w T0 (es ++ [t])
        ⟨c.lastHourUnixTimestamp, c.countPerBucket.set ((60 / w).toNat - 1) (v + 1),
          c.minutesInBucket, c.Timer⟩ := by
  have hn := bucketCount_mul w hw hdiv
  have hpos := bucketCount_pos w hw hdiv
  obtain ⟨hs1, hs2⟩ := hs
  rw [h.width] at hs2
  have hcast : (((60 / w).toNat - 1 : Nat) : Int) = (((60 / w).toNat : Nat) : Int) - 1 := by
    omega
  have hlast : (((60 / w).toNat - 1 : Nat) : Int) * (w * 60) = 3600 - w * 60 := by
    rw [hcast, sub_mul, hn]
    ring
  refine ⟨((es.countP (inBucket c.lastHourUnixTimestamp (w * 60) ((60 / w).toNat - 1)) : Nat) : Int),
    ?_, ?_⟩
  · rw [h.buckets, bucketCounts_getElem?, if_pos (by omega)]
  · refine ⟨h.width, h.grid, ?_, ?_⟩
    · show List.set c.countPerBucket _ _ = _
      apply List.ext_getElem?
      intro j
      rw [bucketCounts_getElem?, List.getElem?_set, h.buckets, bucketCounts_length,
        bucketCounts_getElem?, List.countP_append]
      by_cases hj : (60 / w).toNat - 1 = j
      · subst hj
        rw [if_pos rfl, if_pos (by omega), if_pos (by omega)]
        have hin : inBucket c.lastHourUnixTimestamp (w * 60) ((60 / w).toNat - 1) t = true := by
          unfold inBucket
          simp only [decide_eq_true_eq]
          have e2 : ((((60 / w).toNat - 1 : Nat) : Int) + 1) * (w * 60)
              = (((60 / w).toNat - 1 : Nat) : Int) * (w * 60) + w * 60 := by ring
          rw [e2, hlast]
          omega
        simp [List.countP_cons, hin]
      · rw [if_neg hj]
        by_cases hjn : j < (60 / w).toNat
        · rw [if_pos hjn, if_pos hjn]
          have hout : inBucket c.lastHourUnixTimestamp (w * 60) j t = false := by
            unfold inBucket
            simp only [decide_eq_false_iff_not, not_and, not_lt]
            intro _
            have hj1 : (j : Int) + 1 ≤ (((60 / w).toNat - 1 : Nat) : Int) := by omega
            have := Int.mul_le_mul_of_nonneg_right hj1 (by omega : (0 : Int) ≤ w * 60)
            omega
          simp [List.countP_cons, hout]
        · rw [if_neg hjn, if_neg hjn]
    · intro e he
      show e < c.lastHourUnixTimestamp + 3600
      rcases List.mem_append.mp he with h1 | h1
      · exact h.recent e h1
      · have : e = t := by simpa using h1
        omega

/-! ## The public operations -/

theorem CurrentUnixTime_eq (m : unixTimerMock) (t : Int)
    (h : m.timesToReturn[m.i]? = some t) :
    m.CurrentUnixTime = some (t, ⟨m.i + 1, m.timesToReturn⟩) := by
  unfold unixTimerMock.CurrentUnixTime
  have hlt : m.i < m.timesToReturn.length := by
    by_contra hge
    rw [List.getElem?_eq_none (by omega)] at h
    cases h
  rw [if_neg (by omega), h]

theorem CurrentUnixTime_none (m : unixTimerMock) (h : m.timesToReturn.length ≤ m.i) :
    m.CurrentUnixTime = none := by
  unfold unixTimerMock.CurrentUnixTime
  rw [if_pos h]

/-- On an initialized counter with a positive width, `refresh` reads the time once and
rotates to it. -/
theorem refresh_initialised (c : LastHourCounter) (t : Int)
    (h0 : c.lastHourUnixTimestamp ≠ 0) (hw : 0 < c.minutesInBucket)
    (ht : c.Timer.timesToReturn[c.Timer.i]? = some t) :
    refresh c = .ret () (rotateTo
      ⟨c.lastHourUnixTimestamp, c.countPerBucket, c.minutesInBucket,
        ⟨c.Timer.i + 1, c.Timer.timesToReturn⟩⟩ t) := by
  unfold refresh
  simp only [if_neg h0, CurrentUnixTime_eq _ _ ht]
  exact adjustStateToCurrentTime_eq _ _ hw

/-- On a fresh counter with a valid width, `refresh` reads the time twice: once in
`initialize`, which sets the window start to that time minus 3600 and allocates
`60 / w` zero buckets, and once for the rotation. -/
theorem refresh_fresh (w : Int) (times : List Int) (T0 t : Int)
    (hw : 0 < w) (hdiv : 60 % w = 0)
    (h0 : times[0]? = some T0) (h1 : times[1]? = some t) :
    refresh (fresh w times) = .ret () (rotateTo
      ⟨T0 - 3600, List.replicate (60 / w).toNat 0, w, ⟨2, times⟩⟩ t) := by
  have hne : w ≠ 0 := ne_of_gt hw
  have hmod : Int.tmod 60 w = 0 := by
    rw [Int.tmod_eq_emod (by norm_num) (le_of_lt hw)]
    exact hdiv
  have hdivq : Int.tdiv 60 w = 60 / w := Int.tdiv_eq_ediv (by norm_num) (le_of_lt hw)
  have hq : ¬ (60 / w < 0) := not_lt.mpr (Int.ediv_nonneg (by norm_num) (le_of_lt hw))
  have r0 : (⟨0, times⟩ : unixTimerMock).CurrentUnixTime = some (T0, ⟨1, times⟩) :=
    CurrentUnixTime_eq ⟨0, times⟩ T0 h0
  have r1 : (⟨1, times⟩ : unixTimerMock).CurrentUnixTime = some (t, ⟨2, times⟩) :=
    CurrentUnixTime_eq ⟨1, times⟩ t h1
  have e3600 : T0 - 60 * 60 = T0 - 3600 := by norm_num
  unfold refresh fresh initialise
  simp only [if_neg hne, hmod, hdivq, if_neg hq, r0, r1, ne_eq, not_true_eq_false, if_false,
    if_true, e3600]
  exact adjustStateToCurrentTime_eq _ _ hw

/-- `Value` is its first three statements followed by the sum of the buckets. -/
theorem Value_eq_refresh (c : LastHourCounter) :
    Value c =
      match refresh c with
      | .panic p c1 => .panic p c1
      | .ret _ c1 => .ret (c1.countPerBucket.foldl (fun total count => total + count) 0) c1 := by
  unfold Value refresh
  cases (if c.lastHourUnixTimestamp = 0 then initialise c else Outcome.ret () c) with
  | panic p c1 => rfl
  | ret u c1 =>
    dsimp only
    cases c1.Timer.CurrentUnixTime with
    | none => rfl
    | some x =>
      obtain ⟨t, m⟩ := x
      rfl

/-- `Increment` is its first three statements followed by the update of the newest
bucket. -/
theorem Increment_eq_refresh (c : LastHourCounter) :
    Increment c =
      match refresh c with
      | .panic p c1 => .panic p c1
      | .ret _ c1 =>
        match sliceGet c1.countPerBucket ((c1.countPerBucket.length : Int) - 1) with
        | none => .panic .indexOutOfRange c1
        | some v =>
          match sliceSet c1.countPerBucket ((c1.countPerBucket.length : Int) - 1) (v + 1) with
          | none => .panic .indexOutOfRange c1
          | some s => .ret () ⟨c1.lastHourUnixTimestamp, s, c1.minutesInBucket, c1.Timer⟩ := by
  unfold Increment refresh
  cases (if c.lastHourUnixTimestamp = 0 then initialise c else Outcome.ret () c) with
  | panic p c1 => rfl
  | ret u c1 =>
    dsimp only
    cases c1.Timer.CurrentUnixTime with
    | none => rfl
    | some x =>
      obtain ⟨t, m⟩ := x
      rfl

theorem Value_of_refresh {c c1 : LastHourCounter} (h : refresh c = .ret () c1) :
    Value c = .ret (c1.countPerBucket.foldl (fun total count => total + count) 0) c1 := by
  rw [Value_eq_refresh, h]

theorem Increment_of_refresh {c c1 : LastHourCounter} (h : refresh c = .ret () c1) (v : Int)
    (hpos : 0 < c1.countPerBucket.length)
    (hv : c1.countPerBucket[c1.countPerBucket.length - 1]? = some v) :
    Increment c = .ret ()
      ⟨c1.lastHourUnixTimestamp, c1.countPerBucket.set (c1.countPerBucket.length - 1) (v + 1),
        c1.minutesInBucket, c1.Timer⟩ := by
  rw [Increment_eq_refresh, h]
  have e : ((c1.countPerBucket.length : Int) - 1) = ((c1.countPerBucket.length - 1 : Nat) : Int) := by
    omega
  simp only [e, sliceGet_natCast, hv, sliceSet_natCast _ _ _ (by omega : c1.countPerBucket.length - 1 < c1.countPerBucket.length)]

/-- One public call on a counter whose `refresh` rotates a state `c0` that records the
events `es`: the call returns, the counter then records `es` and, for `Increment`,
the time read; `Value` returns the number of recorded events from the new window
start on. -/
theorem doCall_tracks {w T0 : Int} (hw : 0 < w) (hdiv : 60 % w = 0)
    {c c0 : LastHourCounter} {es : List Int} (t : Int) (call : Call)
    (hr : refresh c = .ret () (rotateTo c0 t)) (ht : Tracks w T0 es c0)
    (hle : c0.lastHourUnixTimestamp ≤ t - 3600 + w * 60) :
    ∃ r c1, doCall c call = .ret r c1 ∧ Tracks w T0 (es ++ eventTimes [(call, t)]) c1 ∧
      Settled t c1 ∧ c1.Timer = c0.Timer ∧
      (call = Call.Value → c1 = rotateTo c0 t ∧
        r = some ((es.countP (fun e => decide (c1.lastHourUnixTimestamp ≤ e)) : Nat) : Int)) := by
  have hwc : 0 < c0.minutesInBucket := by rw [ht.width]; exact hw
  have ht1 := ht.afterRotation hw hdiv t
  have hs1 : Settled t (rotateTo c0 t) := rotateTo_settled c0 t hwc (by rw [ht.width]; exact hle)
  cases call with
  | Value =>
    refine ⟨some ((rotateTo c0 t).countPerBucket.foldl (fun total count => total + count) 0),
      rotateTo c0 t, ?_, ?_, hs1, rotateTo_Timer c0 t, ?_⟩
    · simp only [doCall, Value_of_refresh hr]
    · simpa [eventTimes] using ht1
    · intro _
      exact ⟨rfl, by rw [ht1.sum hw hdiv]⟩
  | Increment =>
    obtain ⟨v, hv, ht2⟩ := ht1.record hw hdiv t hs1
    have hlen : (rotateTo c0 t).countPerBucket.length = (60 / w).toNat := by
      rw [ht1.buckets, bucketCounts_length]
    have hpos := bucketCount_pos w hw hdiv
    refine ⟨none,
      ⟨(rotateTo c0 t).lastHourUnixTimestamp,
        (rotateTo c0 t).countPerBucket.set ((rotateTo c0 t).countPerBucket.length - 1) (v + 1),
        (rotateTo c0 t).minutesInBucket, (rotateTo c0 t).Timer⟩, ?_, ?_, ?_, ?_, ?_⟩
    · simp only [doCall, Increment_of_refresh hr v (by omega) (by rw [hlen]; exact hv)]
    · rw [hlen]
      exact ht2
    · exact hs1
    · exact rotateTo_Timer c0 t
    · intro h
      cases h

/-- `Value` on a counter whose `refresh` rotates a state `c0` that records the events
`es`: it returns the number of recorded events from the new window start on. -/
theorem Value_tracks {w T0 : Int} (hw : 0 < w) (hdiv : 60 % w = 0)
    {c c0 : LastHourCounter} {es : List Int} (t : Int)
    (hr : refresh c = .ret () (rotateTo c0 t)) (ht : Tracks w T0 es c0) :
    Value c = .ret
        ((es.countP (fun e => decide ((rotateTo c0 t).lastHourUnixTimestamp ≤ e)) : Nat) : Int)
        (rotateTo c0 t) ∧
      Tracks w T0 es (rotateTo c0 t) := by
  have ht1 := ht.afterRotation hw hdiv t
  refine ⟨?_, ht1⟩
  rw [Value_of_refresh hr, ht1.sum hw hdiv]

/-! ## Runs of calls in chronological order -/

theorem eventTimes_cons (call : Call) (t : Int) (ops : List (Call × Int)) :
    eventTimes ((call, t) :: ops) = eventTimes [(call, t)] ++ eventTimes ops := by
  cases call <;> rfl

theorem eventTimes_increments (es : List Int) :
    eventTimes (es.map (fun t => (Call.Increment, t))) = es := by
  induction es with
  | nil => rfl
  | cons t es ih =>
    show t :: eventTimes (es.map (fun t => (Call.Increment, t))) = t :: es
    rw [ih]

theorem drop_succ_of_drop {l : List Int} {i : Nat} {t : Int} {tl : List Int}
    (h : l.drop i = t :: tl) : l.drop (i + 1) = tl := by
  rw [← List.drop_drop 1 i, h]
  rfl

theorem getElem?_of_drop {l : List Int} {i : Nat} {t : Int} {tl : List Int}
    (h : l.drop i = t :: tl) : l[i]? = some t := by
  have := congrArg (fun x => x[0]?) h
  simpa using this

/-- The state of an initialized counter with another state of the time source. -/
theorem Tracks.withTimer {w T0 : Int} {es : List Int} {c : LastHourCounter}
    (h : Tracks w T0 es c) (m : unixTimerMock) :
    Tracks w T0 es ⟨c.lastHourUnixTimestamp, c.countPerBucket, c.minutesInBucket, m⟩ :=
  ⟨h.width, h.grid, h.buckets, h.recent⟩

/-- One call on an initialized counter that is settled for an earlier time, reading a
time `t` that is not earlier. -/
theorem doCall_initialised {w T0 : Int} (hw : 0 < w) (hdiv : 60 % w = 0)
    {c : LastHourCounter} {es : List Int} {tlast : Int} (t : Int) (call : Call)
    (ht : Tracks w T0 es c) (hs : Settled tlast c) (h3600 : 3600 ≤ tlast) (hle : tlast ≤ t)
    (hread : c.Timer.timesToReturn[c.Timer.i]? = some t) :
    ∃ r c1, doCall c call = .ret r c1 ∧ Tracks w T0 (es ++ eventTimes [(call, t)]) c1 ∧
      Settled t c1 ∧ c1.Timer = ⟨c.Timer.i + 1, c.Timer.timesToReturn⟩ ∧
      (call = Call.Value →
        r = some ((es.countP (fun e => decide (c1.lastHourUnixTimestamp ≤ e)) : Nat) : Int)) := by
  obtain ⟨hs1, hs2⟩ := hs
  rw [ht.width] at hs2
  have hr := refresh_initialised c t (by omega) (by rw [ht.width]; exact hw) hread
  obtain ⟨r, c1, h1, h2, h3, h4, h5⟩ :=
    doCall_tracks hw hdiv t call hr (ht.withTimer _) (by
      show c.lastHourUnixTimestamp ≤ t - 3600 + w * 60
      omega)
  exact ⟨r, c1, h1, h2, h3, h4, fun hc => (h5 hc).2⟩

/-- Invariant of a chronological run from an initialized counter: every call returns,
and the counter records the events of the run and is settled for the last time
read. -/
theorem runCalls_tracks {w T0 : Int} (hw : 0 < w) (hdiv : 60 % w = 0) (rest : List Int) :
    ∀ (ops : List (Call × Int)) (c : LastHourCounter) (es : List Int) (tlast : Int),
      Tracks w T0 es c → Settled tlast c → 3600 ≤ tlast →
      c.Timer.timesToReturn.drop c.Timer.i = ops.map Prod.snd ++ rest →
      List.Chain (· ≤ ·) tlast (ops.map Prod.snd) →
      ∃ c1, runCalls (ops.map Prod.fst) c = .ret () c1 ∧
        Tracks w T0 (es ++ eventTimes ops) c1 ∧
        Settled (lastReading tlast ops) c1 ∧ 3600 ≤ lastReading tlast ops ∧
        c1.Timer = ⟨c.Timer.i + ops.length, c.Timer.timesToReturn⟩ := by
  intro ops
  induction ops with
  | nil =>
    intro c es tlast ht hs h3600 _ _
    refine ⟨c, rfl, ?_, hs, h3600, rfl⟩
    simpa [eventTimes] using ht
  | cons op ops ih =>
    obtain ⟨call, t⟩ := op
    intro c es tlast ht hs h3600 hdrop hchain
    have hdrop1 : c.Timer.timesToReturn.drop c.Timer.i = t :: (ops.map Prod.snd ++ rest) := hdrop
    obtain ⟨hle, hchain1⟩ := List.chain_cons.mp hchain
    obtain ⟨r, c1, h1, h2, h3, h4, _⟩ :=
      doCall_initialised hw hdiv t call ht hs h3600 hle (getElem?_of_drop hdrop1)
    obtain ⟨c2, g1, g2, g3, g4, g5⟩ := ih c1 (es ++ eventTimes [(call, t)]) t h2 h3
      (by omega) (by rw [h4]; exact drop_succ_of_drop hdrop1) hchain1
    refine ⟨c2, ?_, ?_, g3, g4, ?_⟩
    · show runCalls (call :: ops.map Prod.fst) c = _
      simp only [runCalls, h1]
      exact g1
    · rw [eventTimes_cons, ← List.append_assoc]
      exact g2
    · rw [g5, h4]
      show _ = (⟨c.Timer.i + (ops.length + 1), c.Timer.timesToReturn⟩ : unixTimerMock)
      rw [Nat.add_assoc, Nat.add_comm 1]

/-- First call on a fresh counter, reading `T0` in `initialize` and then `t`. -/
theorem doCall_fresh {w T0 : Int} (hw : 0 < w) (hdiv : 60 % w = 0)
    (t : Int) (call : Call) (tl : List Int) (hle : T0 ≤ t) :
    ∃ r c1, doCall (fresh w (T0 :: t :: tl)) call = .ret r c1 ∧
      Tracks w T0 (eventTimes [(call, t)]) c1 ∧
      Settled t c1 ∧ c1.Timer = ⟨2, T0 :: t :: tl⟩ ∧
      (call = Call.Value → r = some 0) := by
  have hr := refresh_fresh w (T0 :: t :: tl) T0 t hw hdiv (by simp) (by simp)
  obtain ⟨r, c1, h1, h2, h3, h4, h5⟩ :=
    doCall_tracks hw hdiv t call hr (Tracks.init w T0 hw hdiv _) (by
      show T0 - 3600 ≤ t - 3600 + w * 60
      omega)
  refine ⟨r, c1, h1, by simpa using h2, h3, h4, ?_⟩
  intro hc
  simpa using (h5 hc).2

/-- Invariant of a chronological run of at least one call from a fresh counter. -/
theorem runCalls_fresh {w T0 : Int} (hw : 0 < w) (hdiv : 60 % w = 0) (h3600 : 3600 ≤ T0)
    (call : Call) (t : Int) (ops : List (Call × Int)) (rest : List Int)
    (hchain : List.Chain (· ≤ ·) T0 (t :: ops.map Prod.snd)) :
    ∃ c1, runCalls (call :: ops.map Prod.fst)
          (fresh w (T0 :: t :: (ops.map Prod.snd ++ rest))) = .ret () c1 ∧
        Tracks w T0 (eventTimes ((call, t) :: ops)) c1 ∧
        Settled (lastReading t ops) c1 ∧ 3600 ≤ lastReading t ops ∧
        c1.Timer = ⟨2 + ops.length, T0 :: t :: (ops.map Prod.snd ++ rest)⟩ := by
  obtain ⟨hle, hchain1⟩ := List.chain_cons.mp hchain
  obtain ⟨r, c1, h1, h2, h3, h4, _⟩ :=
    doCall_fresh hw hdiv t call (ops.map Prod.snd ++ rest) hle
  obtain ⟨c2, g1, g2, g3, g4, g5⟩ := runCalls_tracks hw hdiv rest ops c1
    (eventTimes [(call, t)]) t h2 h3 (by omega) (by rw [h4]; rfl) hchain1
  refine ⟨c2, ?_, ?_, g3, g4, ?_⟩
  · simp only [runCalls, h1]
    exact g1
  · rw [eventTimes_cons]
    exact g2
  · rw [g5, h4]

theorem Value_of_doCall {c c1 : LastHourCounter} {r : Option Int}
    (h : doCall c Call.Value = .ret r c1) : ∃ v, r = some v ∧ Value c = .ret v c1 := by
  unfold doCall at h
  cases hv : Value c with
  | ret v c2 =>
    rw [hv] at h
    cases h
    exact ⟨v, rfl, rfl⟩
  | panic p c2 =>
    rw [hv] at h
    cases h

theorem chain_lastReading : ∀ (ops : List (Call × Int)) (tlast q : Int),
    List.Chain (· ≤ ·) tlast (ops.map Prod.snd ++ [q]) →
    List.Chain (· ≤ ·) tlast (ops.map Prod.snd) ∧ lastReading tlast ops ≤ q := by
  intro ops
  induction ops with
  | nil =>
    intro tlast q h
    exact ⟨List.Chain.nil, (List.chain_cons.mp h).1⟩
  | cons op ops ih =>
    obtain ⟨call, t⟩ := op
    intro tlast q h
    obtain ⟨h1, h2⟩ := List.chain_cons.mp h
    obtain ⟨g1, g2⟩ := ih t q h2
    exact ⟨List.chain_cons.mpr ⟨h1, g1⟩, g2⟩

theorem drop_readings (T0 t q : Int) (l rest : List Int) :
    (T0 :: t :: (l ++ q :: rest)).drop (2 + l.length) = q :: rest := by
  rw [Nat.add_comm]
  show (l ++ q :: rest).drop l.length = q :: rest
  exact List.drop_left' rfl

/-- A chronological run of calls from a fresh counter followed by `Value`: all calls
return, the final `Value` returns the number of events of the run from the final
window start on, and that window is settled for the time read by `Value`. -/
theorem runThenValue_fresh {w T0 : Int} (hw : 0 < w) (hdiv : 60 % w = 0) (h3600 : 3600 ≤ T0)
    (ops : List (Call × Int)) (q : Int) (rest : List Int)
    (hchain : List.Chain (· ≤ ·) T0 (ops.map Prod.snd ++ [q])) :
    ∃ c1, runThenValue (ops.map Prod.fst) (fresh w (T0 :: (ops.map Prod.snd ++ q :: rest)))
          = .ret (((eventTimes ops).countP
              (fun e => decide (c1.lastHourUnixTimestamp ≤ e)) : Nat) : Int) c1 ∧
        Tracks w T0 (eventTimes ops) c1 ∧ Settled q c1 ∧
        c1.Timer = ⟨ops.length + 2, T0 :: (ops.map Prod.snd ++ q :: rest)⟩ := by
  cases ops with
  | nil =>
    obtain ⟨hle, _⟩ := List.chain_cons.mp hchain
    obtain ⟨r, c1, h1, h2, h3, h4, h5⟩ := doCall_fresh hw hdiv q Call.Value rest hle
    obtain ⟨v, hv1, hv2⟩ := Value_of_doCall h1
    have hv0 : v = 0 := by
      have := h5 rfl
      rw [hv1] at this
      exact Option.some.inj this
    refine ⟨c1, ?_, h2, h3, h4⟩
    show runThenValue [] (fresh w (T0 :: q :: rest)) = _
    simp only [runThenValue, runCalls, hv2, hv0]
    rfl
  | cons op ops =>
    obtain ⟨call, t⟩ := op
    obtain ⟨hchain1, hq⟩ := chain_lastReading ((call, t) :: ops) T0 q hchain
    obtain ⟨c1, h1, h2, h3, h4, h5⟩ :=
      runCalls_fresh hw hdiv h3600 call t ops (q :: rest) hchain1
    have hread : c1.Timer.timesToReturn[c1.Timer.i]? = some q := by
      rw [h5]
      show (T0 :: t :: (ops.map Prod.snd ++ q :: rest))[2 + ops.length]? = some q
      have hd := drop_readings T0 t q (ops.map Prod.snd) rest
      rw [List.length_map] at hd
      exact getElem?_of_drop hd
    obtain ⟨r, c2, g1, g2, g3, g4, g5⟩ :=
      doCall_initialised hw hdiv q Call.Value h2 h3 h4 hq hread
    obtain ⟨v, hv1, hv2⟩ := Value_of_doCall g1
    have hv : v = (((eventTimes ((call, t) :: ops)).countP
        (fun e => decide (c2.lastHourUnixTimestamp ≤ e)) : Nat) : Int) := by
      have := g5 rfl
      rw [hv1] at this
      exact Option.some.inj this
    refine ⟨c2, ?_, by simpa [eventTimes] using g2, g3, ?_⟩
    · show runThenValue (call :: ops.map Prod.fst)
        (fresh w (T0 :: t :: (ops.map Prod.snd ++ q :: rest))) = _
      simp only [runThenValue, h1, hv2, hv]
    · rw [g4, h5]
      show (⟨2 + ops.length + 1, _⟩ : unixTimerMock) = ⟨ops.length + 1 + 2, _⟩
      congr 1
      omega

/-! ## Replaying events -/

theorem increments_fst (es : List Int) :
    (increments es).map Prod.fst = List.replicate es.length Call.Increment := by
  rw [increments, List.map_map, ← List.map_const']
  rfl

theorem increments_snd (es : List Int) : (increments es).map Prod.snd = es := by
  rw [increments, List.map_map]
  exact List.map_id es

theorem eventTimes_of_increments (es : List Int) : eventTimes (increments es) = es :=
  eventTimes_increments es

/-- Replaying events in chronological order from a fresh counter and reading the
value: the specialization of `runThenValue_fresh` to `Increment` calls. -/
theorem replay_fresh {w T0 : Int} (hw : 0 < w) (hdiv : 60 % w = 0) (h3600 : 3600 ≤ T0)
    (es : List Int) (q : Int) (rest : List Int)
    (hchain : List.Chain (· ≤ ·) T0 (es ++ [q])) :
    ∃ c1, runThenValue (List.replicate es.length Call.Increment)
          (fresh w (T0 :: (es ++ q :: rest)))
          = .ret ((es.countP (fun e => decide (c1.lastHourUnixTimestamp ≤ e)) : Nat) : Int) c1 ∧
        Tracks w T0 es c1 ∧ Settled q c1 ∧
        c1.Timer = ⟨es.length + 2, T0 :: (es ++ q :: rest)⟩ := by
  have h := runThenValue_fresh hw hdiv h3600 (increments es) q rest
    (by rw [increments_snd]; exact hchain)
  rw [increments_fst, increments_snd, eventTimes_of_increments] at h
  obtain ⟨c1, h1, h2, h3, h4⟩ := h
  refine ⟨c1, h1, h2, h3, ?_⟩
  rw [h4, increments, List.length_map]

theorem eq_of_dvd_of_lt_two_mul (W y : Int) (hd : W ∣ y) (h1 : 0 < y)
    (h2 : y < 2 * W) : y = W := by
  obtain ⟨m, rfl⟩ := hd
  have hm1 : 0 < m := by
    by_contra h
    push_neg at h
    nlinarith
  have hm2 : m < 2 := by
    by_contra h
    push_neg at h
    nlinarith
  have : m = 1 := by omega
  rw [this]
  ring

/-- The window start of a counter that is settled for time `q`: the first point after
`q - 3600` of the grid of step `w*60` through the initialization time. -/
theorem Tracks.lastHour_eq {w T0 : Int} {es : List Int} {c : LastHourCounter}
    (h : Tracks w T0 es c) (hw : 0 < w) (hdiv : 60 % w = 0) (q : Int) (hs : Settled q c) :
    c.lastHourUnixTimestamp = q - 3600 + (w * 60 - (q - T0) % (w * 60)) := by
  obtain ⟨hs1, hs2⟩ := hs
  rw [h.width] at hs2
  have hn := bucketCount_mul w hw hdiv
  have hW : 0 < w * 60 := by omega
  have hmod1 := Int.emod_nonneg (q - T0) (ne_of_gt hW)
  have hmod2 := Int.emod_lt_of_pos (q - T0) hW
  have hdvd : w * 60 ∣ (c.lastHourUnixTimestamp - (q - 3600)) + (q - T0) % (w * 60) := by
    have e : (c.lastHourUnixTimestamp - (q - 3600)) + (q - T0) % (w * 60)
        = (c.lastHourUnixTimestamp - T0)
          + ((((60 / w).toNat : Nat) : Int) * (w * 60) - (w * 60) * ((q - T0) / (w * 60))) := by
      have := Int.emod_add_ediv (q - T0) (w * 60)
      rw [hn]
      linarith
    rw [e]
    exact dvd_add h.grid (dvd_sub (Dvd.intro_left _ rfl) (Dvd.intro _ rfl))
  have := eq_of_dvd_of_lt_two_mul (w * 60) _ hdvd (by omega) (by omega)
  omega

theorem chain_of_sorted {a : Int} {l : List Int} (h : List.Sorted (· ≤ ·) (a :: l)) :
    List.Chain (· ≤ ·) a l :=
  List.chain_iff_pairwise.mpr h

theorem chain_append_singleton {T0 q : Int} {es : List Int}
    (hsorted : List.Sorted (· ≤ ·) (T0 :: es)) (hq : ∀ e ∈ es, e ≤ q) (hne : es ≠ []) :
    List.Chain (· ≤ ·) T0 (es ++ [q]) := by
  obtain ⟨h1, h2⟩ := List.sorted_cons.mp hsorted
  apply List.chain_iff_pairwise.mpr
  apply List.pairwise_cons.mpr
  constructor
  · intro b hb
    rcases List.mem_append.mp hb with hb1 | hb1
    · exact h1 b hb1
    · have hbq : b = q := by simpa using hb1
      obtain ⟨e, he⟩ := List.exists_mem_of_ne_nil es hne
      have := h1 e he
      have := hq e he
      omega
  · apply List.pairwise_append.mpr
    refine ⟨h2, List.pairwise_singleton _ _, ?_⟩
    intro a ha b hb
    have hbq : b = q := by simpa using hb
    rw [hbq]
    exact hq a ha

theorem le_last_of_sorted {T0 q : Int} {es : List Int}
    (hsorted : List.Sorted (· ≤ ·) (T0 :: (es ++ [q]))) : ∀ e ∈ es, e ≤ q := by
  obtain ⟨_, h2⟩ := List.sorted_cons.mp hsorted
  obtain ⟨_, _, h3⟩ := List.pairwise_append.mp h2
  intro e he
  exact h3 e he q (by simp)

/-- Value read after replaying events when the query time is on the grid of step `w*60`
through the initialization time: shared by the results on aligned queries. -/
theorem replay_aligned {w T0 : Int} (hw : 0 < w) (hdiv : 60 % w = 0) (h3600 : 3600 ≤ T0)
    (es : List Int) (q : Int)
    (hsorted : List.Sorted (· ≤ ·) (T0 :: es)) (hq : ∀ e ∈ es, e ≤ q)
    (haligned : (w * 60) ∣ (q - T0)) :
    (runThenValue (List.replicate es.length Call.Increment) (fresh w (T0 :: (es ++ [q])))).value?
      = some ((es.countP (fun e => decide (q - e < 3600 - w * 60 + 1)) : Nat) : Int) := by
  by_cases hne : es = []
  · subst hne
    have hr := refresh_fresh w [T0, q] T0 q hw hdiv (by simp) (by simp)
    have hv := (Value_tracks hw hdiv q hr (Tracks.init w T0 hw hdiv _)).1
    show (runThenValue [] (fresh w [T0, q])).value? = _
    simp only [runThenValue, runCalls, hv]
    rfl
  · obtain ⟨c1, h1, h2, h3, _⟩ :=
      replay_fresh hw hdiv h3600 es q [] (chain_append_singleton hsorted hq hne)
    rw [h1]
    have hL := h2.lastHour_eq hw hdiv q h3
    rw [Int.emod_eq_zero_of_dvd haligned] at hL
    show some _ = some _
    congr 2
    apply List.countP_congr
    intro e _
    simp only [decide_eq_true_eq]
    omega

/-! ## The claims -/

/-- C1 (as stated, refuted): with a bucket width of 4 minutes, initialization at
10000, one `Increment` at 10239 and `Value` at 13600, the event is 3361 seconds old,
inside the last 60 minutes, yet `Value` returns 0 (the inputs of
`TestLastHourCounter_ExactlyHourPassed`, which expects 0). With an initialization
time below 3600 the window start can become 0, the zero value that stands for
"not initialized": the next call initializes the counter again and the event is
lost. -/
theorem C1_counterexample :
    ((runThenValue (List.replicate 1 Call.Increment) (fresh 4 [10000, 10239, 13600])).value?
        = some 0 ∧
      ((([10239] : List Int).countP (fun t => decide (13600 - 3600 < t ∧ t ≤ 13600)) : Nat) : Int)
        = 1) ∧
    ((runThenValue (List.replicate 1 Call.Increment) (fresh 1 [3540, 3540, 3540, 3540])).value?
        = some 0 ∧
      ((([3540] : List Int).countP (fun t => decide (3540 - 3600 < t ∧ t ≤ 3540)) : Nat) : Int)
        = 1) := by
  decide

/-- C1 (amended): for a valid bucket width `w`, an initialization time `T0 ≥ 3600` and
event times `es` with `T0 ≤ e_1 ≤ ... ≤ e_n ≤ now`, replaying the events through
`Increment` and calling `Value` at `now` returns exactly the number of events whose
time lies in `[L, now]`, where `L` is the window start after the call, and
`now - 3600 < L ≤ now - 3600 + w*60`. -/
theorem C1_value_counts_events_from_window_start (w T0 : Int) (es : List Int) (now : Int)
    (hw : 0 < w) (hdiv : 60 % w = 0) (hT0 : 3600 ≤ T0)
    (hsorted : List.Sorted (· ≤ ·) (T0 :: (es ++ [now]))) :
    ∃ c, runThenValue (List.replicate es.length Call.Increment) (fresh w (T0 :: (es ++ [now])))
          = .ret ((es.countP
              (fun t => decide (c.lastHourUnixTimestamp ≤ t ∧ t ≤ now)) : Nat) : Int) c ∧
      now - 3600 < c.lastHourUnixTimestamp ∧
      c.lastHourUnixTimestamp ≤ now - 3600 + w * 60 := by
  obtain ⟨c1, h1, h2, h3, _⟩ := replay_fresh hw hdiv hT0 es now [] (chain_of_sorted hsorted)
  have hle := le_last_of_sorted hsorted
  refine ⟨c1, ?_, h3.1, ?_⟩
  · rw [h1]
    congr 2
    apply List.countP_congr
    intro e he
    have := hle e he
    simp only [decide_eq_true_eq]
    omega
  · have := h3.2
    rw [h2.width] at this
    exact this

/-- C1 (amended), at width 4, initialization at 10000, one event at 10239 and a query
at 13600. -/
theorem C1_value_counts_events_from_window_start_witness :
    ∃ c, runThenValue (List.replicate [(10239 : Int)].length Call.Increment)
          (fresh 4 (10000 :: ([10239] ++ [13600])))
          = .ret ((([10239] : List Int).countP
              (fun t => decide (c.lastHourUnixTimestamp ≤ t ∧ t ≤ 13600)) : Nat) : Int) c ∧
      13600 - 3600 < c.lastHourUnixTimestamp ∧
      c.lastHourUnixTimestamp ≤ 13600 - 3600 + 4 * 60 :=
  C1_value_counts_events_from_window_start 4 10000 [10239] 13600
    (by decide) (by decide) (by decide) (by decide)

/-- C2 (as stated, refuted): with a bucket width of 4 minutes, initialization at
10000, one `Increment` at 10000 and `Value` at 13599, the event lies before
`now - 3600 + 240 = 10239`, outside the window of the claim, yet `Value` returns 1.
With an initialization time below 3600 the window start can become 0 and the next
call initializes the counter again: the event at 3500, inside the window of the claim,
is lost. -/
theorem C2_counterexample :
    ((runThenValue (List.replicate 1 Call.Increment) (fresh 4 [10000, 10000, 13599])).value?
        = some 1 ∧
      ((([10000] : List Int).countP
          (fun t => decide (13599 - 3600 + 4 * 60 ≤ t ∧ t ≤ 13599)) : Nat) : Int) = 0) ∧
    ((runThenValue (List.replicate 1 Call.Increment) (fresh 2 [3480, 3500, 3500, 3500])).value?
        = some 0 ∧
      ((([3500] : List Int).countP
          (fun t => decide (3500 - 3600 + 2 * 60 ≤ t ∧ t ≤ 3500)) : Nat) : Int) = 1) := by
  decide

/-- C2 (amended): for a valid bucket width `w`, an initialization time `T0 ≥ 3600` and
event times `es` with `T0 ≤ e_1 ≤ ... ≤ e_n ≤ now`, replaying the events through
`Increment` and calling `Value` at `now` returns exactly the number of events whose
time lies in `[now - 3600 + e, now]`, where `e = w*60 - ((now - T0) mod (w*60))` is
the distance from `now - 3600` to the next point of the grid of step `w*60` through
`T0`; `e` is one bucket width exactly when `now - T0` is a multiple of `w*60`. -/
theorem C2_value_counts_events_of_grid_window (w T0 : Int) (es : List Int) (now : Int)
    (hw : 0 < w) (hdiv : 60 % w = 0) (hT0 : 3600 ≤ T0)
    (hsorted : List.Sorted (· ≤ ·) (T0 :: (es ++ [now]))) :
    (runThenValue (List.replicate es.length Call.Increment)
        (fresh w (T0 :: (es ++ [now])))).value?
      = some ((es.countP (fun t => decide
          (now - 3600 + (w * 60 - (now - T0) % (w * 60)) ≤ t ∧ t ≤ now)) : Nat) : Int) := by
  obtain ⟨c1, h1, h2, h3, _⟩ := replay_fresh hw hdiv hT0 es now [] (chain_of_sorted hsorted)
  have hle := le_last_of_sorted hsorted
  have hL := h2.lastHour_eq hw hdiv now h3
  rw [h1]
  show some _ = some _
  congr 2
  apply List.countP_congr
  intro e he
  have := hle e he
  simp only [decide_eq_true_eq]
  rw [hL]
  constructor
  · intro h
    exact ⟨h, this⟩
  · intro h
    exact h.1

/-- C2 (amended), at width 4, initialization at 10000, one event at 10000 and a query
at 13599. -/
theorem C2_value_counts_events_of_grid_window_witness :
    (runThenValue (List.replicate [(10000 : Int)].length Call.Increment)
        (fresh 4 (10000 :: ([10000] ++ [13599])))).value?
      = some ((([10000] : List Int).countP (fun t => decide
          (13599 - 3600 + (4 * 60 - (13599 - 10000) % (4 * 60)) ≤ t ∧ t ≤ 13599)) : Nat) : Int) :=
  C2_value_counts_events_of_grid_window 4 10000 [10000] 13599
    (by decide) (by decide) (by decide) (by decide)

/-- C3: for a valid bucket width `w`, an initialization time `T0 > 3600`, event times
`T0 ≤ e_1 ≤ ... ≤ e_n` replayed through `n` `Increment` calls and a query time `q`,
not before the events, with `q - T0` a multiple of `w*60`, the final `Value` returns
exactly the number of events with `q - e_i < 3600 - w*60 + 1`. -/
theorem C3_value_on_aligned_query (w T0 : Int) (es : List Int) (q : Int)
    (hw : 0 < w) (hdiv : 60 % w = 0) (hT0 : 3600 < T0)
    (hsorted : List.Sorted (· ≤ ·) (T0 :: es)) (hq : ∀ e ∈ es, e ≤ q)
    (haligned : (w * 60) ∣ (q - T0)) :
    (runThenValue (List.replicate es.length Call.Increment) (fresh w (T0 :: (es ++ [q])))).value?
      = some ((es.countP (fun e => decide (q - e < 3600 - w * 60 + 1)) : Nat) : Int) :=
  replay_aligned hw hdiv (le_of_lt hT0) es q hsorted hq haligned

/-- C3, at width 4, initialization at 10000, events at 10100, 10239, 10240 and 12000
and a query at 13600: the last two events are counted. -/
theorem C3_value_on_aligned_query_witness :
    (runThenValue (List.replicate [(10100 : Int), 10239, 10240, 12000].length Call.Increment)
        (fresh 4 (10000 :: ([10100, 10239, 10240, 12000] ++ [13600])))).value?
      = some ((([10100, 10239, 10240, 12000] : List Int).countP
          (fun e => decide (13600 - e < 3600 - 4 * 60 + 1)) : Nat) : Int) :=
  C3_value_on_aligned_query 4 10000 [10100, 10239, 10240, 12000] 13600
    (by decide) (by decide) (by decide) (by decide) (by decide) (by decide)

/-- C4: for a valid bucket width `w`, an initialization time `T0 > 3600` and calls that
read the non-decreasing times `T0 ≤ t_1 ≤ ... ≤ t_k ≤ q`, the `Value` call that reads
`q` returns at least the number of earlier `Increment` calls whose time `t` satisfies
`q - t ≤ 3600 - w*60`. -/
theorem C4_recent_events_are_counted (w T0 : Int) (ops : List (Call × Int)) (q : Int)
    (hw : 0 < w) (hdiv : 60 % w = 0) (hT0 : 3600 < T0)
    (hsorted : List.Sorted (· ≤ ·) (T0 :: (ops.map Prod.snd ++ [q]))) :
    ∃ v, (runThenValue (ops.map Prod.fst)
          (fresh w (T0 :: (ops.map Prod.snd ++ [q])))).value? = some v ∧
      (((eventTimes ops).countP (fun t => decide (q - t ≤ 3600 - w * 60)) : Nat) : Int) ≤ v := by
  obtain ⟨c1, h1, h2, h3, _⟩ :=
    runThenValue_fresh hw hdiv (le_of_lt hT0) ops q [] (chain_of_sorted hsorted)
  refine ⟨_, by rw [h1]; rfl, ?_⟩
  have hs2 := h3.2
  rw [h2.width] at hs2
  have : (eventTimes ops).countP (fun t => decide (q - t ≤ 3600 - w * 60))
      ≤ (eventTimes ops).countP (fun e => decide (c1.lastHourUnixTimestamp ≤ e)) := by
    apply List.countP_mono_left
    intro e _ he
    simp only [decide_eq_true_eq] at he ⊢
    omega
  exact_mod_cast this

/-- C4, at width 4, initialization at 10000: `Increment` at 10000, `Value` at 10200,
`Increment` at 10240 and 12000, and the final `Value` at 13600. -/
theorem C4_recent_events_are_counted_witness :
    ∃ v, (runThenValue
          ([(Call.Increment, 10000), (Call.Value, 10200), (Call.Increment, 10240),
            (Call.Increment, 12000)].map Prod.fst)
          (fresh 4 (10000 :: ([(Call.Increment, 10000), (Call.Value, 10200),
            (Call.Increment, 10240), (Call.Increment, 12000)].map Prod.snd ++ [13600])))).value?
          = some v ∧
      (((eventTimes [(Call.Increment, 10000), (Call.Value, 10200), (Call.Increment, 10240),
          (Call.Increment, 12000)]).countP
          (fun t => decide (13600 - t ≤ 3600 - 4 * 60)) : Nat) : Int) ≤ v :=
  C4_recent_events_are_counted 4 10000
    [(Call.Increment, 10000), (Call.Value, 10200), (Call.Increment, 10240),
      (Call.Increment, 12000)] 13600
    (by decide) (by decide) (by decide) (by decide)

/-- C5: for a valid bucket width `w`, an initialization time `T0 > 3600` and calls that
read the non-decreasing times `T0 ≤ t_1 ≤ ... ≤ t_k ≤ q`, the `Value` call that reads
`q` returns at most the number of earlier `Increment` calls whose time `t` satisfies
`q - t < 3600` (an event 3600 seconds old or older contributes nothing), and at most
the number of `Increment` calls made. -/
theorem C5_expired_events_are_not_counted (w T0 : Int) (ops : List (Call × Int)) (q : Int)
    (hw : 0 < w) (hdiv : 60 % w = 0) (hT0 : 3600 < T0)
    (hsorted : List.Sorted (· ≤ ·) (T0 :: (ops.map Prod.snd ++ [q]))) :
    ∃ v, (runThenValue (ops.map Prod.fst)
          (fresh w (T0 :: (ops.map Prod.snd ++ [q])))).value? = some v ∧
      v ≤ (((eventTimes ops).countP (fun t => decide (q - t < 3600)) : Nat) : Int) ∧
      v ≤ ((eventTimes ops).length : Int) := by
  obtain ⟨c1, h1, h2, h3, _⟩ :=
    runThenValue_fresh hw hdiv (le_of_lt hT0) ops q [] (chain_of_sorted hsorted)
  refine ⟨_, by rw [h1]; rfl, ?_, ?_⟩
  · have hs1 := h3.1
    have : (eventTimes ops).countP (fun e => decide (c1.lastHourUnixTimestamp ≤ e))
        ≤ (eventTimes ops).countP (fun t => decide (q - t < 3600)) := by
      apply List.countP_mono_left
      intro e _ he
      simp only [decide_eq_true_eq] at he ⊢
      omega
    exact_mod_cast this
  · exact_mod_cast List.countP_le_length _

/-- C5, at width 4, initialization at 10000: `Increment` at 10000, `Value` at 10200,
`Increment` at 10240 and 12000, and the final `Value` at 13600. -/
theorem C5_expired_events_are_not_counted_witness :
    ∃ v, (runThenValue
          ([(Call.Increment, 10000), (Call.Value, 10200), (Call.Increment, 10240),
            (Call.Increment, 12000)].map Prod.fst)
          (fresh 4 (10000 :: ([(Call.Increment, 10000), (Call.Value, 10200),
            (Call.Increment, 10240), (Call.Increment, 12000)].map Prod.snd ++ [13600])))).value?
          = some v ∧
      v ≤ (((eventTimes [(Call.Increment, 10000), (Call.Value, 10200), (Call.Increment, 10240),
          (Call.Increment, 12000)]).countP (fun t => decide (13600 - t < 3600)) : Nat) : Int) ∧
      v ≤ ((eventTimes [(Call.Increment, 10000), (Call.Value, 10200), (Call.Increment, 10240),
          (Call.Increment, 12000)]).length : Int) :=
  C5_expired_events_are_not_counted 4 10000
    [(Call.Increment, 10000), (Call.Value, 10200), (Call.Increment, 10240),
      (Call.Increment, 12000)] 13600
    (by decide) (by decide) (by decide) (by decide)

/-! ## Safety of the public operations -/

theorem rotated_length (k : Nat) (s : List Int) : (rotated k s).length = s.length := by
  simp only [rotated, List.length_append, List.length_drop, List.length_replicate]
  omega

theorem rotateTo_length (c : LastHourCounter) (now : Int) (hw : 0 < c.minutesInBucket) :
    (rotateTo c now).countPerBucket.length = c.countPerBucket.length := by
  obtain ⟨k, hk⟩ := rotateTo_shape c now hw
  rw [hk]
  exact rotated_length k _

theorem Initialised.keptByRotation {c : LastHourCounter} (h : Initialised c) (now : Int) :
    Initialised (rotateTo c now) := by
  obtain ⟨hv, hlen⟩ := h
  refine ⟨by rw [rotateTo_minutesInBucket]; exact hv, ?_⟩
  rw [rotateTo_length c now hv.1, rotateTo_minutesInBucket]
  exact hlen

theorem CurrentUnixTime_cases (m : unixTimerMock) :
    (m.timesToReturn.length ≤ m.i ∧ m.CurrentUnixTime = none) ∨
    (m.i < m.timesToReturn.length ∧
      ∃ t, m.CurrentUnixTime = some (t, ⟨m.i + 1, m.timesToReturn⟩)) := by
  by_cases h : m.timesToReturn.length ≤ m.i
  · exact Or.inl ⟨h, CurrentUnixTime_none m h⟩
  · have hlt : m.i < m.timesToReturn.length := by omega
    exact Or.inr ⟨hlt, m.timesToReturn[m.i], CurrentUnixTime_eq m _ (List.getElem?_eq_getElem hlt)⟩

/-- With a width that is valid or unset, `initialize` either returns an initialized
counter after one reading of the time source, or panics because the time source is
exhausted. -/
theorem initialise_safe (c : LastHourCounter)
    (hw : c.minutesInBucket = 0 ∨ ValidWidth c.minutesInBucket) :
    (∃ c1, initialise c = .ret () c1 ∧ Initialised c1 ∧
      c.Timer.i < c.Timer.timesToReturn.length ∧
      c1.Timer = ⟨c.Timer.i + 1, c.Timer.timesToReturn⟩) ∨
    (∃ c1, initialise c = .panic (.value timerPanicValue) c1 ∧
      c.Timer.timesToReturn.length ≤ c.Timer.i) := by
  have key : ∀ w : Int, ValidWidth w → ∀ (L : Int) (s : List Int) (m : unixTimerMock),
      (∃ c1, initialise ⟨L, s, w, m⟩ = .ret () c1 ∧ Initialised c1 ∧
        m.i < m.timesToReturn.length ∧ c1.Timer = ⟨m.i + 1, m.timesToReturn⟩) ∨
      (∃ c1, initialise ⟨L, s, w, m⟩ = .panic (.value timerPanicValue) c1 ∧
        m.timesToReturn.length ≤ m.i) := by
    intro w hv L s m
    obtain ⟨hpos, hdiv⟩ := hv
    have hne : w ≠ 0 := ne_of_gt hpos
    have hmod : Int.tmod 60 w = 0 := by
      rw [Int.tmod_eq_emod (by norm_num) (le_of_lt hpos)]
      exact hdiv
    have hdivq : Int.tdiv 60 w = 60 / w := Int.tdiv_eq_ediv (by norm_num) (le_of_lt hpos)
    have hq : ¬ (60 / w < 0) := not_lt.mpr (Int.ediv_nonneg (by norm_num) (le_of_lt hpos))
    rcases CurrentUnixTime_cases m with ⟨h1, h2⟩ | ⟨h1, t, h2⟩
    · right
      refine ⟨⟨L, List.replicate (60 / w).toNat 0, w, m⟩, ?_, h1⟩
      unfold initialise
      simp only [if_neg hne, hmod, hdivq, if_neg hq, h2, ne_eq, not_true_eq_false, if_false]
    · left
      refine ⟨⟨t - 60 * 60, List.replicate (60 / w).toNat 0, w, ⟨m.i + 1, m.timesToReturn⟩⟩,
        ?_, ⟨⟨hpos, hdiv⟩, by simp⟩, h1, rfl⟩
      unfold initialise
      simp only [if_neg hne, hmod, hdivq, if_neg hq, h2, ne_eq, not_true_eq_false, if_false]
  rcases hw with h0 | hv
  · have h4 := key 4 ⟨by norm_num, by norm_num⟩ c.lastHourUnixTimestamp c.countPerBucket c.Timer
    have e : initialise c
        = initialise ⟨c.lastHourUnixTimestamp, c.countPerBucket, 4, c.Timer⟩ := by
      unfold initialise defaultMinutesInBucket
      simp only [if_pos h0]
      norm_num
    rw [e]
    exact h4
  · exact key c.minutesInBucket hv c.lastHourUnixTimestamp c.countPerBucket c.Timer

theorem Safe.width_valid_or_unset {c : LastHourCounter} (h : Safe c) :
    c.minutesInBucket = 0 ∨ ValidWidth c.minutesInBucket := by
  rcases h with h | h
  · exact Or.inr h.1
  · exact h.2

/-- With a valid configuration, `refresh` either returns an initialized counter after
one or two readings of the time source, or panics because the time source is
exhausted. -/
theorem refresh_safe (c : LastHourCounter) (h : Safe c) :
    (∃ c1, refresh c = .ret () c1 ∧ Initialised c1 ∧
      c1.Timer.timesToReturn = c.Timer.timesToReturn ∧ c1.Timer.i ≤ c.Timer.i + 2 ∧
      c1.Timer.i ≤ c1.Timer.timesToReturn.length) ∨
    (∃ c1, refresh c = .panic (.value timerPanicValue) c1 ∧ remainingReadings c < 2) := by
  have step : ∀ c0 : LastHourCounter, Initialised c0 →
      (∃ c1, (match c0.Timer.CurrentUnixTime with
          | none => Outcome.panic (.value timerPanicValue) c0
          | some (currUnixTimestamp, m) =>
            adjustStateToCurrentTime
              ⟨c0.lastHourUnixTimestamp, c0.countPerBucket, c0.minutesInBucket, m⟩
              currUnixTimestamp) = .ret () c1 ∧ Initialised c1 ∧
        c1.Timer.timesToReturn = c0.Timer.timesToReturn ∧ c1.Timer.i = c0.Timer.i + 1 ∧
        c1.Timer.i ≤ c1.Timer.timesToReturn.length) ∨
      (∃ c1, (match c0.Timer.CurrentUnixTime with
          | none => Outcome.panic (.value timerPanicValue) c0
          | some (currUnixTimestamp, m) =>
            adjustStateToCurrentTime
              ⟨c0.lastHourUnixTimestamp, c0.countPerBucket, c0.minutesInBucket, m⟩
              currUnixTimestamp) = .panic (.value timerPanicValue) c1 ∧
        c0.Timer.timesToReturn.length ≤ c0.Timer.i) := by
    intro c0 hi
    rcases CurrentUnixTime_cases c0.Timer with ⟨h1, h2⟩ | ⟨h1, t, h2⟩
    · right
      exact ⟨c0, by rw [h2], h1⟩
    · left
      have hi2 : Initialised ⟨c0.lastHourUnixTimestamp, c0.countPerBucket, c0.minutesInBucket,
          ⟨c0.Timer.i + 1, c0.Timer.timesToReturn⟩⟩ := hi
      refine ⟨_, ?_, hi2.keptByRotation t, ?_, ?_, ?_⟩
      · rw [h2]
        exact adjustStateToCurrentTime_eq _ _ hi.1.1
      · rw [rotateTo_Timer]
      · rw [rotateTo_Timer]
      · rw [rotateTo_Timer]
        exact h1
  unfold refresh remainingReadings
  by_cases h0 : c.lastHourUnixTimestamp = 0
  · rw [if_pos h0]
    rcases initialise_safe c h.width_valid_or_unset with ⟨c1, hc1, hi1, hlt, ht1⟩ | ⟨c1, hc1, hge⟩
    · rw [hc1]
      rcases step c1 hi1 with ⟨c2, g1, g2, g3, g4, g5⟩ | ⟨c2, g1, g2⟩
      · left
        refine ⟨c2, g1, g2, ?_, ?_, g5⟩
        · rw [g3, ht1]
        · rw [g4, ht1]
      · right
        refine ⟨c2, g1, ?_⟩
        rw [ht1] at g2
        have g2' : c.Timer.timesToReturn.length ≤ c.Timer.i + 1 := g2
        omega
    · right
      rw [hc1]
      exact ⟨c1, rfl, by omega⟩
  · rw [if_neg h0]
    have hi : Initialised c := by
      rcases h with h | h
      · exact h
      · exact absurd h.1 h0
    rcases step c hi with ⟨c2, g1, g2, g3, g4, g5⟩ | ⟨c2, g1, g2⟩
    · left
      exact ⟨c2, g1, g2, g3, by omega, g5⟩
    · right
      exact ⟨c2, g1, by omega⟩

/-- With a valid configuration, a public call either returns and leaves an initialized
counter, or panics because the time source is exhausted; in particular no bucket
index is out of range. -/
theorem doCall_safe (c : LastHourCounter) (call : Call) (h : Safe c) :
    (∃ r c1, doCall c call = .ret r c1 ∧ Initialised c1 ∧
      c1.Timer.timesToReturn = c.Timer.timesToReturn ∧ c1.Timer.i ≤ c.Timer.i + 2 ∧
      c1.Timer.i ≤ c1.Timer.timesToReturn.length) ∨
    (∃ c1, doCall c call = .panic (.value timerPanicValue) c1 ∧ remainingReadings c < 2) := by
  rcases refresh_safe c h with ⟨c1, hr, hi, ht1, ht2, ht3⟩ | ⟨c1, hr, hrem⟩
  · left
    cases call with
    | Value =>
      exact ⟨some (c1.countPerBucket.foldl (fun total count => total + count) 0), c1,
        by simp only [doCall, Value_of_refresh hr], hi, ht1, ht2, ht3⟩
    | Increment =>
      have hpos : 0 < c1.countPerBucket.length := by
        rw [hi.2]
        exact bucketCount_pos _ hi.1.1 hi.1.2
      have hlt : c1.countPerBucket.length - 1 < c1.countPerBucket.length := by omega
      have hinc := Increment_of_refresh hr (c1.countPerBucket[c1.countPerBucket.length - 1])
        hpos (List.getElem?_eq_getElem hlt)
      refine ⟨none,
        ⟨c1.lastHourUnixTimestamp,
          c1.countPerBucket.set (c1.countPerBucket.length - 1)
            (c1.countPerBucket[c1.countPerBucket.length - 1] + 1),
          c1.minutesInBucket, c1.Timer⟩,
        by simp only [doCall, hinc], ⟨hi.1, ?_⟩, ht1, ht2, ht3⟩
      show (List.set _ _ _).length = _
      rw [List.length_set]
      exact hi.2
  · right
    refine ⟨c1, ?_, hrem⟩
    cases call with
    | Value => simp only [doCall, Value_eq_refresh, hr]
    | Increment => simp only [doCall, Increment_eq_refresh, hr]

theorem fresh_safe (w : Int) (times : List Int) (h : w = 0 ∨ ValidWidth w) :
    Safe (fresh w times) :=
  Or.inr ⟨rfl, h⟩

/-! ## The claims, continued -/

theorem mem_eventTimes : ∀ (ops : List (Call × Int)) (t : Int),
    (Call.Increment, t) ∈ ops → t ∈ eventTimes ops := by
  intro ops
  induction ops with
  | nil =>
    intro t h
    cases h
  | cons op ops ih =>
    obtain ⟨call, t1⟩ := op
    intro t h
    rw [eventTimes_cons]
    rcases List.mem_cons.mp h with h1 | h1
    · cases h1
      exact List.mem_append_left _ (List.mem_singleton.mpr rfl)
    · exact List.mem_append_right _ (ih t h1)

/-- C6 (as stated, refuted): with a bucket width of 1 minute, initialization at 10000,
one `Increment` at 10059 and `Value` at `13600 = 10059 + 3600 - 60 + 1`, `Value`
returns 0: an event exactly `3600 - w*60 + 1` seconds old is not counted (as
`TestLastHourCounter_ExactlyHourPassed` expects). With an initialization time below
3600 (width 3, all readings 3420) the window start becomes 0, the next call
initializes the counter again and the event is lost. -/
theorem C6_counterexample :
    ((10059 : Int) ≤ 13600 ∧ (13600 : Int) ≤ 10059 + 3600 - 1 * 60 + 1 ∧
      (runThenValue [Call.Increment] (fresh 1 [10000, 10059, 13600])).value? = some 0) ∧
    ((3420 : Int) ≤ 3420 ∧ (3420 : Int) ≤ 3420 + 3600 - 3 * 60 + 1 ∧
      (runThenValue [Call.Increment] (fresh 3 [3420, 3420, 3420, 3420])).value? = some 0) := by
  decide

/-- C6 (amended): for a valid bucket width `w`, an initialization time `T0 ≥ 3600` and
calls that read the non-decreasing times `T0 ≤ t_1 ≤ ... ≤ t_k ≤ q`, if one of the calls
is an `Increment` at time `t` and `q ≤ t + 3600 - w*60`, then the `Value` call that
reads `q` returns at least 1: an event `3600 - w*60` seconds old or more recent is
counted. -/
theorem C6_event_counted_up_to_bound (w T0 : Int) (ops : List (Call × Int)) (t q : Int)
    (hw : 0 < w) (hdiv : 60 % w = 0) (hT0 : 3600 ≤ T0)
    (hsorted : List.Sorted (· ≤ ·) (T0 :: (ops.map Prod.snd ++ [q])))
    (hevent : (Call.Increment, t) ∈ ops) (hq : q ≤ t + 3600 - w * 60) :
    ∃ v, (runThenValue (ops.map Prod.fst)
          (fresh w (T0 :: (ops.map Prod.snd ++ [q])))).value? = some v ∧ 1 ≤ v := by
  obtain ⟨c1, h1, h2, h3, _⟩ :=
    runThenValue_fresh hw hdiv hT0 ops q [] (chain_of_sorted hsorted)
  refine ⟨_, by rw [h1]; rfl, ?_⟩
  have hs2 := h3.2
  rw [h2.width] at hs2
  have hpos : 0 < (eventTimes ops).countP (fun e => decide (c1.lastHourUnixTimestamp ≤ e)) := by
    apply List.countP_pos_iff.mpr
    refine ⟨t, mem_eventTimes ops t hevent, ?_⟩
    simp only [decide_eq_true_eq]
    omega
  exact_mod_cast hpos

/-- C6 (amended), at width 1, initialization at 10000, one `Increment` at 10059 and
`Value` at `13599 = 10059 + 3600 - 60`. -/
theorem C6_event_counted_up_to_bound_witness :
    ∃ v, (runThenValue ([(Call.Increment, (10059 : Int))].map Prod.fst)
          (fresh 1 (10000 :: ([(Call.Increment, (10059 : Int))].map Prod.snd ++ [13599])))).value?
          = some v ∧ 1 ≤ v :=
  C6_event_counted_up_to_bound 1 10000 [(Call.Increment, 10059)] 10059 13599
    (by decide) (by decide) (by decide) (by decide) (by decide) (by decide)

theorem replicate_readings (n : Nat) (T : Int) :
    List.replicate (n + 2) T = T :: (List.replicate n T ++ [T]) := by
  induction n with
  | zero => rfl
  | succ n ih =>
    show T :: List.replicate (n + 2) T = T :: (T :: (List.replicate n T) ++ [T])
    rw [ih]
    rfl

/-- C7: for a valid bucket width, a time `T > 3600` and any `n`, on a fresh counter
whose time source returns `T` at each of its `n + 2` readings, `n` `Increment` calls
followed by a `Value` call return exactly `n`. -/
theorem C7_increments_without_elapsed_time (w T : Int) (n : Nat)
    (hw : 0 < w) (hdiv : 60 % w = 0) (hT : 3600 < T) :
    (runThenValue (List.replicate n Call.Increment)
        (fresh w (List.replicate (n + 2) T))).value? = some (n : Int) := by
  have hsorted : List.Sorted (· ≤ ·) (T :: List.replicate n T) := by
    apply List.sorted_cons.mpr
    constructor
    · intro b hb
      rw [List.eq_of_mem_replicate hb]
    · apply List.pairwise_replicate.mpr
      right
      exact le_refl T
  have h := replay_aligned hw hdiv (le_of_lt hT) (List.replicate n T) T hsorted
    (by
      intro e he
      rw [List.eq_of_mem_replicate he])
    (by simp)
  rw [List.length_replicate, ← replicate_readings] at h
  rw [h, List.countP_replicate]
  have hwidth := width_le w hw hdiv
  have hc : decide (T - T < 3600 - w * 60 + 1) = true := by
    simp only [decide_eq_true_eq]
    omega
  rw [if_pos hc]

/-- C7, at the default width 4, time 10000 and two increments. -/
theorem C7_increments_without_elapsed_time_witness :
    (runThenValue (List.replicate 2 Call.Increment)
        (fresh 4 (List.replicate (2 + 2) 10000))).value? = some ((2 : Nat) : Int) :=
  C7_increments_without_elapsed_time 4 10000 2 (by decide) (by decide) (by decide)

/-- C8: for a positive bucket width `w`, the first public call on a fresh counter
panics with the value "Minutes in bucket should be a divisor of 60" if and only if
`60 mod w ≠ 0`; when it does, the counter is left as it was: no bucket allocated and
the window start still 0. -/
theorem C8_panic_on_non_divisor (w : Int) (times : List Int) (call : Call) (hw : 0 < w) :
    ((doCall (fresh w times) call).panic? = some (Panic.value divisorPanicValue)
        ↔ 60 % w ≠ 0) ∧
    (60 % w ≠ 0 → (doCall (fresh w times) call).counter = fresh w times ∧
      (doCall (fresh w times) call).counter.countPerBucket = [] ∧
      (doCall (fresh w times) call).counter.lastHourUnixTimestamp = 0) := by
  by_cases hdiv : 60 % w = 0
  · refine ⟨?_, fun h => absurd hdiv h⟩
    constructor
    · intro hp
      exfalso
      rcases doCall_safe (fresh w times) call (fresh_safe w times (Or.inr ⟨hw, hdiv⟩)) with
        ⟨r, c1, hc, _⟩ | ⟨c1, hc, _⟩
      · rw [hc] at hp
        cases hp
      · rw [hc] at hp
        have hne : timerPanicValue ≠ divisorPanicValue := by decide
        injection hp with hp1
        injection hp1 with hp2
        exact hne hp2
    · intro h
      exact absurd hdiv h
  · have hmod : Int.tmod 60 w ≠ 0 := by
      rw [Int.tmod_eq_emod (by norm_num) (le_of_lt hw)]
      exact hdiv
    have hinit : initialise (fresh w times) = .panic (.value divisorPanicValue) (fresh w times) := by
      unfold initialise fresh
      simp only [if_neg (ne_of_gt hw), hmod, ne_eq, not_false_eq_true, if_true]
    have hr : refresh (fresh w times) = .panic (.value divisorPanicValue) (fresh w times) := by
      have h0 : (fresh w times).lastHourUnixTimestamp = 0 := rfl
      unfold refresh
      simp only [if_pos h0, hinit]
    have hc : doCall (fresh w times) call
        = .panic (.value divisorPanicValue) (fresh w times) := by
      cases call with
      | Value => simp only [doCall, Value_eq_refresh, hr]
      | Increment => simp only [doCall, Increment_eq_refresh, hr]
    rw [hc]
    exact ⟨⟨fun _ => hdiv, fun _ => rfl⟩, fun _ => ⟨rfl, rfl, rfl⟩⟩

/-- C8, at width 8 (the width of `TestInitializationErrorOnNonDivisorBucket`) and an
`Increment` call. -/
theorem C8_panic_on_non_divisor_witness :
    ((doCall (fresh 8 [10000, 10000]) Call.Increment).panic?
        = some (Panic.value divisorPanicValue) ↔ (60 : Int) % 8 ≠ 0) ∧
    ((60 : Int) % 8 ≠ 0 →
      (doCall (fresh 8 [10000, 10000]) Call.Increment).counter = fresh 8 [10000, 10000] ∧
      (doCall (fresh 8 [10000, 10000]) Call.Increment).counter.countPerBucket = [] ∧
      (doCall (fresh 8 [10000, 10000]) Call.Increment).counter.lastHourUnixTimestamp = 0) :=
  C8_panic_on_non_divisor 8 [10000, 10000] Call.Increment (by decide)

theorem runThenValue_inv {calls : List Call} {c0 c1 : LastHourCounter} {v : Int}
    (h : runThenValue calls c0 = .ret v c1) :
    ∃ c, runCalls calls c0 = .ret () c ∧ Value c = .ret v c1 := by
  unfold runThenValue at h
  cases hr : runCalls calls c0 with
  | ret u c =>
    rw [hr] at h
    exact ⟨c, rfl, h⟩
  | panic p c =>
    rw [hr] at h
    cases h

theorem Value_ret_inv {c c1 : LastHourCounter} {v : Int} (h : Value c = .ret v c1) :
    v = c1.countPerBucket.foldl (fun total count => total + count) 0 := by
  rw [Value_eq_refresh] at h
  cases hr : refresh c with
  | ret u c2 =>
    rw [hr] at h
    cases h
    rfl
  | panic p c2 =>
    rw [hr] at h
    cases h

theorem getElem?_second_query (T0 t : Int) (l : List Int) :
    (T0 :: (l ++ [t, t]))[l.length + 2]? = some t := by
  rw [List.getElem?_cons_succ, List.getElem?_append_right (by omega)]
  have : l.length + 1 - l.length = 1 := by omega
  rw [this]
  rfl

/-- C10: for a valid bucket width, a counter reached from a fresh counter by calls
that read non-decreasing times, all greater than 3600, and a time `t` not earlier than
the last of them, two consecutive `Value` calls that both read `t` return the same
number, and the second leaves the window start and every bucket unchanged. -/
theorem C10_value_idempotent (w T0 : Int) (ops : List (Call × Int)) (t : Int)
    (hw : 0 < w) (hdiv : 60 % w = 0) (hT0 : 3600 < T0)
    (hsorted : List.Sorted (· ≤ ·) (T0 :: (ops.map Prod.snd ++ [t]))) :
    ∃ c v c1 c2,
      runCalls (ops.map Prod.fst) (fresh w (T0 :: (ops.map Prod.snd ++ [t, t]))) = .ret () c ∧
      Value c = .ret v c1 ∧ Value c1 = .ret v c2 ∧
      c2.lastHourUnixTimestamp = c1.lastHourUnixTimestamp ∧
      c2.countPerBucket = c1.countPerBucket := by
  obtain ⟨c1, h1, h2, h3, h4⟩ :=
    runThenValue_fresh hw hdiv (le_of_lt hT0) ops t [t] (chain_of_sorted hsorted)
  obtain ⟨c, hc, hv⟩ := runThenValue_inv h1
  have hT0t : T0 ≤ t := by
    obtain ⟨hall, _⟩ := List.sorted_cons.mp hsorted
    exact hall t (by simp)
  have hL : t - 3600 < c1.lastHourUnixTimestamp := h3.1
  have hread : c1.Timer.timesToReturn[c1.Timer.i]? = some t := by
    rw [h4]
    have := getElem?_second_query T0 t (ops.map Prod.snd)
    rw [List.length_map] at this
    exact this
  have hr := refresh_initialised c1 t (by omega) (by rw [h2.width]; exact hw) hread
  have hrot : rotateTo ⟨c1.lastHourUnixTimestamp, c1.countPerBucket, c1.minutesInBucket,
      ⟨c1.Timer.i + 1, c1.Timer.timesToReturn⟩⟩ t
      = ⟨c1.lastHourUnixTimestamp, c1.countPerBucket, c1.minutesInBucket,
        ⟨c1.Timer.i + 1, c1.Timer.timesToReturn⟩⟩ := by
    unfold rotateTo
    rw [if_pos hL]
  rw [hrot] at hr
  refine ⟨c, _, c1,
    ⟨c1.lastHourUnixTimestamp, c1.countPerBucket, c1.minutesInBucket,
      ⟨c1.Timer.i + 1, c1.Timer.timesToReturn⟩⟩, hc, hv, ?_, rfl, rfl⟩
  rw [Value_of_refresh hr, ← Value_ret_inv hv]

/-- C10, at width 4, initialization at 10000, after `Increment` at 10100 and 12000, for
two `Value` calls at 13650. -/
theorem C10_value_idempotent_witness :
    ∃ c v c1 c2,
      runCalls ([(Call.Increment, (10100 : Int)), (Call.Increment, 12000)].map Prod.fst)
        (fresh 4 (10000 :: ([(Call.Increment, (10100 : Int)), (Call.Increment, 12000)].map
          Prod.snd ++ [13650, 13650]))) = .ret () c ∧
      Value c = .ret v c1 ∧ Value c1 = .ret v c2 ∧
      c2.lastHourUnixTimestamp = c1.lastHourUnixTimestamp ∧
      c2.countPerBucket = c1.countPerBucket :=
  C10_value_idempotent 4 10000 [(Call.Increment, 10100), (Call.Increment, 12000)] 13650
    (by decide) (by decide) (by decide) (by decide)

/-! ## Properties of the rotation -/

/-- The nested floor divisions of the rotation are one floor division by the bucket
width in seconds. -/
theorem bucketsToShift_eq_div (w L now : Int) (hw : 0 < w) :
    bucketsToShift w L now = (now - 3600 - L) / (w * 60) + 1 := by
  unfold bucketsToShift
  have hW : 0 < w * 60 := by omega
  have h1 := Int.ediv_mul_le ((now - 3600 - L) / 60) (ne_of_gt hw)
  have h2 := Int.lt_ediv_add_one_mul_self ((now - 3600 - L) / 60) hw
  have h3 : (now - 3600 - L) / 60 / w * (w * 60) = (now - 3600 - L) / 60 / w * w * 60 := by ring
  have h4 : ((now - 3600 - L) / 60 / w + 1) * (w * 60)
      = ((now - 3600 - L) / 60 / w + 1) * w * 60 := by ring
  have hle : (now - 3600 - L) / 60 / w ≤ (now - 3600 - L) / (w * 60) := by
    rw [Int.le_ediv_iff_mul_le hW, h3]
    omega
  have hlt : (now - 3600 - L) / (w * 60) < (now - 3600 - L) / 60 / w + 1 := by
    rw [Int.ediv_lt_iff_lt_mul hW, h4]
    omega
  omega

theorem rotated_rotated (a b : Nat) (s : List Int) :
    rotated a (rotated b s) = rotated (b + a) s := by
  apply List.ext_getElem?
  intro j
  rw [rotated_getElem?, rotated_getElem?, rotated_getElem?, rotated_length]
  by_cases h1 : j + a < s.length
  · rw [if_pos h1]
    by_cases h2 : j + a + b < s.length
    · rw [if_pos h2, if_pos (by omega : j + (b + a) < s.length)]
      congr 1
      omega
    · rw [if_neg h2, if_pos h1, if_neg (by omega : ¬ j + (b + a) < s.length),
        if_pos (by omega : j < s.length)]
  · rw [if_neg h1, if_neg (by omega : ¬ j + (b + a) < s.length)]

theorem rotateTo_of_lt (L : Int) (s : List Int) (w : Int) (m : unixTimerMock) (t : Int)
    (h : t - 3600 < L) : rotateTo ⟨L, s, w, m⟩ t = ⟨L, s, w, m⟩ := by
  unfold rotateTo
  rw [if_pos h]

theorem rotateTo_of_le (L : Int) (s : List Int) (w : Int) (m : unixTimerMock) (t : Int)
    (h : L ≤ t - 3600) :
    rotateTo ⟨L, s, w, m⟩ t
      = ⟨L + bucketsToShift w L t * w * 60, rotated (bucketsToShift w L t).toNat s, w, m⟩ := by
  unfold rotateTo
  rw [if_neg (by
    show ¬ t - 3600 < L
    omega)]

/-- Rotating to `t1` and then to a later `t2` is rotating to `t2`. -/
theorem rotateTo_rotateTo (c : LastHourCounter) (t1 t2 : Int) (hw : 0 < c.minutesInBucket)
    (h12 : t1 ≤ t2) : rotateTo (rotateTo c t1) t2 = rotateTo c t2 := by
  obtain ⟨L, s, w, m⟩ := c
  have hw : 0 < w := hw
  have hW : 0 < w * 60 := by omega
  by_cases hA : t1 - 3600 < L
  · rw [rotateTo_of_lt L s w m t1 hA]
  · have hk1 := bucketsToShift_pos w L t1 hw (by omega)
    have hk2 := bucketsToShift_pos w L t2 hw (by omega)
    have d1 := bucketsToShift_eq_div w L t1 hw
    have d2 := bucketsToShift_eq_div w L t2 hw
    have hmono : (t1 - 3600 - L) / (w * 60) ≤ (t2 - 3600 - L) / (w * 60) :=
      Int.ediv_le_ediv hW (by omega)
    rw [rotateTo_of_le L s w m t1 (by omega), rotateTo_of_le L s w m t2 (by omega)]
    by_cases hB : t2 - 3600 < L + bucketsToShift w L t1 * w * 60
    · have hk : bucketsToShift w L t2 = bucketsToShift w L t1 := by
        have h5 : (t2 - 3600 - L) / (w * 60) < bucketsToShift w L t1 := by
          rw [Int.ediv_lt_iff_lt_mul hW, ← mul_assoc]
          omega
        omega
      rw [hk, rotateTo_of_lt _ _ _ _ _ hB]
    · have hk : bucketsToShift w (L + bucketsToShift w L t1 * w * 60) t2
            + bucketsToShift w L t1 = bucketsToShift w L t2 := by
        rw [bucketsToShift_eq_div _ _ _ hw, d2]
        have e : t2 - 3600 - (L + bucketsToShift w L t1 * w * 60)
            = (t2 - 3600 - L) + (-bucketsToShift w L t1) * (w * 60) := by ring
        rw [e, Int.add_mul_ediv_right _ _ (ne_of_gt hW)]
        omega
      have hk3 := bucketsToShift_pos w (L + bucketsToShift w L t1 * w * 60) t2 hw (by omega)
      rw [rotateTo_of_le _ _ _ _ _ (by omega), rotated_rotated,
        ← Int.toNat_add (by omega) (by omega), add_comm (bucketsToShift w L t1), hk, ← hk]
      congr 1
      ring

/-- The window start and the buckets after a rotation do not depend on the state of
the time source. -/
theorem rotateTo_fields (c d : LastHourCounter) (t : Int)
    (hL : c.lastHourUnixTimestamp = d.lastHourUnixTimestamp)
    (hs : c.countPerBucket = d.countPerBucket) (hw : c.minutesInBucket = d.minutesInBucket) :
    (rotateTo c t).lastHourUnixTimestamp = (rotateTo d t).lastHourUnixTimestamp ∧
      (rotateTo c t).countPerBucket = (rotateTo d t).countPerBucket := by
  unfold rotateTo
  rw [hL, hs, hw]
  by_cases h : t - 3600 < d.lastHourUnixTimestamp
  · rw [if_pos h, if_pos h]
    exact ⟨hL, hs⟩
  · rw [if_neg h, if_neg h]
    exact ⟨rfl, rfl⟩

theorem rotateTo_lastHour_ge (c : LastHourCounter) (now : Int) (hw : 0 < c.minutesInBucket) :
    c.lastHourUnixTimestamp ≤ (rotateTo c now).lastHourUnixTimestamp := by
  obtain ⟨k, hk⟩ := rotateTo_shape c now hw
  rw [hk]
  show c.lastHourUnixTimestamp ≤ c.lastHourUnixTimestamp + (k : Int) * (c.minutesInBucket * 60)
  have : 0 ≤ (k : Int) * (c.minutesInBucket * 60) := Int.mul_nonneg (by omega) (by omega)
  omega

/-- Over the integers: for a fresh counter whose bucket width `w` is a positive divisor
of 60, or is unset (0) and then taken as 4, `initialize` reading `T0` returns, stores the
width, allocates exactly `60 / w` buckets (15 by default), all zero, and sets the window
start to `T0 - 3600`. -/
theorem initialise_fresh (w T0 : Int) (rest : List Int)
    (hw : w = 0 ∨ (0 < w ∧ 60 % w = 0)) :
    ∃ c, initialise (fresh w (T0 :: rest)) = .ret () c ∧
      c.minutesInBucket = (if w = 0 then 4 else w) ∧
      (c.countPerBucket.length : Int) = 60 / (if w = 0 then 4 else w) ∧
      (w = 0 → c.countPerBucket.length = 15) ∧
      (∀ x ∈ c.countPerBucket, x = 0) ∧
      c.lastHourUnixTimestamp = T0 - 3600 ∧
      c.Timer = ⟨1, T0 :: rest⟩ := by
  have key : ∀ v : Int, 0 < v → 60 % v = 0 → ∀ u : Int, (u = 0 ∧ v = 4) ∨ (u ≠ 0 ∧ u = v) →
      initialise (fresh u (T0 :: rest))
        = .ret () ⟨T0 - 3600, List.replicate (60 / v).toNat 0, v, ⟨1, T0 :: rest⟩⟩ := by
    intro v hpos hdiv u hu
    have hne : v ≠ 0 := ne_of_gt hpos
    have hmod : Int.tmod 60 v = 0 := by
      rw [Int.tmod_eq_emod (by norm_num) (le_of_lt hpos)]
      exact hdiv
    have hdivq : Int.tdiv 60 v = 60 / v := Int.tdiv_eq_ediv (by norm_num) (le_of_lt hpos)
    have hq : ¬ (60 / v < 0) := not_lt.mpr (Int.ediv_nonneg (by norm_num) (le_of_lt hpos))
    have r0 : (⟨0, T0 :: rest⟩ : unixTimerMock).CurrentUnixTime = some (T0, ⟨1, T0 :: rest⟩) :=
      CurrentUnixTime_eq ⟨0, T0 :: rest⟩ T0 (by simp)
    have e3600 : T0 - 60 * 60 = T0 - 3600 := by norm_num
    rcases hu with ⟨h0, h4⟩ | ⟨h0, hv⟩
    · subst h0
      subst h4
      unfold initialise fresh defaultMinutesInBucket
      simp only [if_true, hmod, hdivq, if_neg hq, r0, ne_eq, not_true_eq_false, if_false, e3600]
    · subst hv
      unfold initialise fresh
      simp only [if_neg h0, hmod, hdivq, if_neg hq, r0, ne_eq, not_true_eq_false, if_false,
        e3600]
  rcases hw with h0 | ⟨hpos, hdiv⟩
  · subst h0
    refine ⟨_, key 4 (by norm_num) (by norm_num) 0 (Or.inl ⟨rfl, rfl⟩), ?_, ?_, ?_, ?_, rfl, rfl⟩
    · simp
    · simp
    · intro _
      simp
    · intro x hx
      exact (List.mem_replicate.mp hx).2
  · have hne : w ≠ 0 := ne_of_gt hpos
    refine ⟨_, key w hpos hdiv w (Or.inr ⟨hne, rfl⟩), ?_, ?_, ?_, ?_, rfl, rfl⟩
    · rw [if_neg hne]
    · rw [if_neg hne]
      show ((List.replicate (60 / w).toNat (0 : Int)).length : Int) = 60 / w
      rw [List.length_replicate]
      exact Int.toNat_of_nonneg (Int.ediv_nonneg (by norm_num) (le_of_lt hpos))
    · intro h
      exact absurd h hne
    · intro x hx
      exact (List.mem_replicate.mp hx).2

/-- Over the integers: for a state with window start `L`, buckets `b` of length `n` and
bucket width `w ≥ 1`, and a time `now`, the rotation returns; if `now - 3600 < L` nothing
is changed; otherwise, with `k = floor(floor((now - 3600 - L) / 60) / w) + 1`, which is at least 1,
the window start becomes `L + k*w*60` and the buckets become `b'` of the same length
with `b'[i] = b[i+k]` when `i + k < n` and `b'[i] = 0` otherwise; the width and the
time source are unchanged. -/
theorem adjustStateToCurrentTime_algorithm (c : LastHourCounter) (now : Int)
    (hw : 1 ≤ c.minutesInBucket) :
    ∃ c1, adjustStateToCurrentTime c now = .ret () c1 ∧
      (now - 3600 < c.lastHourUnixTimestamp → c1 = c) ∧
      (¬ now - 3600 < c.lastHourUnixTimestamp →
        1 ≤ (now - 3600 - c.lastHourUnixTimestamp) / 60 / c.minutesInBucket + 1 ∧
        c1.lastHourUnixTimestamp = c.lastHourUnixTimestamp +
          ((now - 3600 - c.lastHourUnixTimestamp) / 60 / c.minutesInBucket + 1)
            * c.minutesInBucket * 60 ∧
        c1.countPerBucket.length = c.countPerBucket.length ∧
        (∀ i, i < c.countPerBucket.length →
          c1.countPerBucket[i]? =
            if (i : Int) + ((now - 3600 - c.lastHourUnixTimestamp) / 60 / c.minutesInBucket + 1)
                < c.countPerBucket.length
            then c.countPerBucket[i +
              ((now - 3600 - c.lastHourUnixTimestamp) / 60 / c.minutesInBucket + 1).toNat]?
            else some 0) ∧
        c1.minutesInBucket = c.minutesInBucket ∧ c1.Timer = c.Timer) := by
  have hw0 : 0 < c.minutesInBucket := by omega
  refine ⟨rotateTo c now, adjustStateToCurrentTime_eq c now hw0, ?_, ?_⟩
  · intro h
    unfold rotateTo
    rw [if_pos h]
  · intro h
    have hk := bucketsToShift_pos c.minutesInBucket c.lastHourUnixTimestamp now hw0 (by omega)
    unfold bucketsToShift at hk
    have e : rotateTo c now = ⟨c.lastHourUnixTimestamp +
          ((now - 3600 - c.lastHourUnixTimestamp) / 60 / c.minutesInBucket + 1)
            * c.minutesInBucket * 60,
        rotated ((now - 3600 - c.lastHourUnixTimestamp) / 60 / c.minutesInBucket + 1).toNat
          c.countPerBucket, c.minutesInBucket, c.Timer⟩ := by
      unfold rotateTo bucketsToShift
      rw [if_neg h]
    rw [e]
    refine ⟨hk, rfl, rotated_length _ _, ?_, rfl, rfl⟩
    intro i hi
    show (rotated _ c.countPerBucket)[i]? = _
    rw [rotated_getElem?]
    by_cases hik : i + ((now - 3600 - c.lastHourUnixTimestamp) / 60 / c.minutesInBucket
        + 1).toNat < c.countPerBucket.length
    · rw [if_pos hik, if_pos (by omega)]
    · rw [if_neg hik, if_pos hi, if_neg (by omega)]

/-- Over the integers: for a state with bucket width `w ≥ 1` and a time `now`, the
rotation returns and the window start is then greater than `now - 3600`; when the call
did rotate
(`now - 3600` was at least the old window start) the new window start is at most
`now - 3600 + w*60`. -/
theorem adjustStateToCurrentTime_bound (c : LastHourCounter) (now : Int)
    (hw : 1 ≤ c.minutesInBucket) :
    ∃ c1, adjustStateToCurrentTime c now = .ret () c1 ∧
      now - 3600 < c1.lastHourUnixTimestamp ∧
      (c.lastHourUnixTimestamp ≤ now - 3600 →
        c1.lastHourUnixTimestamp ≤ now - 3600 + c.minutesInBucket * 60) := by
  have hw0 : 0 < c.minutesInBucket := by omega
  refine ⟨rotateTo c now, adjustStateToCurrentTime_eq c now hw0,
    rotateTo_lastHour_gt c now hw0, ?_⟩
  intro h
  exact rotateTo_lastHour_le c now hw0 (by omega)

/-! ## The effect of `Increment` -/

theorem set_last_add_one (s : List Int) (n : Nat) (hn : s.length = n)
    (hlt : s.length - 1 < s.length) :
    (s.set (s.length - 1) (s[s.length - 1] + 1)).length = s.length ∧
    (s.set (s.length - 1) (s[s.length - 1] + 1))[n - 1]?
      = (s[n - 1]?).map (fun v => v + 1) ∧
    (∀ j, j ≠ n - 1 → (s.set (s.length - 1) (s[s.length - 1] + 1))[j]? = s[j]?) ∧
    (s.set (s.length - 1) (s[s.length - 1] + 1)).sum = s.sum + 1 := by
  subst hn
  refine ⟨List.length_set _ _ _, ?_, ?_, ?_⟩
  · rw [List.getElem?_set_self hlt, List.getElem?_eq_getElem hlt]
    rfl
  · intro j hj
    rw [List.getElem?_set_ne (Ne.symm hj)]
  · rw [List.sum_set', dif_pos hlt]
    ring

/-! ## The exact value -/

/-- C19: for a valid bucket width `w`, an initialization time `T0 > 3600`, event times
`T0 ≤ e_1 ≤ ... ≤ e_n` replayed through `Increment` and a query time `q` not before the
events, `Value` returns exactly the number of events `e` with
`floor((q - T0) / (w*60)) - floor((e - T0) / (w*60)) < 60 / w`. -/
theorem C19_value_by_bucket_index (w T0 : Int) (es : List Int) (q : Int)
    (hw : 0 < w) (hdiv : 60 % w = 0) (hT0 : 3600 < T0)
    (hsorted : List.Sorted (· ≤ ·) (T0 :: es)) (hq : ∀ e ∈ es, e ≤ q) :
    (runThenValue (List.replicate es.length Call.Increment) (fresh w (T0 :: (es ++ [q])))).value?
      = some ((es.countP (fun e => decide
          ((q - T0) / (w * 60) - (e - T0) / (w * 60) < 60 / w)) : Nat) : Int) := by
  by_cases hne : es = []
  · subst hne
    have hr := refresh_fresh w [T0, q] T0 q hw hdiv (by simp) (by simp)
    have hv := (Value_tracks hw hdiv q hr (Tracks.init w T0 hw hdiv _)).1
    show (runThenValue [] (fresh w [T0, q])).value? = _
    simp only [runThenValue, runCalls, hv]
    rfl
  · obtain ⟨c1, h1, h2, h3, _⟩ :=
      replay_fresh hw hdiv (le_of_lt hT0) es q [] (chain_append_singleton hsorted hq hne)
    rw [h1]
    have hL := h2.lastHour_eq hw hdiv q h3
    have hW : 0 < w * 60 := by omega
    have hn := bucketCount_mul w hw hdiv
    rw [Int.toNat_of_nonneg (Int.ediv_nonneg (by norm_num) (le_of_lt hw))] at hn
    have hqdiv := Int.emod_add_ediv (q - T0) (w * 60)
    show some _ = some _
    congr 2
    apply List.countP_congr
    intro e _
    simp only [decide_eq_true_eq]
    have key : (q - T0) / (w * 60) - 60 / w + 1 ≤ (e - T0) / (w * 60)
        ↔ ((q - T0) / (w * 60) - 60 / w + 1) * (w * 60) ≤ e - T0 :=
      Int.le_ediv_iff_mul_le hW
    have e1 : ((q - T0) / (w * 60) - 60 / w + 1) * (w * 60)
        = w * 60 * ((q - T0) / (w * 60)) - 60 / w * (w * 60) + w * 60 := by ring
    rw [e1, hn] at key
    constructor
    · intro h
      have := key.mpr (by omega)
      omega
    · intro h
      have := key.mp (by omega)
      omega

/-- C19, at width 4, initialization at 10000, events at 10100, 10239, 10240 and 12000
and a query at 13650, which is not on the grid. -/
theorem C19_value_by_bucket_index_witness :
    (runThenValue (List.replicate [(10100 : Int), 10239, 10240, 12000].length Call.Increment)
        (fresh 4 (10000 :: ([10100, 10239, 10240, 12000] ++ [13650])))).value?
      = some ((([10100, 10239, 10240, 12000] : List Int).countP (fun e => decide
          ((13650 - 10000) / (4 * 60) - (e - 10000) / (4 * 60) < 60 / 4)) : Nat) : Int) :=
  C19_value_by_bucket_index 4 10000 [10100, 10239, 10240, 12000] 13650
    (by decide) (by decide) (by decide) (by decide) (by decide)

/-! ## Runs with arbitrary readings -/

/-- With a valid width, `initialize` allocates the zero buckets and then reads the time
source: it returns with the window start set, or panics on an exhausted time source
with the buckets already allocated. -/
theorem initialise_valid (c : LastHourCounter) (hv : ValidWidth c.minutesInBucket) :
    initialise c =
      match c.Timer.CurrentUnixTime with
      | none => .panic (.value timerPanicValue)
          ⟨c.lastHourUnixTimestamp, List.replicate (60 / c.minutesInBucket).toNat 0,
            c.minutesInBucket, c.Timer⟩
      | some (t, m) => .ret ()
          ⟨t - 3600, List.replicate (60 / c.minutesInBucket).toNat 0, c.minutesInBucket, m⟩ := by
  obtain ⟨hpos, hdiv⟩ := hv
  have hne : c.minutesInBucket ≠ 0 := ne_of_gt hpos
  have hmod : Int.tmod 60 c.minutesInBucket = 0 := by
    rw [Int.tmod_eq_emod (by norm_num) (le_of_lt hpos)]
    exact hdiv
  have hdivq : Int.tdiv 60 c.minutesInBucket = 60 / c.minutesInBucket :=
    Int.tdiv_eq_ediv (by norm_num) (le_of_lt hpos)
  have hq : ¬ (60 / c.minutesInBucket < 0) :=
    not_lt.mpr (Int.ediv_nonneg (by norm_num) (le_of_lt hpos))
  unfold initialise
  simp only [if_neg hne, hmod, hdivq, if_neg hq, ne_eq, not_true_eq_false, if_false]
  cases c.Timer.CurrentUnixTime with
  | none => rfl
  | some x =>
    obtain ⟨t, m⟩ := x
    show Outcome.ret () ⟨t - 60 * 60, _, _, _⟩ = Outcome.ret () ⟨t - 3600, _, _, _⟩
    norm_num

theorem rotated_nonneg (k : Nat) (s : List Int) (h : ∀ x ∈ s, 0 ≤ x) :
    ∀ x ∈ rotated k s, 0 ≤ x := by
  intro x hx
  unfold rotated at hx
  rcases List.mem_append.mp hx with h1 | h1
  · exact h x (List.mem_of_mem_drop h1)
  · rw [(List.mem_replicate.mp h1).2]

theorem width_count_pos (w : Int) (hv : ValidWidth w) : 1 ≤ 60 / w := by
  have h := bucketCount_pos w hv.1 hv.2
  have h2 := Int.toNat_of_nonneg (Int.ediv_nonneg (by norm_num : (0 : Int) ≤ 60) (le_of_lt hv.1))
  omega

theorem BucketsWellFormed.stillWellFormed {w : Int} {c : LastHourCounter}
    (h : BucketsWellFormed w c) (hw : 0 < w) (t : Int) :
    BucketsWellFormed w (rotateTo c t) := by
  obtain ⟨h1, h2, h3⟩ := h
  have hwc : 0 < c.minutesInBucket := by rw [h1]; exact hw
  obtain ⟨k, hk⟩ := rotateTo_shape c t hwc
  rw [hk]
  refine ⟨h1, ?_, rotated_nonneg k _ h3⟩
  show ((rotated k c.countPerBucket).length : Int) = 60 / w
  rw [rotated_length]
  exact h2

theorem BucketsWellFormed.zeros (w : Int) (hv : ValidWidth w) (L : Int) (m : unixTimerMock) :
    BucketsWellFormed w ⟨L, List.replicate (60 / w).toNat 0, w, m⟩ := by
  refine ⟨rfl, ?_, ?_⟩
  · show ((List.replicate (60 / w).toNat (0 : Int)).length : Int) = 60 / w
    rw [List.length_replicate]
    exact Int.toNat_of_nonneg (Int.ediv_nonneg (by norm_num) (le_of_lt hv.1))
  · intro x hx
    rw [(List.mem_replicate.mp hx).2]

/-- The structural invariant holds for the counter left by `refresh`, whether it returns
or panics, and the only panic is the one of an exhausted time source. -/
theorem refresh_wellFormed {w : Int} (hv : ValidWidth w) (c : LastHourCounter)
    (h : BucketsWellFormed w c) :
    BucketsWellFormed w (refresh c).counter ∧
      ((∃ c1, refresh c = .ret () c1) ∨ (∃ c1, refresh c = .panic (.value timerPanicValue) c1)) := by
  have step : ∀ c0 : LastHourCounter, BucketsWellFormed w c0 →
      BucketsWellFormed w (match c0.Timer.CurrentUnixTime with
          | none => Outcome.panic (.value timerPanicValue) c0
          | some (currUnixTimestamp, m) =>
            adjustStateToCurrentTime
              ⟨c0.lastHourUnixTimestamp, c0.countPerBucket, c0.minutesInBucket, m⟩
              currUnixTimestamp).counter ∧
      ((∃ c1, (match c0.Timer.CurrentUnixTime with
          | none => Outcome.panic (.value timerPanicValue) c0
          | some (currUnixTimestamp, m) =>
            adjustStateToCurrentTime
              ⟨c0.lastHourUnixTimestamp, c0.countPerBucket, c0.minutesInBucket, m⟩
              currUnixTimestamp) = .ret () c1) ∨
        (∃ c1, (match c0.Timer.CurrentUnixTime with
          | none => Outcome.panic (.value timerPanicValue) c0
          | some (currUnixTimestamp, m) =>
            adjustStateToCurrentTime
              ⟨c0.lastHourUnixTimestamp, c0.countPerBucket, c0.minutesInBucket, m⟩
              currUnixTimestamp) = .panic (.value timerPanicValue) c1)) := by
    intro c0 h0
    cases c0.Timer.CurrentUnixTime with
    | none => exact ⟨h0, Or.inr ⟨c0, rfl⟩⟩
    | some x =>
      obtain ⟨t, m⟩ := x
      have hw0 : 0 < c0.minutesInBucket := by rw [h0.1]; exact hv.1
      have h0' : BucketsWellFormed w
          ⟨c0.lastHourUnixTimestamp, c0.countPerBucket, c0.minutesInBucket, m⟩ := h0
      have ha := adjustStateToCurrentTime_eq
        ⟨c0.lastHourUnixTimestamp, c0.countPerBucket, c0.minutesInBucket, m⟩ t hw0
      dsimp only
      rw [ha]
      exact ⟨h0'.stillWellFormed hv.1 t, Or.inl ⟨_, rfl⟩⟩
  have hvc : ValidWidth c.minutesInBucket := by rw [h.1]; exact hv
  unfold refresh
  by_cases hL : c.lastHourUnixTimestamp = 0
  · rw [if_pos hL, initialise_valid c hvc]
    cases c.Timer.CurrentUnixTime with
    | none =>
      refine ⟨?_, Or.inr ⟨_, rfl⟩⟩
      show BucketsWellFormed w ⟨_, _, _, _⟩
      rw [h.1]
      exact BucketsWellFormed.zeros w hv _ _
    | some x =>
      obtain ⟨t, m⟩ := x
      have hz : BucketsWellFormed w
          ⟨t - 3600, List.replicate (60 / c.minutesInBucket).toNat 0, c.minutesInBucket, m⟩ := by
        rw [h.1]
        exact BucketsWellFormed.zeros w hv _ _
      exact step _ hz
  · rw [if_neg hL]
    exact step c h

/-- The structural invariant holds for the counter left by a public call, whether it
returns or panics. -/
theorem doCall_wellFormed {w : Int} (hv : ValidWidth w) (c : LastHourCounter) (call : Call)
    (h : BucketsWellFormed w c) : BucketsWellFormed w (doCall c call).counter := by
  obtain ⟨hr, hcases⟩ := refresh_wellFormed hv c h
  rcases hcases with ⟨c1, hc1⟩ | ⟨c1, hc1⟩
  · rw [hc1] at hr
    have hr' : BucketsWellFormed w c1 := hr
    cases call with
    | Value =>
      simp only [doCall, Value_of_refresh hc1]
      exact hr'
    | Increment =>
      have hcount := width_count_pos w hv
      have hpos : 0 < c1.countPerBucket.length := by
        have := hr'.2.1
        omega
      have hlt : c1.countPerBucket.length - 1 < c1.countPerBucket.length := by omega
      have hinc := Increment_of_refresh hc1 (c1.countPerBucket[c1.countPerBucket.length - 1])
        hpos (List.getElem?_eq_getElem hlt)
      simp only [doCall, hinc]
      refine ⟨hr'.1, ?_, ?_⟩
      · show ((List.set _ _ _).length : Int) = _
        rw [List.length_set]
        exact hr'.2.1
      · intro x hx
        rcases List.mem_or_eq_of_mem_set hx with h1 | h1
        · exact hr'.2.2 x h1
        · have := hr'.2.2 _ (List.getElem_mem hlt)
          omega
  · rw [hc1] at hr
    have hr' : BucketsWellFormed w c1 := hr
    cases call with
    | Value =>
      simp only [doCall, Value_eq_refresh, hc1]
      exact hr'
    | Increment =>
      simp only [doCall, Increment_eq_refresh, hc1]
      exact hr'

/-- C18: for a valid bucket width `w`, `initialize` on a fresh counter returns a counter
with exactly `60 / w` buckets, none negative; and a public call on any counter with the
width `w`, exactly `60 / w` buckets and no negative bucket, whatever its window start
and whatever the time source returns, leaves a counter (on return and on a panic of the
time source alike) with the width `w`, exactly `60 / w` buckets and no negative
bucket. -/
theorem C18_structural_invariant (w T0 : Int) (rest : List Int) (c : LastHourCounter)
    (call : Call) (hw : 0 < w) (hdiv : 60 % w = 0) :
    (∃ c0, initialise (fresh w (T0 :: rest)) = .ret () c0 ∧
      c0.minutesInBucket = w ∧ (c0.countPerBucket.length : Int) = 60 / w ∧
      ∀ x ∈ c0.countPerBucket, 0 ≤ x) ∧
    (c.minutesInBucket = w → (c.countPerBucket.length : Int) = 60 / w →
      (∀ x ∈ c.countPerBucket, 0 ≤ x) →
      (doCall c call).counter.minutesInBucket = w ∧
      ((doCall c call).counter.countPerBucket.length : Int) = 60 / w ∧
      ∀ x ∈ (doCall c call).counter.countPerBucket, 0 ≤ x) := by
  have hv : ValidWidth w := ⟨hw, hdiv⟩
  constructor
  · have hi := initialise_valid (fresh w (T0 :: rest)) hv
    have r0 : (fresh w (T0 :: rest)).Timer.CurrentUnixTime = some (T0, ⟨1, T0 :: rest⟩) :=
      CurrentUnixTime_eq ⟨0, T0 :: rest⟩ T0 (by simp)
    rw [r0] at hi
    exact ⟨_, hi, BucketsWellFormed.zeros w hv _ _⟩
  · intro h1 h2 h3
    exact doCall_wellFormed hv c call ⟨h1, h2, h3⟩

/-- C18, at width 4: initialization at 10000, and an `Increment` that reads 90000 on the
counter with window start 6640 and the fifteen buckets `1, 0, ..., 0, 2`. -/
theorem C18_structural_invariant_witness :
    (∃ c0, initialise (fresh 4 (10000 :: [10000])) = .ret () c0 ∧
      c0.minutesInBucket = 4 ∧ (c0.countPerBucket.length : Int) = 60 / 4 ∧
      ∀ x ∈ c0.countPerBucket, 0 ≤ x) ∧
    ((doCall ⟨6640, [1, 0, 0, 0, 0, 0, 0, 0, 0, 0, 0, 0, 0, 0, 2], 4, ⟨0, [90000]⟩⟩
        Call.Increment).counter.minutesInBucket = 4 ∧
      ((doCall ⟨6640, [1, 0, 0, 0, 0, 0, 0, 0, 0, 0, 0, 0, 0, 0, 2], 4, ⟨0, [90000]⟩⟩
        Call.Increment).counter.countPerBucket.length : Int) = 60 / 4 ∧
      ∀ x ∈ (doCall ⟨6640, [1, 0, 0, 0, 0, 0, 0, 0, 0, 0, 0, 0, 0, 0, 2], 4, ⟨0, [90000]⟩⟩
        Call.Increment).counter.countPerBucket, 0 ≤ x) :=
  ⟨(C18_structural_invariant 4 10000 [10000]
      ⟨6640, [1, 0, 0, 0, 0, 0, 0, 0, 0, 0, 0, 0, 0, 0, 2], 4, ⟨0, [90000]⟩⟩ Call.Increment
      (by decide) (by decide)).1,
    (C18_structural_invariant 4 10000 [10000]
      ⟨6640, [1, 0, 0, 0, 0, 0, 0, 0, 0, 0, 0, 0, 0, 0, 2], 4, ⟨0, [90000]⟩⟩ Call.Increment
      (by decide) (by decide)).2 (by decide) (by decide) (by decide)⟩

/-! ## The two embeddings agree where nothing overflows -/

theorem wrap64_eq (x : Int) (h1 : -2 ^ 63 ≤ x) (h2 : x < 2 ^ 63) : wrap64 x = x := by
  unfold wrap64
  omega

/-- Overflows inside the product `bucketsToHourAgo * minutesInBucket * 60` do not change
the new window start when the exact result is a 64-bit integer. -/
theorem wrap64_lastHour (L x : Int) (h1 : -2 ^ 63 ≤ L + x * 60) (h2 : L + x * 60 < 2 ^ 63) :
    wrap64 (L + wrap64 (wrap64 x * 60)) = L + x * 60 := by
  unfold wrap64
  omega

/-- When no operation of the rotation overflows, the rotation with 64-bit arithmetic is
the rotation over the integers. -/
theorem adjustStateToCurrentTime64_eq (c : LastHourCounter) (now : Int)
    (hw : 1 ≤ c.minutesInBucket) (h : NoOverflow c now) :
    adjustStateToCurrentTime64 c now = adjustStateToCurrentTime c now := by
  obtain ⟨h1, h2, h3, h4⟩ := h
  have e1 : wrap64 (now - 60 * 60) = now - 60 * 60 := wrap64_eq _ (by omega) (by omega)
  unfold adjustStateToCurrentTime64 adjustStateToCurrentTime
  simp only [e1]
  by_cases hlt : now - 60 * 60 < c.lastHourUnixTimestamp
  · rw [if_pos hlt, if_pos hlt]
  · rw [if_neg hlt, if_neg hlt, if_neg (by omega : c.minutesInBucket ≠ 0),
      if_neg (by omega : c.minutesInBucket ≠ 0)]
    have hd0 : 0 ≤ now - 60 * 60 - c.lastHourUnixTimestamp := by omega
    have e2 : wrap64 (now - 60 * 60 - c.lastHourUnixTimestamp)
        = now - 60 * 60 - c.lastHourUnixTimestamp := wrap64_eq _ (by omega) (by omega)
    have hm : Int.tdiv (now - 60 * 60 - c.lastHourUnixTimestamp) 60
        = (now - 60 * 60 - c.lastHourUnixTimestamp) / 60 :=
      Int.tdiv_eq_ediv hd0 (by norm_num)
    have hm0 : 0 ≤ (now - 60 * 60 - c.lastHourUnixTimestamp) / 60 :=
      Int.ediv_nonneg hd0 (by norm_num)
    have e3 : wrap64 (Int.tdiv (now - 60 * 60 - c.lastHourUnixTimestamp) 60)
        = Int.tdiv (now - 60 * 60 - c.lastHourUnixTimestamp) 60 := by
      rw [hm]
      exact wrap64_eq _ (by omega) (by omega)
    have hq : Int.tdiv (Int.tdiv (now - 60 * 60 - c.lastHourUnixTimestamp) 60) c.minutesInBucket
        = (now - 60 * 60 - c.lastHourUnixTimestamp) / 60 / c.minutesInBucket := by
      rw [hm]
      exact Int.tdiv_eq_ediv hm0 (by omega)
    have hq0 : 0 ≤ (now - 60 * 60 - c.lastHourUnixTimestamp) / 60 / c.minutesInBucket :=
      Int.ediv_nonneg hm0 (by omega)
    have hqle : (now - 60 * 60 - c.lastHourUnixTimestamp) / 60 / c.minutesInBucket
        ≤ (now - 60 * 60 - c.lastHourUnixTimestamp) / 60 :=
      Int.ediv_le_self _ hm0
    have hqw := Int.ediv_mul_le ((now - 60 * 60 - c.lastHourUnixTimestamp) / 60)
      (by omega : c.minutesInBucket ≠ 0)
    have hqw2 := Int.lt_ediv_add_one_mul_self
      ((now - 60 * 60 - c.lastHourUnixTimestamp) / 60) (by omega : 0 < c.minutesInBucket)
    have e4 : wrap64 (Int.tdiv (Int.tdiv (now - 60 * 60 - c.lastHourUnixTimestamp) 60)
        c.minutesInBucket)
        = Int.tdiv (Int.tdiv (now - 60 * 60 - c.lastHourUnixTimestamp) 60)
          c.minutesInBucket := by
      rw [hq]
      exact wrap64_eq _ (by omega) (by omega)
    have e5 : wrap64 (Int.tdiv (Int.tdiv (now - 60 * 60 - c.lastHourUnixTimestamp) 60)
        c.minutesInBucket + 1)
        = Int.tdiv (Int.tdiv (now - 60 * 60 - c.lastHourUnixTimestamp) 60)
          c.minutesInBucket + 1 := by
      rw [hq]
      exact wrap64_eq _ (by omega) (by omega)
    have hkw : (Int.tdiv (Int.tdiv (now - 60 * 60 - c.lastHourUnixTimestamp) 60)
        c.minutesInBucket + 1) * c.minutesInBucket
        = (now - 60 * 60 - c.lastHourUnixTimestamp) / 60 / c.minutesInBucket
          * c.minutesInBucket + c.minutesInBucket := by
      rw [hq]
      ring
    have hkw2 : ((now - 60 * 60 - c.lastHourUnixTimestamp) / 60 / c.minutesInBucket + 1)
        * c.minutesInBucket
        = (now - 60 * 60 - c.lastHourUnixTimestamp) / 60 / c.minutesInBucket
          * c.minutesInBucket + c.minutesInBucket := by
      ring
    have e6 : wrap64 (c.lastHourUnixTimestamp
        + wrap64 (wrap64 ((Int.tdiv (Int.tdiv (now - 60 * 60 - c.lastHourUnixTimestamp) 60)
          c.minutesInBucket + 1) * c.minutesInBucket) * 60))
        = c.lastHourUnixTimestamp
          + (Int.tdiv (Int.tdiv (now - 60 * 60 - c.lastHourUnixTimestamp) 60)
            c.minutesInBucket + 1) * c.minutesInBucket * 60 := by
      apply wrap64_lastHour
      · rw [hkw]
        rw [hkw2] at hqw2
        omega
      · rw [hkw]
        omega
    have e9 : wrap64 ((c.countPerBucket.length : Int)
        - (Int.tdiv (Int.tdiv (now - 60 * 60 - c.lastHourUnixTimestamp) 60)
          c.minutesInBucket + 1))
        = (c.countPerBucket.length : Int)
          - (Int.tdiv (Int.tdiv (now - 60 * 60 - c.lastHourUnixTimestamp) 60)
            c.minutesInBucket + 1) := by
      rw [hq]
      exact wrap64_eq _ (by omega) (by omega)
    simp only [e2, e3, e4, e5, e6, e9]

/-- When no operation of the rotation overflows and the width is at least 1, the
rotation with 64-bit arithmetic returns the rotated state. -/
theorem adjustStateToCurrentTime64_rotateTo (c : LastHourCounter) (now : Int)
    (hw : 1 ≤ c.minutesInBucket) (h : NoOverflow c now) :
    adjustStateToCurrentTime64 c now = .ret () (rotateTo c now) := by
  rw [adjustStateToCurrentTime64_eq c now hw h]
  exact adjustStateToCurrentTime_eq c now (by omega)

theorem CurrentUnixTime_some (m m1 : unixTimerMock) (t : Int)
    (h : m.CurrentUnixTime = some (t, m1)) :
    m.timesToReturn[m.i]? = some t ∧ m1 = ⟨m.i + 1, m.timesToReturn⟩ := by
  rcases CurrentUnixTime_cases m with ⟨_, h2⟩ | ⟨h1, t2, h2⟩
  · rw [h2] at h
    cases h
  · have h3 := h2
    unfold unixTimerMock.CurrentUnixTime at h3
    rw [if_neg (by omega), List.getElem?_eq_getElem h1] at h3
    rw [h2] at h
    cases h
    simp only [Option.some.injEq, Prod.mk.injEq, and_true] at h3
    exact ⟨by rw [List.getElem?_eq_getElem h1, h3], rfl⟩

/-- For a reading of at least `-2^63 + 3600`, `initialize` does not overflow. -/
theorem initialise64_eq (c : LastHourCounter)
    (h : ∀ t, c.Timer.timesToReturn[c.Timer.i]? = some t → -2 ^ 63 + 3600 ≤ t ∧ t < 2 ^ 63) :
    initialise64 c = initialise c := by
  have key : ∀ (c1 : LastHourCounter), c1.Timer = c.Timer →
      (if Int.tmod 60 c1.minutesInBucket ≠ 0 then
        Outcome.panic (.value divisorPanicValue) c1
      else if Int.tdiv 60 c1.minutesInBucket < 0 then
        .panic .makesliceLenOutOfRange c1
      else
        match c1.Timer.CurrentUnixTime with
        | none => .panic (.value timerPanicValue)
            ⟨c1.lastHourUnixTimestamp,
              List.replicate (Int.tdiv 60 c1.minutesInBucket).toNat 0,
              c1.minutesInBucket, c1.Timer⟩
        | some (t, m) => .ret () ⟨wrap64 (t - 60 * 60),
            List.replicate (Int.tdiv 60 c1.minutesInBucket).toNat 0, c1.minutesInBucket, m⟩)
      = (if Int.tmod 60 c1.minutesInBucket ≠ 0 then
        Outcome.panic (.value divisorPanicValue) c1
      else if Int.tdiv 60 c1.minutesInBucket < 0 then
        .panic .makesliceLenOutOfRange c1
      else
        match c1.Timer.CurrentUnixTime with
        | none => .panic (.value timerPanicValue)
            ⟨c1.lastHourUnixTimestamp,
              List.replicate (Int.tdiv 60 c1.minutesInBucket).toNat 0,
              c1.minutesInBucket, c1.Timer⟩
        | some (t, m) => .ret () ⟨t - 60 * 60,
            List.replicate (Int.tdiv 60 c1.minutesInBucket).toNat 0, c1.minutesInBucket, m⟩) := by
    intro c1 hT
    rw [hT]
    cases hc : c.Timer.CurrentUnixTime with
    | none => rfl
    | some x =>
      obtain ⟨t, m⟩ := x
      have ht := h t (CurrentUnixTime_some _ _ _ hc).1
      have e : wrap64 (t - 60 * 60) = t - 60 * 60 := wrap64_eq _ (by omega) (by omega)
      simp only [e]
  exact key _ (by
    by_cases h0 : c.minutesInBucket = 0
    · rw [if_pos h0]
    · rw [if_neg h0])

/-! ## The public operations with 64-bit arithmetic -/

/-- `Value64` is its first three statements followed by the sum of the buckets. -/
theorem Value64_eq_refresh64 (c : LastHourCounter) :
    Value64 c =
      match refresh64 c with
      | .panic p c1 => .panic p c1
      | .ret _ c1 =>
        .ret (c1.countPerBucket.foldl (fun total count => wrap64 (total + count)) 0) c1 := by
  unfold Value64 refresh64
  cases (if c.lastHourUnixTimestamp = 0 then initialise64 c else Outcome.ret () c) with
  | panic p c1 => rfl
  | ret u c1 =>
    dsimp only
    cases c1.Timer.CurrentUnixTime with
    | none => rfl
    | some x =>
      obtain ⟨t, m⟩ := x
      rfl

/-- `Increment64` is its first three statements followed by the update of the newest
bucket. -/
theorem Increment64_eq_refresh64 (c : LastHourCounter) :
    Increment64 c =
      match refresh64 c with
      | .panic p c1 => .panic p c1
      | .ret _ c1 =>
        match sliceGet c1.countPerBucket ((c1.countPerBucket.length : Int) - 1) with
        | none => .panic .indexOutOfRange c1
        | some v =>
          match sliceSet c1.countPerBucket ((c1.countPerBucket.length : Int) - 1)
              (wrap64 (v + 1)) with
          | none => .panic .indexOutOfRange c1
          | some s => .ret () ⟨c1.lastHourUnixTimestamp, s, c1.minutesInBucket, c1.Timer⟩ := by
  unfold Increment64 refresh64
  cases (if c.lastHourUnixTimestamp = 0 then initialise64 c else Outcome.ret () c) with
  | panic p c1 => rfl
  | ret u c1 =>
    dsimp only
    cases c1.Timer.CurrentUnixTime with
    | none => rfl
    | some x =>
      obtain ⟨t, m⟩ := x
      rfl

theorem Value64_of_refresh64 {c c1 : LastHourCounter} (h : refresh64 c = .ret () c1) :
    Value64 c
      = .ret (c1.countPerBucket.foldl (fun total count => wrap64 (total + count)) 0) c1 := by
  rw [Value64_eq_refresh64, h]

theorem Increment64_of_refresh64 {c c1 : LastHourCounter} (h : refresh64 c = .ret () c1)
    (v : Int) (hpos : 0 < c1.countPerBucket.length)
    (hv : c1.countPerBucket[c1.countPerBucket.length - 1]? = some v) :
    Increment64 c = .ret ()
      ⟨c1.lastHourUnixTimestamp,
        c1.countPerBucket.set (c1.countPerBucket.length - 1) (wrap64 (v + 1)),
        c1.minutesInBucket, c1.Timer⟩ := by
  rw [Increment64_eq_refresh64, h]
  have e : ((c1.countPerBucket.length : Int) - 1)
      = ((c1.countPerBucket.length - 1 : Nat) : Int) := by
    omega
  simp only [e, sliceGet_natCast, hv,
    sliceSet_natCast _ _ _ (by omega : c1.countPerBucket.length - 1 < c1.countPerBucket.length)]

/-- A public call whose first three statements panic panics in the same way. -/
theorem doCall64_of_panic {c c1 : LastHourCounter} {p : Panic} (call : Call)
    (hr : refresh64 c = .panic p c1) : doCall64 c call = .panic p c1 := by
  cases call with
  | Value => simp only [doCall64, Value64_eq_refresh64, hr]
  | Increment => simp only [doCall64, Increment64_eq_refresh64, hr]

/-- A public call whose first three statements return a counter with at least one
bucket returns, and changes neither the window start, nor the width, nor the time
source, nor the number of buckets of that counter. -/
theorem doCall64_of_refresh64 {c c1 : LastHourCounter} (call : Call)
    (hr : refresh64 c = .ret () c1) (hpos : 0 < c1.countPerBucket.length) :
    ∃ r c2, doCall64 c call = .ret r c2 ∧
      c2.lastHourUnixTimestamp = c1.lastHourUnixTimestamp ∧
      c2.minutesInBucket = c1.minutesInBucket ∧ c2.Timer = c1.Timer ∧
      c2.countPerBucket.length = c1.countPerBucket.length := by
  cases call with
  | Value =>
    refine ⟨some (c1.countPerBucket.foldl (fun total count => wrap64 (total + count)) 0), c1,
      ?_, rfl, rfl, rfl, rfl⟩
    simp only [doCall64, Value64_of_refresh64 hr]
  | Increment =>
    have hlt : c1.countPerBucket.length - 1 < c1.countPerBucket.length := by omega
    have hinc := Increment64_of_refresh64 hr (c1.countPerBucket[c1.countPerBucket.length - 1])
      hpos (List.getElem?_eq_getElem hlt)
    refine ⟨none,
      ⟨c1.lastHourUnixTimestamp,
        c1.countPerBucket.set (c1.countPerBucket.length - 1)
          (wrap64 (c1.countPerBucket[c1.countPerBucket.length - 1] + 1)),
        c1.minutesInBucket, c1.Timer⟩, ?_, rfl, rfl, rfl, ?_⟩
    · simp only [doCall64, hinc]
    · show (List.set _ _ _).length = _
      rw [List.length_set]

/-- A public call whose first three statements return: whether it returns or panics,
it leaves the window start, the width, the time source and the number of buckets that
these statements left; it can only panic in `Increment`, with an index out of range,
when there is no bucket. -/
theorem doCall64_counter {c c1 : LastHourCounter} (call : Call)
    (hr : refresh64 c = .ret () c1) :
    (doCall64 c call).counter.lastHourUnixTimestamp = c1.lastHourUnixTimestamp ∧
    (doCall64 c call).counter.minutesInBucket = c1.minutesInBucket ∧
    (doCall64 c call).counter.Timer = c1.Timer ∧
    (doCall64 c call).counter.countPerBucket.length = c1.countPerBucket.length ∧
    ((doCall64 c call).panic? = none ∨
      ((doCall64 c call).panic? = some Panic.indexOutOfRange ∧
        c1.countPerBucket.length = 0)) := by
  by_cases hpos : 0 < c1.countPerBucket.length
  · obtain ⟨r, c2, g1, g2, g3, g4, g5⟩ := doCall64_of_refresh64 call hr hpos
    rw [g1]
    exact ⟨g2, g3, g4, g5, Or.inl rfl⟩
  · have hlen : c1.countPerBucket.length = 0 := by omega
    cases call with
    | Value =>
      have e : doCall64 c Call.Value = .ret
          (some (c1.countPerBucket.foldl (fun total count => wrap64 (total + count)) 0))
          c1 := by
        simp only [doCall64, Value64_of_refresh64 hr]
      rw [e]
      exact ⟨rfl, rfl, rfl, rfl, Or.inl rfl⟩
    | Increment =>
      have e : doCall64 c Call.Increment = .panic .indexOutOfRange c1 := by
        have hg : sliceGet c1.countPerBucket ((c1.countPerBucket.length : Int) - 1) = none := by
          unfold sliceGet
          rw [if_neg (by omega)]
        simp only [doCall64, Increment64_eq_refresh64, hr, hg]
      rw [e]
      exact ⟨rfl, rfl, rfl, rfl, Or.inr ⟨rfl, hlen⟩⟩

theorem CurrentUnixTime_getElem? (m : unixTimerMock) :
    m.CurrentUnixTime =
      match m.timesToReturn[m.i]? with
      | none => none
      | some t => some (t, ⟨m.i + 1, m.timesToReturn⟩) := by
  by_cases h : m.timesToReturn.length ≤ m.i
  · rw [CurrentUnixTime_none m h, List.getElem?_eq_none h]
  · have hlt : m.i < m.timesToReturn.length := by omega
    rw [CurrentUnixTime_eq m _ (List.getElem?_eq_getElem hlt), List.getElem?_eq_getElem hlt]

theorem mem_of_getElem? {l : List Int} {i : Nat} {t : Int} (h : l[i]? = some t) : t ∈ l := by
  obtain ⟨hlt, he⟩ := List.getElem?_eq_some.mp h
  rw [← he]
  exact List.getElem_mem hlt

theorem effectiveWidth_valid (w : Int) (hw : w = 0 ∨ ValidWidth w) :
    ValidWidth (effectiveWidth w) := by
  unfold effectiveWidth
  rcases hw with h0 | hv
  · rw [if_pos h0]
    exact ⟨by decide, by decide⟩
  · rw [if_neg (ne_of_gt hv.1)]
    exact hv

/-- With a width that is valid or unset, `initialize` allocates the zero buckets for the
width it stores and then reads the time source. -/
theorem initialise_cases (c : LastHourCounter)
    (hw : c.minutesInBucket = 0 ∨ ValidWidth c.minutesInBucket) :
    initialise c =
      match c.Timer.timesToReturn[c.Timer.i]? with
      | none => .panic (.value timerPanicValue)
          ⟨c.lastHourUnixTimestamp,
            List.replicate (60 / effectiveWidth c.minutesInBucket).toNat 0,
            effectiveWidth c.minutesInBucket, c.Timer⟩
      | some t => .ret ()
          ⟨t - 3600, List.replicate (60 / effectiveWidth c.minutesInBucket).toNat 0,
            effectiveWidth c.minutesInBucket, ⟨c.Timer.i + 1, c.Timer.timesToReturn⟩⟩ := by
  have key : ∀ c1 : LastHourCounter, ValidWidth c1.minutesInBucket →
      initialise c1 =
        match c1.Timer.timesToReturn[c1.Timer.i]? with
        | none => .panic (.value timerPanicValue)
            ⟨c1.lastHourUnixTimestamp, List.replicate (60 / c1.minutesInBucket).toNat 0,
              c1.minutesInBucket, c1.Timer⟩
        | some t => .ret ()
            ⟨t - 3600, List.replicate (60 / c1.minutesInBucket).toNat 0,
              c1.minutesInBucket, ⟨c1.Timer.i + 1, c1.Timer.timesToReturn⟩⟩ := by
    intro c1 hv
    rw [initialise_valid c1 hv, CurrentUnixTime_getElem?]
    cases c1.Timer.timesToReturn[c1.Timer.i]? with
    | none => rfl
    | some t => rfl
  rcases hw with h0 | hv
  · have e : initialise c
        = initialise ⟨c.lastHourUnixTimestamp, c.countPerBucket, 4, c.Timer⟩ := by
      unfold initialise defaultMinutesInBucket
      simp only [if_pos h0]
      norm_num
    have ew : effectiveWidth c.minutesInBucket = 4 := by
      unfold effectiveWidth
      rw [if_pos h0]
      rfl
    rw [e, ew]
    exact key ⟨c.lastHourUnixTimestamp, c.countPerBucket, 4, c.Timer⟩
      ⟨(by decide : (0 : Int) < 4), (by decide : (60 : Int) % 4 = 0)⟩
  · have ew : effectiveWidth c.minutesInBucket = c.minutesInBucket := by
      unfold effectiveWidth
      rw [if_neg (ne_of_gt hv.1)]
    rw [ew]
    exact key c hv

/-- For a bound `a ≥ -2^63 + 3600`, a state with a window start of at least `a - 3600`,
a width of at most `3600 - a` seconds and fewer than `2^63` buckets, and a time in
`[a, a + 2^63)`: no operation of the rotation overflows. -/
theorem noOverflow_of_range (a L : Int) (s : List Int) (w : Int) (m : unixTimerMock)
    (t : Int) (ha : -2 ^ 63 + 3600 ≤ a)
    (hL : WindowInRange a L) (hw : w * 60 ≤ 3600 - a) (hs : (s.length : Int) < 2 ^ 63)
    (ht : TimeInRange a t) : NoOverflow ⟨L, s, w, m⟩ t := by
  obtain ⟨h1, h2⟩ := ht
  have hL1 : a - 3600 ≤ L := hL
  refine ⟨by omega, ?_, ?_, hs⟩
  · show t - 3600 - L < 2 ^ 63
    omega
  · show t - 3600 + w * 60 < 2 ^ 63
    omega

/-- On a counter whose window start is not 0, with a width of at least 1, the first three
statements of a public call read the time once and rotate to it, when the rotation does
not overflow. -/
theorem refresh64_started (c : LastHourCounter) (h0 : c.lastHourUnixTimestamp ≠ 0)
    (hw : 1 ≤ c.minutesInBucket)
    (hno : ∀ t, c.Timer.timesToReturn[c.Timer.i]? = some t → NoOverflow c t) :
    refresh64 c =
      match c.Timer.timesToReturn[c.Timer.i]? with
      | none => .panic (.value timerPanicValue) c
      | some t => .ret () (rotateTo
          ⟨c.lastHourUnixTimestamp, c.countPerBucket, c.minutesInBucket,
            ⟨c.Timer.i + 1, c.Timer.timesToReturn⟩⟩ t) := by
  unfold refresh64
  simp only [if_neg h0, CurrentUnixTime_getElem?]
  cases hc : c.Timer.timesToReturn[c.Timer.i]? with
  | none => rfl
  | some t =>
    exact adjustStateToCurrentTime64_rotateTo _ t hw (hno t hc)

/-- On a counter whose window start is 0, with a width that is valid or unset, the first
three statements of a public call initialize the counter with one reading of the time
source and rotate it to a second reading, when the readings lie in an interval
`[a, a + 2^63)` with `-2^63 + 3600 ≤ a ≤ 0`. -/
theorem refresh64_uninitialised (c : LastHourCounter) (h0 : c.lastHourUnixTimestamp = 0)
    (hw : c.minutesInBucket = 0 ∨ ValidWidth c.minutesInBucket)
    (a : Int) (ha1 : -2 ^ 63 + 3600 ≤ a) (ha2 : a ≤ 0)
    (hr : ∀ t ∈ c.Timer.timesToReturn, TimeInRange a t) :
    refresh64 c =
      match c.Timer.timesToReturn[c.Timer.i]? with
      | none => .panic (.value timerPanicValue)
          ⟨c.lastHourUnixTimestamp,
            List.replicate (60 / effectiveWidth c.minutesInBucket).toNat 0,
            effectiveWidth c.minutesInBucket, c.Timer⟩
      | some t0 =>
        match c.Timer.timesToReturn[c.Timer.i + 1]? with
        | none => .panic (.value timerPanicValue)
            ⟨t0 - 3600, List.replicate (60 / effectiveWidth c.minutesInBucket).toNat 0,
              effectiveWidth c.minutesInBucket, ⟨c.Timer.i + 1, c.Timer.timesToReturn⟩⟩
        | some t => .ret () (rotateTo
            ⟨t0 - 3600, List.replicate (60 / effectiveWidth c.minutesInBucket).toNat 0,
              effectiveWidth c.minutesInBucket, ⟨c.Timer.i + 2, c.Timer.timesToReturn⟩⟩ t) := by
  have hi : initialise64 c = initialise c := by
    apply initialise64_eq
    intro t ht
    have := hr t (mem_of_getElem? ht)
    obtain ⟨h1, h2⟩ := this
    constructor <;> omega
  have hv := effectiveWidth_valid c.minutesInBucket hw
  unfold refresh64
  simp only [if_pos h0, hi, initialise_cases c hw]
  cases hc : c.Timer.timesToReturn[c.Timer.i]? with
  | none => rfl
  | some t0 =>
    simp only [CurrentUnixTime_getElem?]
    cases hc1 : c.Timer.timesToReturn[c.Timer.i + 1]? with
    | none => rfl
    | some t =>
      have ht0 := hr t0 (mem_of_getElem? hc)
      have ht := hr t (mem_of_getElem? hc1)
      have hW := width_le _ hv.1 hv.2
      exact adjustStateToCurrentTime64_rotateTo _ t hv.1
        (noOverflow_of_range a _ _ _ _ t ha1
          (by
            show a - 3600 ≤ t0 - 3600
            have := ht0.1
            omega)
          (by omega)
          (by
            rw [List.length_replicate]
            have := bucketCount_mul _ hv.1 hv.2
            have h60 : 0 ≤ 60 / effectiveWidth c.minutesInBucket :=
              Int.ediv_nonneg (by norm_num) (le_of_lt hv.1)
            rw [Int.toNat_of_nonneg h60]
            have := Int.ediv_le_self (effectiveWidth c.minutesInBucket) (by norm_num : (0:Int) ≤ 60)
            omega)
          ht)

/-! ## Runs with 64-bit arithmetic and readings in range -/

theorem Initialised.inRange {c : LastHourCounter} (hi : Initialised c) :
    c.minutesInBucket * 60 ≤ 3600 ∧ (c.countPerBucket.length : Int) < 2 ^ 63 := by
  obtain ⟨hv, hlen⟩ := hi
  have hW := width_le _ hv.1 hv.2
  have h60 : 0 ≤ 60 / c.minutesInBucket := Int.ediv_nonneg (by norm_num) (le_of_lt hv.1)
  have h61 := Int.ediv_le_self c.minutesInBucket (by norm_num : (0 : Int) ≤ 60)
  have h62 := Int.toNat_of_nonneg h60
  constructor
  · omega
  · rw [hlen]
    omega

/-- The first three statements of a public call on a counter whose window start is not
0, for a bound `a ≥ -2^63 + 3600`, a width of at most `3600 - a` seconds, a window start
of at least `a - 3600` and readings in `[a, a + 2^63)`. -/
theorem refresh64_in_range (c : LastHourCounter) (h0 : c.lastHourUnixTimestamp ≠ 0)
    (hw : 1 ≤ c.minutesInBucket) (a : Int) (ha : -2 ^ 63 + 3600 ≤ a)
    (hW : c.minutesInBucket * 60 ≤ 3600 - a)
    (hL : WindowInRange a c.lastHourUnixTimestamp)
    (hs : (c.countPerBucket.length : Int) < 2 ^ 63)
    (hr : ∀ t ∈ c.Timer.timesToReturn, TimeInRange a t) :
    refresh64 c =
      match c.Timer.timesToReturn[c.Timer.i]? with
      | none => .panic (.value timerPanicValue) c
      | some t => .ret () (rotateTo
          ⟨c.lastHourUnixTimestamp, c.countPerBucket, c.minutesInBucket,
            ⟨c.Timer.i + 1, c.Timer.timesToReturn⟩⟩ t) :=
  refresh64_started c h0 hw (fun t ht =>
    noOverflow_of_range a c.lastHourUnixTimestamp c.countPerBucket c.minutesInBucket c.Timer t
      ha hL hW hs (hr t (mem_of_getElem? ht)))

/-- A public call on a counter whose window start is not 0, for a width of at least 1
and a width, a window start and readings in range: whether the call returns or panics,
it leaves
the window start at the old one plus a whole number of buckets, and the width, the
number of buckets and the values of the time source as they were. -/
theorem doCall64_window (c : LastHourCounter) (call : Call)
    (h0 : c.lastHourUnixTimestamp ≠ 0)
    (hw : 1 ≤ c.minutesInBucket) (a : Int) (ha : -2 ^ 63 + 3600 ≤ a)
    (hW : c.minutesInBucket * 60 ≤ 3600 - a)
    (hL : WindowInRange a c.lastHourUnixTimestamp)
    (hs : (c.countPerBucket.length : Int) < 2 ^ 63)
    (hr : ∀ t ∈ c.Timer.timesToReturn, TimeInRange a t) :
    (∃ k : Nat, (doCall64 c call).counter.lastHourUnixTimestamp
      = c.lastHourUnixTimestamp + (k : Int) * (c.minutesInBucket * 60)) ∧
    (doCall64 c call).counter.minutesInBucket = c.minutesInBucket ∧
    (doCall64 c call).counter.countPerBucket.length = c.countPerBucket.length ∧
    (doCall64 c call).counter.Timer.timesToReturn = c.Timer.timesToReturn := by
  have hrf := refresh64_in_range c h0 hw a ha hW hL hs hr
  by_cases hex : c.Timer.timesToReturn.length ≤ c.Timer.i
  · rw [List.getElem?_eq_none hex] at hrf
    rw [doCall64_of_panic call hrf]
    refine ⟨⟨0, ?_⟩, rfl, rfl, rfl⟩
    show c.lastHourUnixTimestamp = _
    simp
  · have hlt : c.Timer.i < c.Timer.timesToReturn.length := by omega
    rw [List.getElem?_eq_getElem hlt] at hrf
    obtain ⟨g1, g2, g3, g4, _⟩ := doCall64_counter call hrf
    obtain ⟨k, hk⟩ := rotateTo_shape
      ⟨c.lastHourUnixTimestamp, c.countPerBucket, c.minutesInBucket,
        ⟨c.Timer.i + 1, c.Timer.timesToReturn⟩⟩ (c.Timer.timesToReturn[c.Timer.i]) (by
          show 0 < c.minutesInBucket
          omega)
    refine ⟨⟨k, ?_⟩, ?_, ?_, ?_⟩
    · rw [g1, hk]
    · rw [g2, rotateTo_minutesInBucket]
    · rw [g4]
      exact rotateTo_length _ _ (by
        show 0 < c.minutesInBucket
        omega)
    · rw [g3, rotateTo_Timer]

/-- A run of public calls none of which initializes the counter, for a width of at least
1 and a width, a window start and readings in range: the window start ends at its first
value plus a whole number of buckets. -/
theorem runCalls64_window (a : Int) (ha : -2 ^ 63 + 3600 ≤ a) :
    ∀ (calls : List Call) (c : LastHourCounter),
    1 ≤ c.minutesInBucket → c.minutesInBucket * 60 ≤ 3600 - a →
    WindowInRange a c.lastHourUnixTimestamp → (c.countPerBucket.length : Int) < 2 ^ 63 →
    (∀ t ∈ c.Timer.timesToReturn, TimeInRange a t) →
    initializations64 calls c = 0 →
    ∃ k : Nat, (runCalls64 calls c).counter.lastHourUnixTimestamp
      = c.lastHourUnixTimestamp + (k : Int) * (c.minutesInBucket * 60) := by
  intro calls
  induction calls with
  | nil =>
    intro c _ _ _ _ _ _
    refine ⟨0, ?_⟩
    show c.lastHourUnixTimestamp = _
    simp
  | cons call calls ih =>
    intro c hw hW hL hs hr hinit
    have h0 : c.lastHourUnixTimestamp ≠ 0 := by
      intro h
      simp only [initializations64, if_pos h] at hinit
      omega
    obtain ⟨⟨k1, g1⟩, g2, g3, g4⟩ := doCall64_window c call h0 hw a ha hW hL hs hr
    have hk1 : 0 ≤ (k1 : Int) * (c.minutesInBucket * 60) :=
      Int.mul_nonneg (by omega) (by omega)
    cases hc : doCall64 c call with
    | ret r c1 =>
      rw [hc] at g1 g2 g3 g4
      have g1' : c1.lastHourUnixTimestamp
          = c.lastHourUnixTimestamp + (k1 : Int) * (c.minutesInBucket * 60) := g1
      have g2' : c1.minutesInBucket = c.minutesInBucket := g2
      have g3' : c1.countPerBucket.length = c.countPerBucket.length := g3
      have g4' : c1.Timer.timesToReturn = c.Timer.timesToReturn := g4
      have hinit1 : initializations64 calls c1 = 0 := by
        simp only [initializations64, if_neg h0, hc] at hinit
        omega
      obtain ⟨k2, q⟩ := ih c1 (by rw [g2']; exact hw) (by rw [g2']; exact hW)
        (by
          show a - 3600 ≤ c1.lastHourUnixTimestamp
          have : a - 3600 ≤ c.lastHourUnixTimestamp := hL
          omega)
        (by rw [g3']; exact hs) (by rw [g4']; exact hr) hinit1
      refine ⟨k1 + k2, ?_⟩
      have e : runCalls64 (call :: calls) c = runCalls64 calls c1 := by
        simp only [runCalls64, hc]
      rw [e, q, g1', g2']
      push_cast
      ring
    | panic p c1 =>
      rw [hc] at g1
      have e : runCalls64 (call :: calls) c = .panic p c1 := by
        simp only [runCalls64, hc]
      rw [e]
      exact ⟨k1, g1⟩

/-- The same at two points of a run: after the calls `calls1` the window start is its
first value plus a whole number of buckets, and after the further calls `calls2` it is
the window start after `calls1` plus a whole number of buckets. -/
theorem runCalls64_window_append (a : Int) (ha : -2 ^ 63 + 3600 ≤ a) :
    ∀ (calls1 calls2 : List Call) (c : LastHourCounter),
    1 ≤ c.minutesInBucket → c.minutesInBucket * 60 ≤ 3600 - a →
    WindowInRange a c.lastHourUnixTimestamp → (c.countPerBucket.length : Int) < 2 ^ 63 →
    (∀ t ∈ c.Timer.timesToReturn, TimeInRange a t) →
    initializations64 (calls1 ++ calls2) c = 0 →
    ∃ k j : Nat,
      (runCalls64 calls1 c).counter.lastHourUnixTimestamp
        = c.lastHourUnixTimestamp + (k : Int) * (c.minutesInBucket * 60) ∧
      (runCalls64 (calls1 ++ calls2) c).counter.lastHourUnixTimestamp
        = (runCalls64 calls1 c).counter.lastHourUnixTimestamp
          + (j : Int) * (c.minutesInBucket * 60) := by
  intro calls1
  induction calls1 with
  | nil =>
    intro calls2 c hw hW hL hs hr hinit
    obtain ⟨j, hj⟩ := runCalls64_window a ha calls2 c hw hW hL hs hr hinit
    refine ⟨0, j, ?_, hj⟩
    show c.lastHourUnixTimestamp = _
    simp
  | cons call calls ih =>
    intro calls2 c hw hW hL hs hr hinit
    have happ : (call :: calls) ++ calls2 = call :: (calls ++ calls2) := rfl
    rw [happ] at hinit ⊢
    have h0 : c.lastHourUnixTimestamp ≠ 0 := by
      intro h
      simp only [initializations64, if_pos h] at hinit
      omega
    obtain ⟨⟨k1, g1⟩, g2, g3, g4⟩ := doCall64_window c call h0 hw a ha hW hL hs hr
    have hk1 : 0 ≤ (k1 : Int) * (c.minutesInBucket * 60) :=
      Int.mul_nonneg (by omega) (by omega)
    cases hc : doCall64 c call with
    | ret r c1 =>
      rw [hc] at g1 g2 g3 g4
      have g1' : c1.lastHourUnixTimestamp
          = c.lastHourUnixTimestamp + (k1 : Int) * (c.minutesInBucket * 60) := g1
      have g2' : c1.minutesInBucket = c.minutesInBucket := g2
      have g3' : c1.countPerBucket.length = c.countPerBucket.length := g3
      have g4' : c1.Timer.timesToReturn = c.Timer.timesToReturn := g4
      have hinit1 : initializations64 (calls ++ calls2) c1 = 0 := by
        simp only [initializations64, if_neg h0, hc] at hinit
        omega
      obtain ⟨k2, j, q1, q2⟩ := ih calls2 c1 (by rw [g2']; exact hw) (by rw [g2']; exact hW)
        (by
          show a - 3600 ≤ c1.lastHourUnixTimestamp
          have : a - 3600 ≤ c.lastHourUnixTimestamp := hL
          omega)
        (by rw [g3']; exact hs) (by rw [g4']; exact hr) hinit1
      have e1 : runCalls64 (call :: calls) c = runCalls64 calls c1 := by
        simp only [runCalls64, hc]
      have e2 : runCalls64 (call :: (calls ++ calls2)) c = runCalls64 (calls ++ calls2) c1 := by
        simp only [runCalls64, hc]
      refine ⟨k1 + k2, j, ?_, ?_⟩
      · rw [e1, q1, g1', g2']
        push_cast
        ring
      · rw [e1, e2, q2, g2']
    | panic p c1 =>
      rw [hc] at g1
      have e1 : runCalls64 (call :: calls) c = .panic p c1 := by
        simp only [runCalls64, hc]
      have e2 : runCalls64 (call :: (calls ++ calls2)) c = .panic p c1 := by
        simp only [runCalls64, hc]
      rw [e1, e2]
      refine ⟨k1, 0, g1, ?_⟩
      show c1.lastHourUnixTimestamp = c1.lastHourUnixTimestamp + _
      simp

/-- A public call on an initialized counter whose window start is not 0, for a window
start and readings in range: it reads the time source once and returns an initialized
counter whose window start is the old one plus a whole number of buckets, or the time
source is exhausted and the call panics leaving the counter as it was. -/
theorem doCall64_started (c : LastHourCounter) (call : Call) (hi : Initialised c)
    (h0 : c.lastHourUnixTimestamp ≠ 0) (a : Int) (ha1 : -2 ^ 63 + 3600 ≤ a) (ha2 : a ≤ 0)
    (hL : WindowInRange a c.lastHourUnixTimestamp)
    (hr : ∀ t ∈ c.Timer.timesToReturn, TimeInRange a t) :
    (∃ r c1, doCall64 c call = .ret r c1 ∧ Initialised c1 ∧
      c1.minutesInBucket = c.minutesInBucket ∧
      c1.Timer = ⟨c.Timer.i + 1, c.Timer.timesToReturn⟩ ∧
      c.Timer.i < c.Timer.timesToReturn.length ∧
      ∃ k : Nat, c1.lastHourUnixTimestamp
        = c.lastHourUnixTimestamp + (k : Int) * (c.minutesInBucket * 60)) ∨
    (doCall64 c call = .panic (.value timerPanicValue) c ∧
      c.Timer.timesToReturn.length ≤ c.Timer.i) := by
  have hw0 : 0 < c.minutesInBucket := hi.1.1
  have hrf := refresh64_in_range c h0 (by omega) a ha1
    (by have := hi.inRange.1; omega) hL hi.inRange.2 hr
  by_cases hex : c.Timer.timesToReturn.length ≤ c.Timer.i
  · right
    rw [List.getElem?_eq_none hex] at hrf
    exact ⟨doCall64_of_panic call hrf, hex⟩
  · left
    have hlt : c.Timer.i < c.Timer.timesToReturn.length := by omega
    rw [List.getElem?_eq_getElem hlt] at hrf
    have hi0 : Initialised ⟨c.lastHourUnixTimestamp, c.countPerBucket, c.minutesInBucket,
        ⟨c.Timer.i + 1, c.Timer.timesToReturn⟩⟩ := hi
    have hi1 := hi0.keptByRotation (c.Timer.timesToReturn[c.Timer.i])
    obtain ⟨k, hk⟩ := rotateTo_shape
      ⟨c.lastHourUnixTimestamp, c.countPerBucket, c.minutesInBucket,
        ⟨c.Timer.i + 1, c.Timer.timesToReturn⟩⟩ (c.Timer.timesToReturn[c.Timer.i]) hw0
    have hpos : 0 < (rotateTo
        ⟨c.lastHourUnixTimestamp, c.countPerBucket, c.minutesInBucket,
          ⟨c.Timer.i + 1, c.Timer.timesToReturn⟩⟩
        (c.Timer.timesToReturn[c.Timer.i])).countPerBucket.length := by
      rw [hi1.2]
      exact bucketCount_pos _ hi1.1.1 hi1.1.2
    obtain ⟨r, c2, g1, g2, g3, g4, g5⟩ := doCall64_of_refresh64 call hrf hpos
    have hkL : c2.lastHourUnixTimestamp
        = c.lastHourUnixTimestamp + (k : Int) * (c.minutesInBucket * 60) := by
      rw [g2, hk]
    refine ⟨r, c2, g1, ⟨?_, ?_⟩, ?_, ?_, hlt, k, hkL⟩
    · rw [g3]
      exact hi1.1
    · rw [g5, g3]
      exact hi1.2
    · rw [g3, rotateTo_minutesInBucket]
    · rw [g4, rotateTo_Timer]

/-- A public call on a counter whose window start is 0, with a width that is valid or
unset and readings in range: it initializes the counter with one reading `t0` of the
time source, rotates it to a second reading and returns an initialized counter whose
window start is `t0 - 3600` plus a whole number of buckets; or the time source holds
fewer than two values and the call panics, with the window start `t0 - 3600` when
there was one value. -/
theorem doCall64_uninitialised (c : LastHourCounter) (call : Call)
    (h0 : c.lastHourUnixTimestamp = 0)
    (hw : c.minutesInBucket = 0 ∨ ValidWidth c.minutesInBucket)
    (a : Int) (ha1 : -2 ^ 63 + 3600 ≤ a) (ha2 : a ≤ 0)
    (hr : ∀ t ∈ c.Timer.timesToReturn, TimeInRange a t) :
    (∃ r c1 t0, doCall64 c call = .ret r c1 ∧ Initialised c1 ∧
      c1.minutesInBucket = effectiveWidth c.minutesInBucket ∧
      c1.Timer = ⟨c.Timer.i + 2, c.Timer.timesToReturn⟩ ∧
      c.Timer.i + 1 < c.Timer.timesToReturn.length ∧
      c.Timer.timesToReturn[c.Timer.i]? = some t0 ∧
      ∃ k : Nat, c1.lastHourUnixTimestamp
        = t0 - 3600 + (k : Int) * (effectiveWidth c.minutesInBucket * 60)) ∨
    (c.Timer.timesToReturn.length ≤ c.Timer.i + 1 ∧
      ∃ c1, doCall64 c call = .panic (.value timerPanicValue) c1 ∧
        ∀ t0, c.Timer.timesToReturn[c.Timer.i]? = some t0 →
          c1.lastHourUnixTimestamp = t0 - 3600) := by
  have hrf := refresh64_uninitialised c h0 hw a ha1 ha2 hr
  have hv := effectiveWidth_valid c.minutesInBucket hw
  by_cases hex : c.Timer.timesToReturn.length ≤ c.Timer.i
  · right
    rw [List.getElem?_eq_none hex] at hrf
    refine ⟨by omega, _, doCall64_of_panic call hrf, ?_⟩
    intro t0 ht0
    rw [List.getElem?_eq_none hex] at ht0
    cases ht0
  · have hlt : c.Timer.i < c.Timer.timesToReturn.length := by omega
    rw [List.getElem?_eq_getElem hlt] at hrf
    by_cases hex1 : c.Timer.timesToReturn.length ≤ c.Timer.i + 1
    · right
      simp only [List.getElem?_eq_none hex1] at hrf
      refine ⟨hex1, _, doCall64_of_panic call hrf, ?_⟩
      intro t0 ht0
      rw [List.getElem?_eq_getElem hlt] at ht0
      cases ht0
      rfl
    · left
      have hlt1 : c.Timer.i + 1 < c.Timer.timesToReturn.length := by omega
      simp only [List.getElem?_eq_getElem hlt1] at hrf
      have hi0 : Initialised
          ⟨c.Timer.timesToReturn[c.Timer.i] - 3600,
            List.replicate (60 / effectiveWidth c.minutesInBucket).toNat 0,
            effectiveWidth c.minutesInBucket, ⟨c.Timer.i + 2, c.Timer.timesToReturn⟩⟩ :=
        ⟨hv, by simp⟩
      have hi1 := hi0.keptByRotation (c.Timer.timesToReturn[c.Timer.i + 1])
      obtain ⟨k, hk⟩ := rotateTo_shape
        ⟨c.Timer.timesToReturn[c.Timer.i] - 3600,
          List.replicate (60 / effectiveWidth c.minutesInBucket).toNat 0,
          effectiveWidth c.minutesInBucket, ⟨c.Timer.i + 2, c.Timer.timesToReturn⟩⟩
        (c.Timer.timesToReturn[c.Timer.i + 1]) hv.1
      have hpos : 0 < (rotateTo
          ⟨c.Timer.timesToReturn[c.Timer.i] - 3600,
            List.replicate (60 / effectiveWidth c.minutesInBucket).toNat 0,
            effectiveWidth c.minutesInBucket, ⟨c.Timer.i + 2, c.Timer.timesToReturn⟩⟩
          (c.Timer.timesToReturn[c.Timer.i + 1])).countPerBucket.length := by
        rw [hi1.2]
        exact bucketCount_pos _ hi1.1.1 hi1.1.2
      obtain ⟨r, c2, g1, g2, g3, g4, g5⟩ := doCall64_of_refresh64 call hrf hpos
      have hkL : c2.lastHourUnixTimestamp = c.Timer.timesToReturn[c.Timer.i] - 3600
          + (k : Int) * (effectiveWidth c.minutesInBucket * 60) := by
        rw [g2, hk]
      refine ⟨r, c2, c.Timer.timesToReturn[c.Timer.i], g1, ⟨?_, ?_⟩, ?_, ?_, hlt1,
        List.getElem?_eq_getElem hlt, k, hkL⟩
      · rw [g3]
        exact hi1.1
      · rw [g5, g3]
        exact hi1.2
      · rw [g3, rotateTo_minutesInBucket]
      · rw [g4, rotateTo_Timer]

/-- A run of public calls on a counter whose window start is 0, with a valid width and
readings in range, when the first call is the only one that initializes the counter
and reads `T0` for it: after the first call and the calls `calls1` the window start is
`T0 - 3600` plus a whole number of buckets, and after the further calls `calls2` it is
the window start after `calls1` plus a whole number of buckets. -/
theorem runCalls64_window_first (a : Int) (ha1 : -2 ^ 63 + 3600 ≤ a) (ha2 : a ≤ 0)
    (c : LastHourCounter) (call : Call) (calls1 calls2 : List Call) (T0 : Int)
    (h0 : c.lastHourUnixTimestamp = 0) (hv : ValidWidth c.minutesInBucket)
    (hT0 : c.Timer.timesToReturn[c.Timer.i]? = some T0)
    (hr : ∀ t ∈ c.Timer.timesToReturn, TimeInRange a t)
    (hinit : initializations64 (call :: (calls1 ++ calls2)) c = 1) :
    ∃ k j : Nat,
      (runCalls64 (call :: calls1) c).counter.lastHourUnixTimestamp
        = T0 - 3600 + (k : Int) * (c.minutesInBucket * 60) ∧
      (runCalls64 (call :: (calls1 ++ calls2)) c).counter.lastHourUnixTimestamp
        = (runCalls64 (call :: calls1) c).counter.lastHourUnixTimestamp
          + (j : Int) * (c.minutesInBucket * 60) := by
  have ew : effectiveWidth c.minutesInBucket = c.minutesInBucket := by
    unfold effectiveWidth
    rw [if_neg (ne_of_gt hv.1)]
  rcases doCall64_uninitialised c call h0 (Or.inr hv) a ha1 ha2 hr with
    ⟨r, c1, t0, g1, g2, g3, g4, g5, g6, k0, g7⟩ | ⟨g1, c1, g2, g3⟩
  · have e0 : t0 = T0 := by
      rw [hT0] at g6
      cases g6
      rfl
    rw [ew] at g3 g7
    have hk0 : 0 ≤ (k0 : Int) * (c.minutesInBucket * 60) :=
      Int.mul_nonneg (by omega) (by have := hv.1; omega)
    have hinit1 : initializations64 (calls1 ++ calls2) c1 = 0 := by
      simp only [initializations64, if_pos h0, g1] at hinit
      omega
    have hT0r := (hr T0 (mem_of_getElem? hT0)).1
    obtain ⟨k, j, q1, q2⟩ := runCalls64_window_append a ha1 calls1 calls2 c1
      (by rw [g3]; have := hv.1; omega)
      (by rw [g3]; have := width_le _ hv.1 hv.2; omega)
      (by
        show a - 3600 ≤ c1.lastHourUnixTimestamp
        omega)
      g2.inRange.2 (by rw [g4]; exact hr) hinit1
    have e1 : runCalls64 (call :: calls1) c = runCalls64 calls1 c1 := by
      simp only [runCalls64, g1]
    have e2 : runCalls64 (call :: (calls1 ++ calls2)) c = runCalls64 (calls1 ++ calls2) c1 := by
      simp only [runCalls64, g1]
    refine ⟨k0 + k, j, ?_, ?_⟩
    · rw [e1, q1, g7, g3, e0]
      push_cast
      ring
    · rw [e1, e2, q2, g3]
  · have e1 : runCalls64 (call :: calls1) c = .panic (.value timerPanicValue) c1 := by
      simp only [runCalls64, g2]
    have e2 : runCalls64 (call :: (calls1 ++ calls2)) c
        = .panic (.value timerPanicValue) c1 := by
      simp only [runCalls64, g2]
    rw [e1, e2]
    refine ⟨0, 0, ?_, ?_⟩
    · show c1.lastHourUnixTimestamp = _
      rw [g3 T0 hT0]
      simp
    · show c1.lastHourUnixTimestamp = c1.lastHourUnixTimestamp + _
      simp

/-- A run of public calls on an initialized counter whose window start is greater than
0, for readings in an interval `[a, a + 2^63)` with `-2^63 + 3600 ≤ a ≤ 0`: no call initializes the counter again, and the run returns,
after one reading per call, when the time source holds a value for each call. -/
theorem runCalls64_started (a : Int) (ha1 : -2 ^ 63 + 3600 ≤ a) (ha2 : a ≤ 0) :
    ∀ (calls : List Call) (c : LastHourCounter), Started c →
    (∀ t ∈ c.Timer.timesToReturn, TimeInRange a t) →
    initializations64 calls c = 0 ∧
    (c.Timer.i + calls.length ≤ c.Timer.timesToReturn.length →
      ∃ c1, runCalls64 calls c = .ret () c1 ∧
        c1.Timer = ⟨c.Timer.i + calls.length, c.Timer.timesToReturn⟩) := by
  intro calls
  induction calls with
  | nil =>
    intro c _ _
    exact ⟨rfl, fun _ => ⟨c, rfl, rfl⟩⟩
  | cons call calls ih =>
    intro c hs hr
    have hL : c.lastHourUnixTimestamp ≠ 0 := ne_of_gt hs.2
    have hLr : WindowInRange a c.lastHourUnixTimestamp := by
      show a - 3600 ≤ c.lastHourUnixTimestamp
      have := hs.2
      omega
    rcases doCall64_started c call hs.1 hL a ha1 ha2 hLr hr with
      ⟨r, c1, h1, h2, h3, h4, h5, k1, h6⟩ | ⟨h1, h2⟩
    · have hk1 : 0 ≤ (k1 : Int) * (c.minutesInBucket * 60) :=
        Int.mul_nonneg (by omega) (by have := hs.1.1.1; omega)
      have hs1 : Started c1 := ⟨h2, by have := hs.2; omega⟩
      have hr1 : ∀ t ∈ c1.Timer.timesToReturn, TimeInRange a t := by
        rw [h4]
        exact hr
      obtain ⟨g1, g3⟩ := ih c1 hs1 hr1
      have e : runCalls64 (call :: calls) c = runCalls64 calls c1 := by
        simp only [runCalls64, h1]
      refine ⟨?_, ?_⟩
      · simp only [initializations64, if_neg hL, h1, g1]
      · intro hlen
        simp only [List.length_cons] at hlen
        obtain ⟨c2, q1, q2⟩ := g3 (by
          rw [h4]
          show c.Timer.i + 1 + calls.length ≤ c.Timer.timesToReturn.length
          omega)
        refine ⟨c2, by rw [e]; exact q1, ?_⟩
        rw [q2, h4]
        show (⟨c.Timer.i + 1 + calls.length, _⟩ : unixTimerMock)
          = ⟨c.Timer.i + (calls.length + 1), _⟩
        congr 1
        omega
    · refine ⟨?_, ?_⟩
      · simp only [initializations64, if_neg hL, h1]
      · intro hlen
        simp only [List.length_cons] at hlen
        omega

/-- With a valid configuration and readings in range, a public call either returns and
leaves an initialized counter, or panics because the time source is exhausted; in
particular no bucket index is out of range. -/
theorem doCall64_safe (c : LastHourCounter) (call : Call) (h : Safe c)
    (a : Int) (ha1 : -2 ^ 63 + 3600 ≤ a) (ha2 : a ≤ 0)
    (hL : WindowInRange a c.lastHourUnixTimestamp)
    (hr : ∀ t ∈ c.Timer.timesToReturn, TimeInRange a t) :
    (∃ r c1, doCall64 c call = .ret r c1 ∧ Initialised c1 ∧
      WindowInRange a c1.lastHourUnixTimestamp ∧
      c1.Timer.timesToReturn = c.Timer.timesToReturn ∧ c1.Timer.i ≤ c.Timer.i + 2 ∧
      c1.Timer.i ≤ c1.Timer.timesToReturn.length) ∨
    (∃ c1, doCall64 c call = .panic (.value timerPanicValue) c1 ∧ remainingReadings c < 2) := by
  by_cases h0 : c.lastHourUnixTimestamp = 0
  · rcases doCall64_uninitialised c call h0 h.width_valid_or_unset a ha1 ha2 hr with
      ⟨r, c1, t0, g1, g2, g3, g4, g5, g6, k, g7⟩ | ⟨g1, c1, g2, _⟩
    · left
      have hv := effectiveWidth_valid c.minutesInBucket h.width_valid_or_unset
      have hk : 0 ≤ (k : Int) * (effectiveWidth c.minutesInBucket * 60) :=
        Int.mul_nonneg (by omega) (by have := hv.1; omega)
      have ht0 := (hr t0 (mem_of_getElem? g6)).1
      refine ⟨r, c1, g1, g2, ?_, ?_, ?_, ?_⟩
      · show a - 3600 ≤ c1.lastHourUnixTimestamp
        omega
      · rw [g4]
      · rw [g4]
      · rw [g4]
        show c.Timer.i + 2 ≤ c.Timer.timesToReturn.length
        omega
    · right
      refine ⟨c1, g2, ?_⟩
      unfold remainingReadings
      omega
  · have hi : Initialised c := by
      rcases h with h | h
      · exact h
      · exact absurd h.1 h0
    rcases doCall64_started c call hi h0 a ha1 ha2 hL hr with
      ⟨r, c1, g1, g2, g3, g4, g5, k, g6⟩ | ⟨g1, g2⟩
    · left
      have hk : 0 ≤ (k : Int) * (c.minutesInBucket * 60) :=
        Int.mul_nonneg (by omega) (by have := hi.1.1; omega)
      refine ⟨r, c1, g1, g2, ?_, ?_, ?_, ?_⟩
      · show a - 3600 ≤ c1.lastHourUnixTimestamp
        have : a - 3600 ≤ c.lastHourUnixTimestamp := hL
        omega
      · rw [g4]
      · rw [g4]
        show c.Timer.i + 1 ≤ c.Timer.i + 2
        omega
      · rw [g4]
        show c.Timer.i + 1 ≤ c.Timer.timesToReturn.length
        omega
    · right
      refine ⟨c, g1, ?_⟩
      unfold remainingReadings
      omega

/-- With a valid configuration and readings in range, a run of public calls can only
panic through the exhaustion of the time source, and does not panic when the time
source holds two values per call. -/
theorem runCalls64_safe (a : Int) (ha1 : -2 ^ 63 + 3600 ≤ a) (ha2 : a ≤ 0) :
    ∀ (calls : List Call) (c : LastHourCounter), Safe c →
    WindowInRange a c.lastHourUnixTimestamp →
    (∀ t ∈ c.Timer.timesToReturn, TimeInRange a t) →
    c.Timer.i ≤ c.Timer.timesToReturn.length →
    (∀ p, (runCalls64 calls c).panic? = some p → p = Panic.value timerPanicValue) ∧
    (2 * calls.length ≤ remainingReadings c → (runCalls64 calls c).panic? = none) := by
  intro calls
  induction calls with
  | nil =>
    intro c _ _ _ _
    constructor
    · intro p hp
      cases hp
    · intro _
      rfl
  | cons call calls ih =>
    intro c h hL hr hle
    rcases doCall64_safe c call h a ha1 ha2 hL hr with
      ⟨r, c1, hc, hi, hL1, ht1, ht2, ht3⟩ | ⟨c1, hc, hrem⟩
    · have e : runCalls64 (call :: calls) c = runCalls64 calls c1 := by
        simp only [runCalls64, hc]
      obtain ⟨g1, g2⟩ := ih c1 (Or.inl hi) hL1 (by rw [ht1]; exact hr) ht3
      rw [e]
      refine ⟨g1, ?_⟩
      intro hlen
      apply g2
      unfold remainingReadings at hlen ⊢
      rw [ht1]
      simp only [List.length_cons] at hlen
      omega
    · have e : runCalls64 (call :: calls) c = .panic (.value timerPanicValue) c1 := by
        simp only [runCalls64, hc]
      rw [e]
      constructor
      · intro p hp
        cases hp
        rfl
      · intro hlen
        simp only [List.length_cons] at hlen
        omega

/-! ## The claims on the program with 64-bit arithmetic -/

/-- C9 (as stated, refuted): with a bucket width of 4 minutes and a time source that
returns `-2^63 + 3600`, `-2^63 + 3600` and `2^63 - 1`, the first `Increment` returns and
the second panics with an index out of range: the difference between `2^63 - 1 - 3600`
and the window start is not a 64-bit integer, the number of buckets to shift comes out
as -15, and the first loop of the rotation reads the bucket of index -15. -/
theorem C9_counterexample :
    (doCall64 (fresh 4 [-2 ^ 63 + 3600, -2 ^ 63 + 3600, 2 ^ 63 - 1]) Call.Increment).panic?
      = none ∧
    (runCalls64 [Call.Increment, Call.Increment]
      (fresh 4 [-2 ^ 63 + 3600, -2 ^ 63 + 3600, 2 ^ 63 - 1])).panic?
      = some Panic.indexOutOfRange := by
  decide

/-- C9 (amended): for a bucket width that is a positive divisor of 60, or unset, a time
source whose values all lie in one interval `[a, a + 2^63)` with `-2^63 + 3600 ≤ a ≤ 0`
(for instance all times from 0 to `2^63 - 1`; in any order, also repeated or
decreasing), and any sequence of `Increment` and `Value` calls on a fresh counter, with
64-bit arithmetic: the only panic that can end the run is the one of the time source
when it has no value left; in particular no bucket index is out of range; and the run
does not panic at all when the time source holds two values per call. -/
theorem C9_calls_never_fail (w : Int) (times : List Int) (calls : List Call) (a : Int)
    (hvalid : w = 0 ∨ (0 < w ∧ 60 % w = 0))
    (ha1 : -2 ^ 63 + 3600 ≤ a) (ha2 : a ≤ 0)
    (hrange : ∀ t ∈ times, a ≤ t ∧ t < a + 2 ^ 63) :
    (∀ p, (runCalls64 calls (fresh w times)).panic? = some p →
      p = Panic.value timerPanicValue) ∧
    (runCalls64 calls (fresh w times)).panic? ≠ some Panic.indexOutOfRange ∧
    (2 * calls.length ≤ times.length → (runCalls64 calls (fresh w times)).panic? = none) := by
  obtain ⟨h1, h2⟩ := runCalls64_safe a ha1 ha2 calls (fresh w times)
    (fresh_safe w times hvalid)
    (by
      show a - 3600 ≤ (0 : Int)
      omega)
    hrange (Nat.zero_le _)
  refine ⟨h1, ?_, h2⟩
  intro hp
  have := h1 _ hp
  cases this

/-- C9 (amended), at width 30 (two buckets), with readings that jump forward by more
than two buckets, go backward and repeat. -/
theorem C9_calls_never_fail_witness :
    (∀ p, (runCalls64 [Call.Increment, Call.Value, Call.Increment, Call.Value]
        (fresh 30 [10000, 10000, 90000, 20000, 20000, 0, 0, 0])).panic? = some p →
        p = Panic.value timerPanicValue) ∧
    (runCalls64 [Call.Increment, Call.Value, Call.Increment, Call.Value]
        (fresh 30 [10000, 10000, 90000, 20000, 20000, 0, 0, 0])).panic?
        ≠ some Panic.indexOutOfRange ∧
    (2 * [Call.Increment, Call.Value, Call.Increment, Call.Value].length
        ≤ [(10000 : Int), 10000, 90000, 20000, 20000, 0, 0, 0].length →
      (runCalls64 [Call.Increment, Call.Value, Call.Increment, Call.Value]
        (fresh 30 [10000, 10000, 90000, 20000, 20000, 0, 0, 0])).panic? = none) :=
  C9_calls_never_fail 30 [10000, 10000, 90000, 20000, 20000, 0, 0, 0]
    [Call.Increment, Call.Value, Call.Increment, Call.Value] 0
    (Or.inr ⟨by decide, by decide⟩) (by decide) (by decide) (by decide)

/-- The first call on a fresh counter with a valid width, when the first value of the
time source is greater than 3600 and all values lie in an interval `[a, a + 2^63)` with
`-2^63 + 3600 ≤ a ≤ 0`: with a second value the
call returns a started counter after two readings; without one it panics on the
exhausted time source. -/
theorem doCall64_first {w : Int} (hv : ValidWidth w) (T0 : Int) (rest : List Int)
    (call : Call) (hT0 : 3600 < T0) (a : Int) (ha1 : -2 ^ 63 + 3600 ≤ a) (ha2 : a ≤ 0)
    (hr : ∀ t ∈ T0 :: rest, TimeInRange a t) :
    (∃ r c1, doCall64 (fresh w (T0 :: rest)) call = .ret r c1 ∧ Started c1 ∧
      c1.Timer = ⟨2, T0 :: rest⟩ ∧ 1 ≤ rest.length) ∨
    (rest = [] ∧
      ∃ c1, doCall64 (fresh w (T0 :: rest)) call = .panic (.value timerPanicValue) c1) := by
  rcases doCall64_uninitialised (fresh w (T0 :: rest)) call rfl (Or.inr hv) a ha1 ha2 hr with
    ⟨r, c1, t0, g1, g2, g3, g4, g5, g6, k, g7⟩ | ⟨g1, c1, g2, _⟩
  · left
    have ew : effectiveWidth w = w := by
      unfold effectiveWidth
      rw [if_neg (ne_of_gt hv.1)]
    have e0 : t0 = T0 := by
      have : (T0 :: rest)[0]? = some t0 := g6
      simp only [List.getElem?_cons_zero, Option.some.injEq] at this
      exact this.symm
    have hk : 0 ≤ (k : Int) * (w * 60) := Int.mul_nonneg (by omega) (by have := hv.1; omega)
    have g7' : c1.lastHourUnixTimestamp = t0 - 3600 + (k : Int) * (w * 60) := by
      rw [g7]
      show t0 - 3600 + (k : Int) * (effectiveWidth w * 60) = _
      rw [ew]
    have g5' : 0 + 1 < (T0 :: rest).length := g5
    simp only [List.length_cons] at g5'
    exact ⟨r, c1, g1, ⟨g2, by omega⟩, g4, by omega⟩
  · right
    have g1' : (T0 :: rest).length ≤ 0 + 1 := g1
    simp only [List.length_cons] at g1'
    have : rest.length = 0 := by omega
    exact ⟨List.length_eq_zero.mp this, c1, g2⟩

/-- C14 (as stated, refuted): with a bucket width of 5 minutes and a time source that
returns 3300, `Increment` initializes the counter and its rotation moves the window
start from -300 to 0, the value that stands for "not initialized"; the following
`Value` call initializes the counter a second time and returns 0: the recorded event
is discarded.  With a bucket width of 4 minutes and the readings 3616, 3616,
`-2^63 + 3599` and 3500, the subtraction of 3600 from the third reading wraps around,
the third call leaves the window start 0, and the fourth call initializes the counter
again. -/
theorem C14_counterexample :
    (initializations64 [Call.Increment, Call.Value] (fresh 5 [3300, 3300, 3300, 3300]) = 2 ∧
      (doCall64 (fresh 5 [3300, 3300, 3300, 3300]) Call.Increment).counter.lastHourUnixTimestamp
        = 0 ∧
      (runThenValue64 [Call.Increment] (fresh 5 [3300, 3300, 3300, 3300])).value? = some 0) ∧
    (initializations64 [Call.Increment, Call.Increment, Call.Increment, Call.Increment]
        (fresh 4 [3616, 3616, -2 ^ 63 + 3599, 3500, 3500, 3500]) = 2 ∧
      (runCalls64 [Call.Increment, Call.Increment, Call.Increment]
        (fresh 4 [3616, 3616, -2 ^ 63 + 3599, 3500, 3500, 3500])).counter.lastHourUnixTimestamp
        = 0) := by
  decide

/-- C14 (amended): for a valid bucket width, a time source whose first value is greater
than 3600 and whose values all lie in one interval `[a, a + 2^63)` with
`-2^63 + 3600 ≤ a ≤ 0` (for instance all times from 0 to `2^63 - 1`; otherwise
arbitrary), and a sequence of at least one public call on a fresh counter, with 64-bit
arithmetic: exactly one call executes `initialize`, and it is the first: the fresh
counter has the window start 0, and the counter that the first call returns has another
window start and is not initialized again by any of the following calls. -/
theorem C14_initialized_exactly_once (w T0 : Int) (rest : List Int) (call : Call)
    (calls : List Call) (a : Int) (hw : 0 < w) (hdiv : 60 % w = 0) (hT0 : 3600 < T0)
    (ha1 : -2 ^ 63 + 3600 ≤ a) (ha2 : a ≤ 0)
    (hrange : ∀ t ∈ T0 :: rest, a ≤ t ∧ t < a + 2 ^ 63) :
    initializations64 (call :: calls) (fresh w (T0 :: rest)) = 1 ∧
    (fresh w (T0 :: rest)).lastHourUnixTimestamp = 0 ∧
    (∀ r c1, doCall64 (fresh w (T0 :: rest)) call = .ret r c1 →
      c1.lastHourUnixTimestamp ≠ 0 ∧ initializations64 calls c1 = 0) := by
  have h0 : (fresh w (T0 :: rest)).lastHourUnixTimestamp = 0 := rfl
  rcases doCall64_first ⟨hw, hdiv⟩ T0 rest call hT0 a ha1 ha2 hrange with
    ⟨r, c1, h1, h2, h3, _⟩ | ⟨_, c1, h1⟩
  · have hrun := (runCalls64_started a ha1 ha2 calls c1 h2 (by rw [h3]; exact hrange)).1
    refine ⟨?_, h0, ?_⟩
    · simp only [initializations64, if_pos h0, h1, hrun]
    · intro r2 c2 hc
      rw [h1] at hc
      cases hc
      exact ⟨ne_of_gt h2.2, hrun⟩
  · refine ⟨?_, h0, ?_⟩
    · simp only [initializations64, if_pos h0, h1]
    · intro r2 c2 hc
      rw [h1] at hc
      cases hc

/-- C14 (amended), at width 4 with the readings 10000, 10000, 90000, 20000 and the calls
`Increment`, `Value`, `Increment`. -/
theorem C14_initialized_exactly_once_witness :
    initializations64 (Call.Increment :: [Call.Value, Call.Increment])
        (fresh 4 (10000 :: [10000, 90000, 20000])) = 1 ∧
    (fresh 4 (10000 :: [10000, 90000, 20000])).lastHourUnixTimestamp = 0 ∧
    (∀ r c1, doCall64 (fresh 4 (10000 :: [10000, 90000, 20000])) Call.Increment = .ret r c1 →
      c1.lastHourUnixTimestamp ≠ 0 ∧ initializations64 [Call.Value, Call.Increment] c1 = 0) :=
  C14_initialized_exactly_once 4 10000 [10000, 90000, 20000] Call.Increment
    [Call.Value, Call.Increment] 0 (by decide) (by decide) (by decide) (by decide)
    (by decide) (by decide)

/-- C15 (as stated, refuted): one `Increment` call on a fresh counter consumes two
values of the time source, one in `initialize` and one for the call; with exactly one
prepared value, as many as calls, the call panics with the value
"unexpected CurrentUnixTime call".  With the readings 3616, 3616, `-2^63 + 3599` and
3500 (width 4), whose third value makes the subtraction of 3600 wrap around, the third
call leaves the window start 0 and four calls consume six values. -/
theorem C15_counterexample :
    ((doCall64 (fresh 4 [10000, 10000, 10000]) Call.Increment).panic? = none ∧
      (doCall64 (fresh 4 [10000, 10000, 10000]) Call.Increment).counter.Timer.i = 2) ∧
    (runCalls64 [Call.Increment] (fresh 4 [10000])).panic?
      = some (Panic.value timerPanicValue) ∧
    ((runCalls64 [Call.Increment, Call.Increment, Call.Increment, Call.Increment]
        (fresh 4 [3616, 3616, -2 ^ 63 + 3599, 3500, 3500, 3500])).panic? = none ∧
      (runCalls64 [Call.Increment, Call.Increment, Call.Increment, Call.Increment]
        (fresh 4 [3616, 3616, -2 ^ 63 + 3599, 3500, 3500, 3500])).counter.Timer.i = 6) := by
  decide

/-- C15 (amended): for a valid bucket width, a time source whose first value is greater
than 3600, whose values all lie in one interval `[a, a + 2^63)` with
`-2^63 + 3600 ≤ a ≤ 0` (for instance all times from 0 to `2^63 - 1`), and which holds
one value more than there are calls, a sequence of `k ≥ 1` public calls on a fresh
counter, with 64-bit arithmetic, returns and consumes exactly `k + 1` values: the first
call reads the time source twice (once in `initialize`, once for the call) and every
later call reads it once. -/
theorem C15_readings_consumed (w T0 : Int) (rest : List Int) (call : Call)
    (calls : List Call) (a : Int) (hw : 0 < w) (hdiv : 60 % w = 0) (hT0 : 3600 < T0)
    (ha1 : -2 ^ 63 + 3600 ≤ a) (ha2 : a ≤ 0)
    (hrange : ∀ t ∈ T0 :: rest, a ≤ t ∧ t < a + 2 ^ 63)
    (hlen : (call :: calls).length + 1 ≤ (T0 :: rest).length) :
    ∃ c1, runCalls64 (call :: calls) (fresh w (T0 :: rest)) = .ret () c1 ∧
      c1.Timer = ⟨(call :: calls).length + 1, T0 :: rest⟩ ∧
      (doCall64 (fresh w (T0 :: rest)) call).counter.Timer.i = 2 := by
  simp only [List.length_cons] at hlen
  rcases doCall64_first ⟨hw, hdiv⟩ T0 rest call hT0 a ha1 ha2 hrange with
    ⟨r, c1, h1, h2, h4, h5⟩ | ⟨hnil, _⟩
  · obtain ⟨c2, g1, g2⟩ := (runCalls64_started a ha1 ha2 calls c1 h2
      (by rw [h4]; exact hrange)).2 (by
      rw [h4]
      show 2 + calls.length ≤ (T0 :: rest).length
      simp only [List.length_cons]
      omega)
    refine ⟨c2, ?_, ?_, ?_⟩
    · simp only [runCalls64, h1]
      exact g1
    · rw [g2, h4]
      show (⟨2 + calls.length, _⟩ : unixTimerMock) = ⟨calls.length + 1 + 1, _⟩
      congr 1
      omega
    · rw [h1]
      show c1.Timer.i = 2
      rw [h4]
  · rw [hnil] at hlen
    simp at hlen

/-- C15 (amended), at width 4 with the readings 10000, 10000, 10100, 13600 and the calls
`Increment`, `Increment`, `Value`. -/
theorem C15_readings_consumed_witness :
    ∃ c1, runCalls64 (Call.Increment :: [Call.Increment, Call.Value])
        (fresh 4 (10000 :: [10000, 10100, 13600])) = .ret () c1 ∧
      c1.Timer = ⟨(Call.Increment :: [Call.Increment, Call.Value]).length + 1,
        10000 :: [10000, 10100, 13600]⟩ ∧
      (doCall64 (fresh 4 (10000 :: [10000, 10100, 13600])) Call.Increment).counter.Timer.i
        = 2 :=
  C15_readings_consumed 4 10000 [10000, 10100, 13600] Call.Increment
    [Call.Increment, Call.Value] 0 (by decide) (by decide) (by decide) (by decide)
    (by decide) (by decide) (by decide)

/-- C12 (as stated, refuted): for a fresh counter of width 4 and a time source that
returns `-2^63`, the subtraction `CurrentUnixTime() - 60*60` wraps around and
`initialize` sets the window start to `2^63 - 3600`, not to `-2^63 - 3600`. -/
theorem C12_counterexample :
    (initialise64 (fresh 4 [-2 ^ 63])).panic? = none ∧
    (initialise64 (fresh 4 [-2 ^ 63])).counter.lastHourUnixTimestamp = 2 ^ 63 - 3600 ∧
    (2 ^ 63 - 3600 : Int) ≠ -2 ^ 63 - 3600 := by
  decide

/-- C12 (amended): for a fresh counter whose bucket width `w` is a positive divisor of
60, or is unset (0) and then taken as 4, `initialize` with 64-bit arithmetic, reading a
time `T0` with `-2^63 + 3600 ≤ T0 < 2^63`, returns, stores the width, allocates exactly
`60 / w` buckets (15 by default), all zero, and sets the window start to `T0 - 3600`. -/
theorem C12_initialization_postcondition (w T0 : Int) (rest : List Int)
    (hw : w = 0 ∨ (0 < w ∧ 60 % w = 0)) (hT0 : -2 ^ 63 + 3600 ≤ T0) (hT1 : T0 < 2 ^ 63) :
    ∃ c, initialise64 (fresh w (T0 :: rest)) = .ret () c ∧
      c.minutesInBucket = (if w = 0 then 4 else w) ∧
      (c.countPerBucket.length : Int) = 60 / (if w = 0 then 4 else w) ∧
      (w = 0 → c.countPerBucket.length = 15) ∧
      (∀ x ∈ c.countPerBucket, x = 0) ∧
      c.lastHourUnixTimestamp = T0 - 3600 ∧
      c.Timer = ⟨1, T0 :: rest⟩ := by
  have e : initialise64 (fresh w (T0 :: rest)) = initialise (fresh w (T0 :: rest)) := by
    apply initialise64_eq
    intro t ht
    have ht' : (T0 :: rest)[0]? = some t := ht
    simp only [List.getElem?_cons_zero, Option.some.injEq] at ht'
    rw [← ht']
    exact ⟨hT0, hT1⟩
  rw [e]
  exact initialise_fresh w T0 rest hw

/-- C12 (amended), for the unset width (default 4) and a first reading of 10000. -/
theorem C12_initialization_postcondition_witness :
    ∃ c, initialise64 (fresh 0 (10000 :: [10000])) = .ret () c ∧
      c.minutesInBucket = (if (0 : Int) = 0 then 4 else 0) ∧
      (c.countPerBucket.length : Int) = 60 / (if (0 : Int) = 0 then 4 else 0) ∧
      ((0 : Int) = 0 → c.countPerBucket.length = 15) ∧
      (∀ x ∈ c.countPerBucket, x = 0) ∧
      c.lastHourUnixTimestamp = 10000 - 3600 ∧
      c.Timer = ⟨1, 10000 :: [10000]⟩ :=
  C12_initialization_postcondition 0 10000 [10000] (Or.inl rfl) (by decide) (by decide)

/-- C16 (as stated, refuted), with one state for each of the three places where the
rotation can overflow.  (1) For the state with window start 6640, width 4 and the
fifteen buckets `1, 0, ..., 0, 2`, and the time `now = -2^63`, `now - 3600` is less than
the window start, so that nothing should change; but the subtraction `now - 60*60`
wraps around to `2^63 - 3600`, and the rotation moves the window start to `2^63 - 3568`
and sets every bucket to zero.  (2) For the state with window start `-2^63`, one bucket
holding 7 and width 60, and `now = 2^63 - 1`, `now - 3600` is not less than the window
start, so that the window start should move and the bucket become zero; but the
difference `hourAgo - lastHourUnixTimestamp` wraps around to -3601, the number of
buckets to shift comes out as 0, and nothing changes.  (3) For the state with window
start `2^63 - 10000`, one bucket and width 1000, and `now = 2^63 - 1`, one bucket is
to be shifted and the window start should become `2^63 + 50000`; the addition wraps
around and leaves `-2^63 + 50000`. -/
theorem C16_counterexample :
    (((-2 ^ 63 : Int) - 3600 < 6640) ∧
      adjustStateToCurrentTime64
          ⟨6640, [1, 0, 0, 0, 0, 0, 0, 0, 0, 0, 0, 0, 0, 0, 2], 4, ⟨0, []⟩⟩ (-2 ^ 63)
        = .ret ()
          ⟨2 ^ 63 - 3568, [0, 0, 0, 0, 0, 0, 0, 0, 0, 0, 0, 0, 0, 0, 0], 4, ⟨0, []⟩⟩) ∧
    (¬ ((2 ^ 63 - 1 : Int) - 3600 < -2 ^ 63) ∧
      adjustStateToCurrentTime64 ⟨-2 ^ 63, [7], 60, ⟨0, []⟩⟩ (2 ^ 63 - 1)
        = .ret () ⟨-2 ^ 63, [7], 60, ⟨0, []⟩⟩) ∧
    (¬ ((2 ^ 63 - 1 : Int) - 3600 < 2 ^ 63 - 10000) ∧
      (2 ^ 63 - 10000 : Int)
          + (((2 ^ 63 - 1 : Int) - 3600 - (2 ^ 63 - 10000)) / 60 / 1000 + 1) * 1000 * 60
        = 2 ^ 63 + 50000 ∧
      adjustStateToCurrentTime64 ⟨2 ^ 63 - 10000, [7], 1000, ⟨0, []⟩⟩ (2 ^ 63 - 1)
        = .ret () ⟨-2 ^ 63 + 50000, [0], 1000, ⟨0, []⟩⟩) := by
  decide

/-- C16 (amended): for a state with window start `L`, buckets `b` of length `n < 2^63`
and bucket width `w ≥ 1`, and a time `now` for which no 64-bit operation of the rotation
overflows (`-2^63 + 3600 ≤ now`, `now - 3600 - L < 2^63` and
`now - 3600 + w*60 < 2^63`), the rotation with 64-bit arithmetic returns; if
`now - 3600 < L` nothing is changed; otherwise, with
`k = floor(floor((now - 3600 - L) / 60) / w) + 1`, which is at least 1, the window start
becomes `L + k*w*60` and the buckets become `b'` of the same length with
`b'[i] = b[i+k]` when `i + k < n` and `b'[i] = 0` otherwise; the width and the time
source are unchanged. -/
theorem C16_rotation_algorithm (c : LastHourCounter) (now : Int)
    (hw : 1 ≤ c.minutesInBucket) (hno : NoOverflow c now) :
    ∃ c1, adjustStateToCurrentTime64 c now = .ret () c1 ∧
      (now - 3600 < c.lastHourUnixTimestamp → c1 = c) ∧
      (¬ now - 3600 < c.lastHourUnixTimestamp →
        1 ≤ (now - 3600 - c.lastHourUnixTimestamp) / 60 / c.minutesInBucket + 1 ∧
        c1.lastHourUnixTimestamp = c.lastHourUnixTimestamp +
          ((now - 3600 - c.lastHourUnixTimestamp) / 60 / c.minutesInBucket + 1)
            * c.minutesInBucket * 60 ∧
        c1.countPerBucket.length = c.countPerBucket.length ∧
        (∀ i, i < c.countPerBucket.length →
          c1.countPerBucket[i]? =
            if (i : Int) + ((now - 3600 - c.lastHourUnixTimestamp) / 60 / c.minutesInBucket + 1)
                < c.countPerBucket.length
            then c.countPerBucket[i +
              ((now - 3600 - c.lastHourUnixTimestamp) / 60 / c.minutesInBucket + 1).toNat]?
            else some 0) ∧
        c1.minutesInBucket = c.minutesInBucket ∧ c1.Timer = c.Timer) := by
  rw [adjustStateToCurrentTime64_eq c now hw hno]
  exact adjustStateToCurrentTime_algorithm c now hw

/-- C16 (amended), for the state with window start 6640, width 4 and the fifteen buckets
`1, 0, ..., 0, 2`, rotated to 10300. -/
theorem C16_rotation_algorithm_witness :
    ∃ c1, adjustStateToCurrentTime64
        ⟨6640, [1, 0, 0, 0, 0, 0, 0, 0, 0, 0, 0, 0, 0, 0, 2], 4, ⟨0, []⟩⟩ 10300 = .ret () c1 ∧
      ((10300 : Int) - 3600 < 6640 →
        c1 = ⟨6640, [1, 0, 0, 0, 0, 0, 0, 0, 0, 0, 0, 0, 0, 0, 2], 4, ⟨0, []⟩⟩) ∧
      (¬ (10300 : Int) - 3600 < 6640 →
        1 ≤ ((10300 : Int) - 3600 - 6640) / 60 / 4 + 1 ∧
        c1.lastHourUnixTimestamp = 6640 + (((10300 : Int) - 3600 - 6640) / 60 / 4 + 1) * 4 * 60 ∧
        c1.countPerBucket.length
          = ([1, 0, 0, 0, 0, 0, 0, 0, 0, 0, 0, 0, 0, 0, 2] : List Int).length ∧
        (∀ i, i < ([1, 0, 0, 0, 0, 0, 0, 0, 0, 0, 0, 0, 0, 0, 2] : List Int).length →
          c1.countPerBucket[i]? =
            if (i : Int) + (((10300 : Int) - 3600 - 6640) / 60 / 4 + 1)
                < ([1, 0, 0, 0, 0, 0, 0, 0, 0, 0, 0, 0, 0, 0, 2] : List Int).length
            then ([1, 0, 0, 0, 0, 0, 0, 0, 0, 0, 0, 0, 0, 0, 2] : List Int)[i +
              (((10300 : Int) - 3600 - 6640) / 60 / 4 + 1).toNat]?
            else some 0) ∧
        c1.minutesInBucket = 4 ∧ c1.Timer = ⟨0, []⟩) :=
  C16_rotation_algorithm
    ⟨6640, [1, 0, 0, 0, 0, 0, 0, 0, 0, 0, 0, 0, 0, 0, 2], 4, ⟨0, []⟩⟩ 10300 (by decide)
    (by decide)

/-- C20 (as stated, refuted): (1) for the state with window start `-2^63`, one bucket and
width 60, and the time `now = 2^63 - 1`, the difference between `now - 3600` and the
window start is not a 64-bit integer; the number of buckets to shift comes out as 0, and
the rotation returns with the window start still `-2^63`, which is not greater than
`now - 3600`.  (2) For the state with window start `2^63 - 10000`, one bucket and width
1000, and `now = 2^63 - 1`, the first bucket boundary after `now - 3600` is
`2^63 + 50000`, not a 64-bit integer; the rotation returns with the window start
`-2^63 + 50000`, which is not greater than `now - 3600`. -/
theorem C20_counterexample :
    (adjustStateToCurrentTime64 ⟨-2 ^ 63, [7], 60, ⟨0, []⟩⟩ (2 ^ 63 - 1)
        = .ret () ⟨-2 ^ 63, [7], 60, ⟨0, []⟩⟩ ∧
      ¬ ((2 ^ 63 - 1 : Int) - 3600 < -2 ^ 63)) ∧
    (adjustStateToCurrentTime64 ⟨2 ^ 63 - 10000, [7], 1000, ⟨0, []⟩⟩ (2 ^ 63 - 1)
        = .ret () ⟨-2 ^ 63 + 50000, [0], 1000, ⟨0, []⟩⟩ ∧
      ¬ ((2 ^ 63 - 1 : Int) - 3600 < -2 ^ 63 + 50000)) := by
  decide

/-- C20 (amended): for a state with bucket width `w ≥ 1` and fewer than `2^63` buckets
and a time `now` for which no 64-bit operation of the rotation overflows
(`-2^63 + 3600 ≤ now`, `now - 3600 - L < 2^63` and `now - 3600 + w*60 < 2^63`), the
rotation with 64-bit arithmetic returns and the window start is then greater than
`now - 3600`; when the call did rotate (`now - 3600` was at least the old window start)
the new window start is at most `now - 3600 + w*60`. -/
theorem C20_window_start_after_rotation (c : LastHourCounter) (now : Int)
    (hw : 1 ≤ c.minutesInBucket) (hno : NoOverflow c now) :
    ∃ c1, adjustStateToCurrentTime64 c now = .ret () c1 ∧
      now - 3600 < c1.lastHourUnixTimestamp ∧
      (c.lastHourUnixTimestamp ≤ now - 3600 →
        c1.lastHourUnixTimestamp ≤ now - 3600 + c.minutesInBucket * 60) := by
  rw [adjustStateToCurrentTime64_eq c now hw hno]
  exact adjustStateToCurrentTime_bound c now hw

/-- C20 (amended), for a state with window start 6640 and width 4, rotated to 10300. -/
theorem C20_window_start_after_rotation_witness :
    ∃ c1, adjustStateToCurrentTime64
        ⟨6640, [1, 0, 0, 0, 0, 0, 0, 0, 0, 0, 0, 0, 0, 0, 2], 4, ⟨0, []⟩⟩ 10300 = .ret () c1 ∧
      10300 - 3600 < c1.lastHourUnixTimestamp ∧
      ((6640 : Int) ≤ 10300 - 3600 → c1.lastHourUnixTimestamp ≤ 10300 - 3600 + 4 * 60) :=
  C20_window_start_after_rotation
    ⟨6640, [1, 0, 0, 0, 0, 0, 0, 0, 0, 0, 0, 0, 0, 0, 2], 4, ⟨0, []⟩⟩ 10300 (by decide)
    (by decide)

/-- C17 (as stated, refuted): (1) for the state with window start `2^63 - 10000`, one
bucket and width 1000, and the time `now = 2^63 - 1`, the rotation shifts one bucket and
the addition of `1000*60` to the window start wraps around: the rotation returns with
the window start `-2^63 + 50000`, which is before the old one.  (2) For the state with
window start `-2^63 + 240`, width 4 and fifteen zero buckets, and the time
`now = 2^63 - 1`, the difference between `now - 3600` and the window start is not a
64-bit integer; the number of buckets to shift comes out as -15, the window start is
moved by `-15 * 240` seconds, which wraps around to `2^63 - 3360`, and the rotation
panics with an index out of range.  The distance from the old window start to the new
one is not a multiple of `4*60`. -/
theorem C17_counterexample :
    (adjustStateToCurrentTime64 ⟨2 ^ 63 - 10000, [7], 1000, ⟨0, []⟩⟩ (2 ^ 63 - 1)
        = .ret () ⟨-2 ^ 63 + 50000, [0], 1000, ⟨0, []⟩⟩ ∧
      (-2 ^ 63 + 50000 : Int) < 2 ^ 63 - 10000) ∧
    ((adjustStateToCurrentTime64
        ⟨-2 ^ 63 + 240, [0, 0, 0, 0, 0, 0, 0, 0, 0, 0, 0, 0, 0, 0, 0], 4, ⟨0, []⟩⟩
        (2 ^ 63 - 1)).panic? = some Panic.indexOutOfRange ∧
      (adjustStateToCurrentTime64
        ⟨-2 ^ 63 + 240, [0, 0, 0, 0, 0, 0, 0, 0, 0, 0, 0, 0, 0, 0, 0], 4, ⟨0, []⟩⟩
        (2 ^ 63 - 1)).counter.lastHourUnixTimestamp = 2 ^ 63 - 3360 ∧
      ((2 ^ 63 - 3360 : Int) - (-2 ^ 63 + 240)) % (4 * 60) = 16) := by
  decide

/-- C17 (amended): for a state with bucket width `w ≥ 1`, with 64-bit arithmetic.
For a time `now` for which no operation of the rotation overflows
(`-2^63 + 3600 ≤ now`, `now - 3600 - L < 2^63`, `now - 3600 + w*60 < 2^63`, fewer than
`2^63` buckets), the rotation returns and either leaves the window start unchanged or
increases it by a positive whole multiple of `w*60`.  Hence, along a run of public calls
none of which initializes the counter, for readings of the time source that all lie in
one interval `[a, a + 2^63)` with `-2^63 + 3600 ≤ a` (for instance all times from 0 to
`2^63 - 1`; in any order), on a state with `w*60 ≤ 3600 - a`, a window start of at least
`a - 3600` (also negative) and fewer than `2^63` buckets (of any number): after the
calls `calls1` the window start is its first value plus a whole number `k ≥ 0` of times
`w*60`, and after the further calls `calls2` it is the window start after `calls1` plus
a whole number `j ≥ 0` of times `w*60`.  Likewise along a run on a counter that is not
yet initialized (window start 0, valid width, `a ≤ 0`) whose first call is the only one
that initializes it, reading `T0` for it: the window start is `T0 - 3600` plus a whole
number of times `w*60` after the first call and `calls1`, and that plus a whole number
of times `w*60` after the further calls `calls2`. -/
theorem C17_window_start_never_moves_backward (c : LastHourCounter) (now : Int)
    (calls1 calls2 : List Call) (a : Int) (call : Call) (T0 : Int)
    (hw : 1 ≤ c.minutesInBucket) :
    (NoOverflow c now →
      ∃ c1, adjustStateToCurrentTime64 c now = .ret () c1 ∧
        (c1.lastHourUnixTimestamp = c.lastHourUnixTimestamp ∨
          ∃ k : Int, 0 < k ∧
            c1.lastHourUnixTimestamp
              = c.lastHourUnixTimestamp + k * (c.minutesInBucket * 60))) ∧
    (-2 ^ 63 + 3600 ≤ a →
      c.minutesInBucket * 60 ≤ 3600 - a →
      a - 3600 ≤ c.lastHourUnixTimestamp →
      (c.countPerBucket.length : Int) < 2 ^ 63 →
      (∀ t ∈ c.Timer.timesToReturn, a ≤ t ∧ t < a + 2 ^ 63) →
      initializations64 (calls1 ++ calls2) c = 0 →
      ∃ k j : Nat,
        (runCalls64 calls1 c).counter.lastHourUnixTimestamp
          = c.lastHourUnixTimestamp + (k : Int) * (c.minutesInBucket * 60) ∧
        (runCalls64 (calls1 ++ calls2) c).counter.lastHourUnixTimestamp
          = (runCalls64 calls1 c).counter.lastHourUnixTimestamp
            + (j : Int) * (c.minutesInBucket * 60)) ∧
    (-2 ^ 63 + 3600 ≤ a → a ≤ 0 →
      c.lastHourUnixTimestamp = 0 →
      60 % c.minutesInBucket = 0 →
      c.Timer.timesToReturn[c.Timer.i]? = some T0 →
      (∀ t ∈ c.Timer.timesToReturn, a ≤ t ∧ t < a + 2 ^ 63) →
      initializations64 (call :: (calls1 ++ calls2)) c = 1 →
      ∃ k j : Nat,
        (runCalls64 (call :: calls1) c).counter.lastHourUnixTimestamp
          = T0 - 3600 + (k : Int) * (c.minutesInBucket * 60) ∧
        (runCalls64 (call :: (calls1 ++ calls2)) c).counter.lastHourUnixTimestamp
          = (runCalls64 (call :: calls1) c).counter.lastHourUnixTimestamp
            + (j : Int) * (c.minutesInBucket * 60)) := by
  have hw0 : 0 < c.minutesInBucket := by omega
  refine ⟨?_, ?_, ?_⟩
  · intro hno
    refine ⟨rotateTo c now, adjustStateToCurrentTime64_rotateTo c now hw hno, ?_⟩
    unfold rotateTo
    by_cases h : now - 3600 < c.lastHourUnixTimestamp
    · left
      rw [if_pos h]
    · right
      rw [if_neg h]
      refine ⟨bucketsToShift c.minutesInBucket c.lastHourUnixTimestamp now, ?_, ?_⟩
      · have := bucketsToShift_pos c.minutesInBucket c.lastHourUnixTimestamp now hw0 (by omega)
        omega
      · show c.lastHourUnixTimestamp + _ * c.minutesInBucket * 60 = _
        rw [mul_assoc]
  · intro ha hW hL hs hr hinit
    exact runCalls64_window_append a ha calls1 calls2 c hw hW hL hs hr hinit
  · intro ha1 ha2 h0 hdiv hT0 hr hinit
    exact runCalls64_window_first a ha1 ha2 c call calls1 calls2 T0 h0 ⟨hw0, hdiv⟩ hT0 hr hinit

/-- C17 (amended), for the state with the negative window start -2360, width 4 and the
fifteen buckets `0, ..., 0, 1`: a rotation to 5000, and a run of three calls that read
5000, 9000 and 1000; and for the fresh counter of width 4 with the readings 1000, 1000,
5000, 9000, 9000 and four calls, of which the first initializes the counter. -/
theorem C17_window_start_never_moves_backward_witness :
    (∃ c1, adjustStateToCurrentTime64
        ⟨-2360, [0, 0, 0, 0, 0, 0, 0, 0, 0, 0, 0, 0, 0, 0, 1], 4, ⟨0, [5000, 9000, 1000]⟩⟩
        5000 = .ret () c1 ∧
      (c1.lastHourUnixTimestamp = -2360 ∨
        ∃ k : Int, 0 < k ∧ c1.lastHourUnixTimestamp = -2360 + k * (4 * 60))) ∧
    (∃ k j : Nat,
      (runCalls64 [Call.Increment]
        ⟨-2360, [0, 0, 0, 0, 0, 0, 0, 0, 0, 0, 0, 0, 0, 0, 1], 4,
          ⟨0, [5000, 9000, 1000]⟩⟩).counter.lastHourUnixTimestamp
        = -2360 + (k : Int) * (4 * 60) ∧
      (runCalls64 ([Call.Increment] ++ [Call.Value, Call.Increment])
        ⟨-2360, [0, 0, 0, 0, 0, 0, 0, 0, 0, 0, 0, 0, 0, 0, 1], 4,
          ⟨0, [5000, 9000, 1000]⟩⟩).counter.lastHourUnixTimestamp
        = (runCalls64 [Call.Increment]
            ⟨-2360, [0, 0, 0, 0, 0, 0, 0, 0, 0, 0, 0, 0, 0, 0, 1], 4,
              ⟨0, [5000, 9000, 1000]⟩⟩).counter.lastHourUnixTimestamp
          + (j : Int) * (4 * 60)) ∧
    (∃ k j : Nat,
      (runCalls64 (Call.Increment :: [Call.Increment])
        (fresh 4 [1000, 1000, 5000, 9000, 9000])).counter.lastHourUnixTimestamp
        = 1000 - 3600 + (k : Int) * (4 * 60) ∧
      (runCalls64 (Call.Increment :: ([Call.Increment] ++ [Call.Value, Call.Value]))
        (fresh 4 [1000, 1000, 5000, 9000, 9000])).counter.lastHourUnixTimestamp
        = (runCalls64 (Call.Increment :: [Call.Increment])
            (fresh 4 [1000, 1000, 5000, 9000, 9000])).counter.lastHourUnixTimestamp
          + (j : Int) * (4 * 60)) :=
  ⟨(C17_window_start_never_moves_backward
      ⟨-2360, [0, 0, 0, 0, 0, 0, 0, 0, 0, 0, 0, 0, 0, 0, 1], 4, ⟨0, [5000, 9000, 1000]⟩⟩
      5000 [Call.Increment] [Call.Value, Call.Increment] 0 Call.Increment 0
      (by decide)).1 (by decide),
    (C17_window_start_never_moves_backward
      ⟨-2360, [0, 0, 0, 0, 0, 0, 0, 0, 0, 0, 0, 0, 0, 0, 1], 4, ⟨0, [5000, 9000, 1000]⟩⟩
      5000 [Call.Increment] [Call.Value, Call.Increment] 0 Call.Increment 0
      (by decide)).2.1
      (by decide) (by decide) (by decide) (by decide) (by decide) (by decide),
    (C17_window_start_never_moves_backward
      (fresh 4 [1000, 1000, 5000, 9000, 9000])
      0 [Call.Increment] [Call.Value, Call.Value] 0 Call.Increment 1000
      (by decide)).2.2
      (by decide) (by decide) (by decide) (by decide) (by decide) (by decide) (by decide)⟩

/-- When the rotation to a time does not overflow, neither does the rotation to an
earlier time that is at least `-2^63 + 3600`. -/
theorem NoOverflow.earlier {c : LastHourCounter} {t1 t2 : Int} (h : NoOverflow c t2)
    (h12 : t1 ≤ t2) (ht1 : -2 ^ 63 + 3600 ≤ t1) : NoOverflow c t1 := by
  obtain ⟨_, h2, h3, h4⟩ := h
  exact ⟨ht1, by omega, by omega, h4⟩

/-- When the rotation of a state to a time does not overflow, neither does the rotation
to that time of the state rotated to any time. -/
theorem NoOverflow.afterRotateTo {c : LastHourCounter} {t : Int} (h : NoOverflow c t)
    (hw : 0 < c.minutesInBucket) (t1 : Int) : NoOverflow (rotateTo c t1) t := by
  obtain ⟨h1, h2, h3, h4⟩ := h
  have hL := rotateTo_lastHour_ge c t1 hw
  refine ⟨h1, by omega, ?_, ?_⟩
  · rw [rotateTo_minutesInBucket]
    exact h3
  · rw [rotateTo_length c t1 hw]
    exact h4

set_option maxRecDepth 4000 in
/-- C11 (as stated, refuted): (1) for the state with window start 6640, width 4 and the
fifteen buckets `1, 0, ..., 0, 2`, and the times `-2^63 ≤ 0`: the rotation to `-2^63`
wraps around, moves the window start to `2^63 - 3568` and sets every bucket to zero, and
the rotation to 0 after it changes nothing more, whereas the rotation to 0 alone leaves
the state as it was.  (2) With a bucket width of 1 minute and a time source that returns
600, 600 and then 3540: an `Increment`, then a `Value` call at 3540, which moves the
window start to 0, the mark of an uninitialized counter, then a second `Value` call,
which initializes the counter again and returns 0; without the first `Value` call the
`Value` call at 3540 returns 1. -/
theorem C11_counterexample :
    (((-2 ^ 63 : Int) ≤ 0) ∧
      adjustStateToCurrentTime64
          ⟨6640, [1, 0, 0, 0, 0, 0, 0, 0, 0, 0, 0, 0, 0, 0, 2], 4, ⟨0, []⟩⟩ (-2 ^ 63)
        = .ret () ⟨2 ^ 63 - 3568, [0, 0, 0, 0, 0, 0, 0, 0, 0, 0, 0, 0, 0, 0, 0], 4, ⟨0, []⟩⟩ ∧
      adjustStateToCurrentTime64
          ⟨2 ^ 63 - 3568, [0, 0, 0, 0, 0, 0, 0, 0, 0, 0, 0, 0, 0, 0, 0], 4, ⟨0, []⟩⟩ 0
        = .ret () ⟨2 ^ 63 - 3568, [0, 0, 0, 0, 0, 0, 0, 0, 0, 0, 0, 0, 0, 0, 0], 4, ⟨0, []⟩⟩ ∧
      adjustStateToCurrentTime64
          ⟨6640, [1, 0, 0, 0, 0, 0, 0, 0, 0, 0, 0, 0, 0, 0, 2], 4, ⟨0, []⟩⟩ 0
        = .ret () ⟨6640, [1, 0, 0, 0, 0, 0, 0, 0, 0, 0, 0, 0, 0, 0, 2], 4, ⟨0, []⟩⟩) ∧
    ((runCalls64 [Call.Increment, Call.Value]
        (fresh 1 [600, 600, 3540, 3540, 3540])).counter.lastHourUnixTimestamp = 0 ∧
      (runThenValue64 [Call.Increment, Call.Value]
        (fresh 1 [600, 600, 3540, 3540, 3540])).value? = some 0 ∧
      (runThenValue64 [Call.Increment] (fresh 1 [600, 600, 3540])).value? = some 1) :=
  ⟨⟨by decide, by decide, by decide, by decide⟩, by decide, by decide, by decide⟩

/-- C11 (amended): for a counter state with bucket width `w ≥ 1` and times
`-2^63 + 3600 ≤ t1 ≤ t2` such that no 64-bit operation of the rotation to `t2`
overflows (`t2 - 3600 - L < 2^63`, `t2 - 3600 + w*60 < 2^63`, fewer than `2^63`
buckets), the rotation to `t1` returns and the rotation to `t2` after it gives exactly
what the rotation to `t2` alone gives.  Hence, on a counter whose window start is not 0,
a `Value` call at `t1` returns, and when it does not leave the window start at 0 (the
mark of an uninitialized counter), a `Value` call at `t2` that follows it returns the
same number, and leaves the same window start and buckets, as a `Value` call at `t2`
alone. -/
theorem C11_rotation_independent_of_frequency (c : LastHourCounter) (t1 t2 : Int)
    (m : unixTimerMock) (hw : 1 ≤ c.minutesInBucket) (h12 : t1 ≤ t2)
    (ht1 : -2 ^ 63 + 3600 ≤ t1) (hno : NoOverflow c t2) :
    (∃ c1, adjustStateToCurrentTime64 c t1 = .ret () c1 ∧
      adjustStateToCurrentTime64 c1 t2 = adjustStateToCurrentTime64 c t2) ∧
    (c.lastHourUnixTimestamp ≠ 0 →
      c.Timer.timesToReturn[c.Timer.i]? = some t1 →
      c.Timer.timesToReturn[c.Timer.i + 1]? = some t2 →
      m.timesToReturn[m.i]? = some t2 →
      ∃ v1 cA1, Value64 c = .ret v1 cA1 ∧
        (cA1.lastHourUnixTimestamp ≠ 0 →
          ∃ v cA2 cB, Value64 cA1 = .ret v cA2 ∧
            Value64 ⟨c.lastHourUnixTimestamp, c.countPerBucket, c.minutesInBucket, m⟩
              = .ret v cB ∧
            cA2.lastHourUnixTimestamp = cB.lastHourUnixTimestamp ∧
            cA2.countPerBucket = cB.countPerBucket)) := by
  have hw0 : 0 < c.minutesInBucket := by omega
  have hno1 : NoOverflow c t1 := hno.earlier h12 ht1
  constructor
  · refine ⟨rotateTo c t1, adjustStateToCurrentTime64_rotateTo c t1 hw hno1, ?_⟩
    rw [adjustStateToCurrentTime64_rotateTo _ t2
        (by rw [rotateTo_minutesInBucket]; exact hw) (hno.afterRotateTo hw0 t1),
      adjustStateToCurrentTime64_rotateTo c t2 hw hno, rotateTo_rotateTo c t1 t2 hw0 h12]
  · intro hL hr1 hr2 hm
    have hrA : refresh64 c = .ret () (rotateTo
        ⟨c.lastHourUnixTimestamp, c.countPerBucket, c.minutesInBucket,
          ⟨c.Timer.i + 1, c.Timer.timesToReturn⟩⟩ t1) := by
      rw [refresh64_started c hL hw (by
        intro t ht
        rw [hr1] at ht
        cases ht
        exact hno1), hr1]
    refine ⟨_, _, Value64_of_refresh64 hrA, ?_⟩
    intro hL1
    have hnoA : NoOverflow (rotateTo
        ⟨c.lastHourUnixTimestamp, c.countPerBucket, c.minutesInBucket,
          ⟨c.Timer.i + 1, c.Timer.timesToReturn⟩⟩ t1) t2 :=
      NoOverflow.afterRotateTo
        (show NoOverflow ⟨c.lastHourUnixTimestamp, c.countPerBucket, c.minutesInBucket,
          ⟨c.Timer.i + 1, c.Timer.timesToReturn⟩⟩ t2 from hno) hw0 t1
    have hrA2 : refresh64 (rotateTo
        ⟨c.lastHourUnixTimestamp, c.countPerBucket, c.minutesInBucket,
          ⟨c.Timer.i + 1, c.Timer.timesToReturn⟩⟩ t1)
        = .ret () (rotateTo
          ⟨(rotateTo ⟨c.lastHourUnixTimestamp, c.countPerBucket, c.minutesInBucket,
              ⟨c.Timer.i + 1, c.Timer.timesToReturn⟩⟩ t1).lastHourUnixTimestamp,
            (rotateTo ⟨c.lastHourUnixTimestamp, c.countPerBucket, c.minutesInBucket,
              ⟨c.Timer.i + 1, c.Timer.timesToReturn⟩⟩ t1).countPerBucket,
            (rotateTo ⟨c.lastHourUnixTimestamp, c.countPerBucket, c.minutesInBucket,
              ⟨c.Timer.i + 1, c.Timer.timesToReturn⟩⟩ t1).minutesInBucket,
            ⟨(rotateTo ⟨c.lastHourUnixTimestamp, c.countPerBucket, c.minutesInBucket,
              ⟨c.Timer.i + 1, c.Timer.timesToReturn⟩⟩ t1).Timer.i + 1,
              (rotateTo ⟨c.lastHourUnixTimestamp, c.countPerBucket, c.minutesInBucket,
              ⟨c.Timer.i + 1, c.Timer.timesToReturn⟩⟩ t1).Timer.timesToReturn⟩⟩ t2) := by
      have hread : (rotateTo ⟨c.lastHourUnixTimestamp, c.countPerBucket, c.minutesInBucket,
          ⟨c.Timer.i + 1, c.Timer.timesToReturn⟩⟩ t1).Timer.timesToReturn[
            (rotateTo ⟨c.lastHourUnixTimestamp, c.countPerBucket, c.minutesInBucket,
              ⟨c.Timer.i + 1, c.Timer.timesToReturn⟩⟩ t1).Timer.i]? = some t2 := by
        rw [rotateTo_Timer]
        exact hr2
      rw [refresh64_started _ hL1 (by rw [rotateTo_minutesInBucket]; exact hw) (by
        intro t ht
        rw [hread] at ht
        cases ht
        exact hnoA), hread]
    have hrB : refresh64 ⟨c.lastHourUnixTimestamp, c.countPerBucket, c.minutesInBucket, m⟩
        = .ret () (rotateTo
          ⟨c.lastHourUnixTimestamp, c.countPerBucket, c.minutesInBucket,
            ⟨m.i + 1, m.timesToReturn⟩⟩ t2) := by
      have hread : (⟨c.lastHourUnixTimestamp, c.countPerBucket, c.minutesInBucket, m⟩ :
          LastHourCounter).Timer.timesToReturn[(⟨c.lastHourUnixTimestamp, c.countPerBucket,
            c.minutesInBucket, m⟩ : LastHourCounter).Timer.i]? = some t2 := hm
      rw [refresh64_started ⟨c.lastHourUnixTimestamp, c.countPerBucket, c.minutesInBucket, m⟩
        hL hw (by
          intro t ht
          rw [hread] at ht
          cases ht
          exact hno), hread]
    have hrot := rotateTo_rotateTo
      ⟨c.lastHourUnixTimestamp, c.countPerBucket, c.minutesInBucket,
        ⟨c.Timer.i + 1, c.Timer.timesToReturn⟩⟩ t1 t2 hw0 h12
    have f1 := rotateTo_fields
      ⟨(rotateTo ⟨c.lastHourUnixTimestamp, c.countPerBucket, c.minutesInBucket,
          ⟨c.Timer.i + 1, c.Timer.timesToReturn⟩⟩ t1).lastHourUnixTimestamp,
        (rotateTo ⟨c.lastHourUnixTimestamp, c.countPerBucket, c.minutesInBucket,
          ⟨c.Timer.i + 1, c.Timer.timesToReturn⟩⟩ t1).countPerBucket,
        (rotateTo ⟨c.lastHourUnixTimestamp, c.countPerBucket, c.minutesInBucket,
          ⟨c.Timer.i + 1, c.Timer.timesToReturn⟩⟩ t1).minutesInBucket,
        ⟨(rotateTo ⟨c.lastHourUnixTimestamp, c.countPerBucket, c.minutesInBucket,
          ⟨c.Timer.i + 1, c.Timer.timesToReturn⟩⟩ t1).Timer.i + 1,
          (rotateTo ⟨c.lastHourUnixTimestamp, c.countPerBucket, c.minutesInBucket,
          ⟨c.Timer.i + 1, c.Timer.timesToReturn⟩⟩ t1).Timer.timesToReturn⟩⟩
      (rotateTo ⟨c.lastHourUnixTimestamp, c.countPerBucket, c.minutesInBucket,
          ⟨c.Timer.i + 1, c.Timer.timesToReturn⟩⟩ t1) t2 rfl rfl rfl
    rw [hrot] at f1
    have f2 := rotateTo_fields
      ⟨c.lastHourUnixTimestamp, c.countPerBucket, c.minutesInBucket,
        ⟨c.Timer.i + 1, c.Timer.timesToReturn⟩⟩
      ⟨c.lastHourUnixTimestamp, c.countPerBucket, c.minutesInBucket,
        ⟨m.i + 1, m.timesToReturn⟩⟩ t2 rfl rfl rfl
    refine ⟨_, _, _, Value64_of_refresh64 hrA2, ?_, f1.1.trans f2.1, f1.2.trans f2.2⟩
    rw [Value64_of_refresh64 hrB, f1.2.trans f2.2]

/-- C11 (amended), for the state with window start 6640, width 4 and the fifteen buckets
`1, 0, ..., 0, 2`, rotated to 10300 and then to 13700. -/
theorem C11_rotation_independent_of_frequency_witness :
    (∃ c1, adjustStateToCurrentTime64
        ⟨6640, [1, 0, 0, 0, 0, 0, 0, 0, 0, 0, 0, 0, 0, 0, 2], 4, ⟨0, [10300, 13700]⟩⟩ 10300
          = .ret () c1 ∧
      adjustStateToCurrentTime64 c1 13700 = adjustStateToCurrentTime64
        ⟨6640, [1, 0, 0, 0, 0, 0, 0, 0, 0, 0, 0, 0, 0, 0, 2], 4, ⟨0, [10300, 13700]⟩⟩ 13700) ∧
    (∃ v1 cA1,
      Value64 ⟨6640, [1, 0, 0, 0, 0, 0, 0, 0, 0, 0, 0, 0, 0, 0, 2], 4, ⟨0, [10300, 13700]⟩⟩
        = .ret v1 cA1 ∧
      (cA1.lastHourUnixTimestamp ≠ 0 →
        ∃ v cA2 cB, Value64 cA1 = .ret v cA2 ∧
          Value64 ⟨6640, [1, 0, 0, 0, 0, 0, 0, 0, 0, 0, 0, 0, 0, 0, 2], 4, ⟨0, [13700]⟩⟩
            = .ret v cB ∧
          cA2.lastHourUnixTimestamp = cB.lastHourUnixTimestamp ∧
          cA2.countPerBucket = cB.countPerBucket)) :=
  ⟨(C11_rotation_independent_of_frequency
      ⟨6640, [1, 0, 0, 0, 0, 0, 0, 0, 0, 0, 0, 0, 0, 0, 2], 4, ⟨0, [10300, 13700]⟩⟩ 10300 13700
      ⟨0, [13700]⟩ (by decide) (by decide) (by decide) (by decide)).1,
    (C11_rotation_independent_of_frequency
      ⟨6640, [1, 0, 0, 0, 0, 0, 0, 0, 0, 0, 0, 0, 0, 0, 2], 4, ⟨0, [10300, 13700]⟩⟩ 10300 13700
      ⟨0, [13700]⟩ (by decide) (by decide) (by decide) (by decide)).2
      (by decide) (by decide) (by decide) (by decide)⟩

/-- The newest bucket after a rotation is the newest bucket before it, or zero. -/
theorem rotateTo_newest (c : LastHourCounter) (now : Int) (hw : 0 < c.minutesInBucket)
    (v : Int)
    (hv : (rotateTo c now).countPerBucket[c.countPerBucket.length - 1]? = some v) :
    c.countPerBucket[c.countPerBucket.length - 1]? = some v ∨ v = 0 := by
  by_cases h : now - 3600 < c.lastHourUnixTimestamp
  · left
    unfold rotateTo at hv
    rw [if_pos h] at hv
    exact hv
  · right
    have hk := bucketsToShift_pos c.minutesInBucket c.lastHourUnixTimestamp now hw (by omega)
    unfold rotateTo at hv
    rw [if_neg h] at hv
    have hv' : (rotated (bucketsToShift c.minutesInBucket c.lastHourUnixTimestamp now).toNat
        c.countPerBucket)[c.countPerBucket.length - 1]? = some v := hv
    rw [rotated_getElem?, if_neg (by omega)] at hv'
    by_cases hlt : c.countPerBucket.length - 1 < c.countPerBucket.length
    · rw [if_pos hlt] at hv'
      cases hv'
      rfl
    · rw [if_neg hlt] at hv'
      cases hv'

/-- C13 (as stated, refuted): (1) on the state with window start 0, one bucket holding 5
and width 60, with a time source that returns 3000, the rotation to 3000 changes
nothing, so the claim gives the bucket 6 and the window start 0; but `Increment` finds
the window start 0, initializes the counter again and leaves the bucket 1 and the window
start 3000.  (2) On a state with width 0 the rotation divides by zero and `Increment`
panics.  (3) On the state with window start `-2^63 + 32`, width 4 and the fifteen buckets
`0, ..., 0, 1`, with a time source that returns `2^63 - 1`, the rotation overflows and
`Increment` panics with an index out of range.  (4) On a state whose newest bucket holds
`2^63 - 1`, the addition of 1 wraps around and leaves `-2^63`. -/
theorem C13_counterexample :
    (adjustStateToCurrentTime64 ⟨0, [5], 60, ⟨0, [3000, 3000]⟩⟩ 3000
        = .ret () ⟨0, [5], 60, ⟨0, [3000, 3000]⟩⟩ ∧
      Increment64 ⟨0, [5], 60, ⟨0, [3000, 3000]⟩⟩
        = .ret () ⟨3000, [1], 60, ⟨2, [3000, 3000]⟩⟩) ∧
    (Increment64 ⟨100, [5], 0, ⟨0, [10000]⟩⟩).panic? = some Panic.integerDivideByZero ∧
    (Increment64 ⟨-2 ^ 63 + 32, [0, 0, 0, 0, 0, 0, 0, 0, 0, 0, 0, 0, 0, 0, 1], 4,
      ⟨0, [2 ^ 63 - 1]⟩⟩).panic? = some Panic.indexOutOfRange ∧
    Increment64 ⟨100, [2 ^ 63 - 1], 60, ⟨0, [200]⟩⟩
      = .ret () ⟨100, [-2 ^ 63], 60, ⟨1, [200]⟩⟩ := by
  decide

/-- C13 (amended): for a counter state with a window start other than 0, a bucket width
`w ≥ 1`, at least one bucket and a newest bucket less than `2^63 - 1` (and at least
`-2^63`), and a time source whose next value is a time `now` for which no 64-bit
operation of the rotation overflows (`-2^63 + 3600 ≤ now`, `now - 3600 - L < 2^63`,
`now - 3600 + w*60 < 2^63`, fewer than `2^63` buckets), `Increment` with 64-bit
arithmetic returns and leaves the counter equal to the state rotated to `now` (after the
reading), except that the newest bucket is larger by exactly 1: the window start, the
width, the time source and every other bucket are those of the rotated state, and the
sum of the buckets is the rotated sum plus 1. -/
theorem C13_increment_adds_one_to_newest_bucket (c : LastHourCounter) (now : Int)
    (hL : c.lastHourUnixTimestamp ≠ 0) (hw : 1 ≤ c.minutesInBucket)
    (hlen : 0 < c.countPerBucket.length)
    (hread : c.Timer.timesToReturn[c.Timer.i]? = some now)
    (hno : NoOverflow c now)
    (hnewest : ∀ v, c.countPerBucket[c.countPerBucket.length - 1]? = some v →
      -2 ^ 63 ≤ v ∧ v < 2 ^ 63 - 1) :
    ∃ r c1,
      adjustStateToCurrentTime64
        ⟨c.lastHourUnixTimestamp, c.countPerBucket, c.minutesInBucket,
          ⟨c.Timer.i + 1, c.Timer.timesToReturn⟩⟩ now = .ret () r ∧
      Increment64 c = .ret () c1 ∧
      c1.lastHourUnixTimestamp = r.lastHourUnixTimestamp ∧
      c1.minutesInBucket = r.minutesInBucket ∧ c1.Timer = r.Timer ∧
      c1.countPerBucket.length = r.countPerBucket.length ∧
      r.countPerBucket.length = c.countPerBucket.length ∧
      c1.countPerBucket[c.countPerBucket.length - 1]?
        = (r.countPerBucket[c.countPerBucket.length - 1]?).map (fun v => v + 1) ∧
      (∀ j, j ≠ c.countPerBucket.length - 1 → c1.countPerBucket[j]? = r.countPerBucket[j]?) ∧
      c1.countPerBucket.sum = r.countPerBucket.sum + 1 := by
  have hw0 : 0 < c.minutesInBucket := by omega
  have hr : refresh64 c = .ret () (rotateTo
      ⟨c.lastHourUnixTimestamp, c.countPerBucket, c.minutesInBucket,
        ⟨c.Timer.i + 1, c.Timer.timesToReturn⟩⟩ now) := by
    rw [refresh64_started c hL hw (by
      intro t ht
      rw [hread] at ht
      cases ht
      exact hno), hread]
  have hlenr := rotateTo_length
    ⟨c.lastHourUnixTimestamp, c.countPerBucket, c.minutesInBucket,
      ⟨c.Timer.i + 1, c.Timer.timesToReturn⟩⟩ now hw0
  have hlenr' : (rotateTo ⟨c.lastHourUnixTimestamp, c.countPerBucket, c.minutesInBucket,
      ⟨c.Timer.i + 1, c.Timer.timesToReturn⟩⟩ now).countPerBucket.length
      = c.countPerBucket.length := hlenr
  have hlt : (rotateTo ⟨c.lastHourUnixTimestamp, c.countPerBucket, c.minutesInBucket,
      ⟨c.Timer.i + 1, c.Timer.timesToReturn⟩⟩ now).countPerBucket.length - 1
      < (rotateTo ⟨c.lastHourUnixTimestamp, c.countPerBucket, c.minutesInBucket,
      ⟨c.Timer.i + 1, c.Timer.timesToReturn⟩⟩ now).countPerBucket.length := by omega
  have hinc := Increment64_of_refresh64 hr _ (by omega) (List.getElem?_eq_getElem hlt)
  have hbound : wrap64 ((rotateTo ⟨c.lastHourUnixTimestamp, c.countPerBucket,
      c.minutesInBucket, ⟨c.Timer.i + 1, c.Timer.timesToReturn⟩⟩ now).countPerBucket[
        (rotateTo ⟨c.lastHourUnixTimestamp, c.countPerBucket, c.minutesInBucket,
          ⟨c.Timer.i + 1, c.Timer.timesToReturn⟩⟩ now).countPerBucket.length - 1] + 1)
      = (rotateTo ⟨c.lastHourUnixTimestamp, c.countPerBucket,
      c.minutesInBucket, ⟨c.Timer.i + 1, c.Timer.timesToReturn⟩⟩ now).countPerBucket[
        (rotateTo ⟨c.lastHourUnixTimestamp, c.countPerBucket, c.minutesInBucket,
          ⟨c.Timer.i + 1, c.Timer.timesToReturn⟩⟩ now).countPerBucket.length - 1] + 1 := by
    have hget : (rotateTo ⟨c.lastHourUnixTimestamp, c.countPerBucket,
        c.minutesInBucket, ⟨c.Timer.i + 1, c.Timer.timesToReturn⟩⟩ now).countPerBucket[
          c.countPerBucket.length - 1]?
        = some ((rotateTo ⟨c.lastHourUnixTimestamp, c.countPerBucket,
          c.minutesInBucket, ⟨c.Timer.i + 1, c.Timer.timesToReturn⟩⟩ now).countPerBucket[
            (rotateTo ⟨c.lastHourUnixTimestamp, c.countPerBucket, c.minutesInBucket,
              ⟨c.Timer.i + 1, c.Timer.timesToReturn⟩⟩ now).countPerBucket.length - 1]) := by
      rw [← List.getElem?_eq_getElem hlt, hlenr']
    rcases rotateTo_newest
      ⟨c.lastHourUnixTimestamp, c.countPerBucket, c.minutesInBucket,
        ⟨c.Timer.i + 1, c.Timer.timesToReturn⟩⟩ now hw0 _ hget with h | h
    · have := hnewest _ h
      exact wrap64_eq _ (by omega) (by omega)
    · rw [h]
      decide
  rw [hbound] at hinc
  obtain ⟨g1, g2, g3, g4⟩ := set_last_add_one _ c.countPerBucket.length hlenr' hlt
  exact ⟨_, _, adjustStateToCurrentTime64_rotateTo _ now hw hno, hinc, rfl, rfl, rfl, g1,
    hlenr', g2, g3, g4⟩

/-- C13 (amended), for the state with window start 6640, width 4 and the fifteen
buckets `1, 0, ..., 0, 2`, and an `Increment` that reads 10300. -/
theorem C13_increment_adds_one_to_newest_bucket_witness :
    ∃ r c1,
      adjustStateToCurrentTime64
        ⟨6640, [1, 0, 0, 0, 0, 0, 0, 0, 0, 0, 0, 0, 0, 0, 2], 4, ⟨0 + 1, [10300]⟩⟩ 10300
          = .ret () r ∧
      Increment64 ⟨6640, [1, 0, 0, 0, 0, 0, 0, 0, 0, 0, 0, 0, 0, 0, 2], 4, ⟨0, [10300]⟩⟩
        = .ret () c1 ∧
      c1.lastHourUnixTimestamp = r.lastHourUnixTimestamp ∧
      c1.minutesInBucket = r.minutesInBucket ∧ c1.Timer = r.Timer ∧
      c1.countPerBucket.length = r.countPerBucket.length ∧
      r.countPerBucket.length
        = ([1, 0, 0, 0, 0, 0, 0, 0, 0, 0, 0, 0, 0, 0, 2] : List Int).length ∧
      c1.countPerBucket[([1, 0, 0, 0, 0, 0, 0, 0, 0, 0, 0, 0, 0, 0, 2] : List Int).length - 1]?
        = (r.countPerBucket[([1, 0, 0, 0, 0, 0, 0, 0, 0, 0, 0, 0, 0, 0, 2] : List Int).length
            - 1]?).map (fun v => v + 1) ∧
      (∀ j, j ≠ ([1, 0, 0, 0, 0, 0, 0, 0, 0, 0, 0, 0, 0, 0, 2] : List Int).length - 1 →
        c1.countPerBucket[j]? = r.countPerBucket[j]?) ∧
      c1.countPerBucket.sum = r.countPerBucket.sum + 1 :=
  C13_increment_adds_one_to_newest_bucket
    ⟨6640, [1, 0, 0, 0, 0, 0, 0, 0, 0, 0, 0, 0, 0, 0, 2], 4, ⟨0, [10300]⟩⟩ 10300
    (by decide) (by decide) (by decide) (by decide) (by decide) (by decide)

end Counters
